import Mathlib

/-!
# Verification of the ts2rs TypeScript-to-Rust type resolver

This development is a shallow embedding of the `TypeResolver` class of
`src/js/ts2rs/src/resolver.ts` together with the `convert` façade, and proofs
of the specification claims about them.

Modelling conventions (documented once here, referenced throughout):

* The intermediate representation (`ResolvedType`, `CollectedType`, …) mirrors
  the tagged unions of the repository's `types.ts`.  The `documentation`
  fields (JSDoc strings carried through unchanged) are omitted: no stated
  property mentions them and they are threaded without inspection.
* A ts-morph `Type` handle is modelled by `Ty`: a structural `Shape` plus the
  observable symbol information (`getAliasSymbol`, `getSymbol`, `getText`,
  `getAliasTypeArguments`).  Recursive surface types (which are infinite
  regular trees) are represented by finite unrollings: a re-occurrence of a
  named type carries its symbol and an object shape whose internals are never
  inspected on the executed path, because the resolver dispatches on the
  symbol before looking at the structure.
* The ts-morph project/module machinery (`addSourceFileAtPath`,
  `getModuleSpecifierSourceFile`, import scanning) is collapsed: a `Program`
  is the list of all declarations visible to the project, and
  `findTypeDeclaration` is a name lookup over it.  This matches the source's
  final fallback, which scans every project source file; the "load module"
  calls become no-ops.
* JavaScript peculiarities are modelled faithfully where the code depends on
  them: `Map.set` keeps the original insertion position of an existing key,
  `String(v)` conversion, truthiness of `discriminantValue` (`0`, `""` and
  `undefined` are falsy), `getLiteralValue()` returning `undefined` for
  boolean literal types, and `split(/[-_\s]+/)` producing empty parts at the
  edges.
* Numeric literal values are modelled as `Int` (the repository only ever
  stringifies or compares them).
* Exceptions (`TypeConversionError`) are modelled with `Except`; the
  `try/finally` blocks only matter on the success path because an error
  discards the state.
* Recursion through the declaration graph is bounded by an explicit `fuel`
  argument; every function of the mutual block consumes one unit on entry and
  exhaustion is a distinguished error.  All stated properties quantify over
  the fuel or use a concrete sufficient amount.
-/

namespace Ts2Rs

/-! ## Literal scalar values

`getLiteralValue()` of ts-morph returns `string | number | undefined`
(boolean literal types expose no literal value); enum member values have the
same shape. -/

inductive LitScalar where
  | str (s : String)
  | num (n : Int)
  /-- only the IR's `LiteralType.value` can be a boolean; `getLiteralValue()`
  and enum member values never produce this constructor -/
  | bool (b : Bool)
deriving Repr, DecidableEq

/-- JavaScript `String(v)` on a literal value. -/
def jsStringOfScalar : LitScalar → String
  | .str s => s
  | .num n => toString n
  | .bool b => if b then "true" else "false"

/-- JavaScript truthiness of a literal value: `""` and `0` are falsy. -/
def scalarTruthy : LitScalar → Bool
  | .str s => !(s == "")
  | .num n => !(n == 0)
  | .bool b => b

/-! ## Intermediate representation (`types.ts`)

Mirrors `ResolvedType` and friends.  The TS `StructType` carries
`name`, `fields`, optional `typeParameters` (and documentation, omitted);
a "struct reference" is a `struct` node with empty `fields`, exactly as in
the source (`{ kind: "struct", name, fields: [] }`). -/

/-- `EnumVariant` of `types.ts`: `{ name, value?: string | number }`. -/
structure EnumVariant where
  name : String
  value : Option LitScalar
deriving Repr, DecidableEq

inductive Primitive where
  | string | number | boolean | null | undefined
deriving Repr, DecidableEq

mutual
inductive ResolvedType where
  | primitive (type_ : Primitive)
  | array (elementType : ResolvedType)
  | tuple (elements : List ResolvedType)
  | record (keyType : ResolvedType) (valueType : ResolvedType)
  | map (keyType : ResolvedType) (valueType : ResolvedType)
  | set (elementType : ResolvedType)
  | option (innerType : ResolvedType)
  | box (innerType : ResolvedType)
  | struct (name : String) (fields : List StructField) (typeParameters : Option (List String))
  | enum (name : String) (variants : List EnumVariant) (isStringEnum : Bool)
  | union (name : String) (variants : List UnionVariant) (discriminator : Option String)
  | literal (value : LitScalar)
  | json_value
  | type_alias (name : String) (aliasedType : ResolvedType)
deriving Repr

inductive StructField where
  | mk (name : String) (type_ : ResolvedType) (optional : Bool)
deriving Repr

inductive UnionVariant where
  | mk (name : String) (type_ : Option ResolvedType) (discriminatorValue : Option String)
deriving Repr
end

def StructField.name : StructField → String
  | .mk n _ _ => n

def StructField.type_ : StructField → ResolvedType
  | .mk _ t _ => t

def StructField.optional : StructField → Bool
  | .mk _ _ o => o

def UnionVariant.name : UnionVariant → String
  | .mk n _ _ => n

def UnionVariant.type_ : UnionVariant → Option ResolvedType
  | .mk _ t _ => t

def UnionVariant.discriminatorValue : UnionVariant → Option String
  | .mk _ _ d => d

/-- `resolvedType.kind === "option"`. -/
def ResolvedType.isOption : ResolvedType → Bool
  | .option _ => true
  | _ => false

/-- `resolvedType.kind === "json_value"`. -/
def ResolvedType.isJsonValue : ResolvedType → Bool
  | .json_value => true
  | _ => false

/-- `resolvedType.kind === "literal"`. -/
def ResolvedType.isLiteralNode : ResolvedType → Bool
  | .literal _ => true
  | _ => false

/-- A collected (top-level, emittable) type, `CollectedType` of `types.ts`.
The TS field `type` is restricted there to struct/enum/union/type-alias; we
store the `ResolvedType` that the resolver actually puts in it. -/
structure CollectedType where
  name : String
  type_ : ResolvedType
  sourceFile : String
deriving Repr

/-! ## The surface model: ts-morph `Type` handles, property signatures,
syntactic type nodes -/

/-- A symbol as the resolver observes it: its `getName()` and the source-file
path of `getDeclarations()?.[0]` when any declaration exists. -/
structure Sym where
  name : String
  declPath : Option String
deriving Repr, DecidableEq

mutual
/-- A ts-morph `Type` handle: structural shape + alias symbol + symbol +
`getText()` + `getAliasTypeArguments()`. -/
inductive Ty where
  | mk (shape : Shape) (aliasSym : Option Sym) (symbol : Option Sym)
       (text : String) (aliasTypeArguments : List Ty)

/-- The structural part of a type, covering exactly the discriminations the
resolver performs. `objectS` carries properties, index-signature value types
and `getTypeArguments()`; `otherS` is any type on which all the used
predicates are false (e.g. `bigint`, `symbol`). -/
inductive Shape where
  | nullS
  | undefinedS
  | stringS
  | numberS
  | booleanS
  | stringLitS (value : String)
  | numberLitS (value : Int)
  | booleanLitS (value : Bool)
  | anyS
  | unknownS
  | typeParameterS
  | arrayS (elem : Ty)
  | tupleS (elems : List Ty)
  | unionS (members : List Ty)
  | objectS (props : List PropSig) (stringIndex : Option Ty)
            (numberIndex : Option Ty) (typeArguments : List Ty)
  | otherS

/-- A property as observed through the checker: its name, its type
(`getType()` / `getTypeAtLocation(...)`, identical in the model), whether the
declaration is a `PropertySignature`, its question token, and its syntactic
type node (`getTypeNode()`). -/
inductive PropSig where
  | mk (name : String) (ty : Ty) (hasQuestionToken : Bool)
       (isPropertySignature : Bool) (typeNode : Option TNode)

/-- A syntactic type node, as inspected by `resolveTypeWithNode` /
`resolveTypeFromNode`. -/
inductive TNode where
  | mk (form : NForm) (ty : Ty)

inductive NForm where
  | unionN (nodes : List TNode)
  /-- a `LiteralType` node whose text is `"null"` -/
  | literalNullN
  | typeRefN (typeName : String) (typeArguments : List TNode)
  | arrayN (elemNode : TNode)
  | otherN (text : String)
end

namespace Ty

def shape : Ty → Shape
  | .mk s _ _ _ _ => s

def aliasSym : Ty → Option Sym
  | .mk _ a _ _ _ => a

def symbol : Ty → Option Sym
  | .mk _ _ s _ _ => s

def text : Ty → String
  | .mk _ _ _ t _ => t

def aliasTypeArguments : Ty → List Ty
  | .mk _ _ _ _ args => args

def isNull (t : Ty) : Bool := match t.shape with | .nullS => true | _ => false
def isUndefined (t : Ty) : Bool := match t.shape with | .undefinedS => true | _ => false
def isString (t : Ty) : Bool := match t.shape with | .stringS => true | _ => false
def isNumber (t : Ty) : Bool := match t.shape with | .numberS => true | _ => false
def isBoolean (t : Ty) : Bool := match t.shape with | .booleanS => true | _ => false
def isStringLiteral (t : Ty) : Bool := match t.shape with | .stringLitS _ => true | _ => false
def isNumberLiteral (t : Ty) : Bool := match t.shape with | .numberLitS _ => true | _ => false
def isBooleanLiteral (t : Ty) : Bool := match t.shape with | .booleanLitS _ => true | _ => false
def isAny (t : Ty) : Bool := match t.shape with | .anyS => true | _ => false
def isUnknown (t : Ty) : Bool := match t.shape with | .unknownS => true | _ => false
def isTypeParameter (t : Ty) : Bool := match t.shape with | .typeParameterS => true | _ => false
def isArray (t : Ty) : Bool := match t.shape with | .arrayS _ => true | _ => false
def isTuple (t : Ty) : Bool := match t.shape with | .tupleS _ => true | _ => false
def isUnion (t : Ty) : Bool := match t.shape with | .unionS _ => true | _ => false

/-- `Type.isObject()`: true for array, tuple and object types. -/
def isObject (t : Ty) : Bool :=
  match t.shape with
  | .arrayS _ | .tupleS _ | .objectS _ _ _ _ => true
  | _ => false

def getArrayElementType (t : Ty) : Option Ty :=
  match t.shape with | .arrayS e => some e | _ => none

def getTupleElements (t : Ty) : List Ty :=
  match t.shape with | .tupleS es => es | _ => []

def getUnionTypes (t : Ty) : List Ty :=
  match t.shape with | .unionS ms => ms | _ => []

def getProperties (t : Ty) : List PropSig :=
  match t.shape with | .objectS ps _ _ _ => ps | _ => []

def getStringIndexType (t : Ty) : Option Ty :=
  match t.shape with | .objectS _ si _ _ => si | _ => none

def getNumberIndexType (t : Ty) : Option Ty :=
  match t.shape with | .objectS _ _ ni _ => ni | _ => none

def getTypeArguments (t : Ty) : List Ty :=
  match t.shape with | .objectS _ _ _ args => args | _ => []

/-- `getLiteralValue()`: `undefined` for boolean literal types, as in the
TypeScript compiler. -/
def getLiteralValue (t : Ty) : Option LitScalar :=
  match t.shape with
  | .stringLitS v => some (.str v)
  | .numberLitS v => some (.num v)
  | _ => none

end Ty

namespace PropSig

def name : PropSig → String
  | .mk n _ _ _ _ => n

def ty : PropSig → Ty
  | .mk _ t _ _ _ => t

def hasQuestionToken : PropSig → Bool
  | .mk _ _ q _ _ => q

def isPropertySignature : PropSig → Bool
  | .mk _ _ _ p _ => p

def typeNode : PropSig → Option TNode
  | .mk _ _ _ _ n => n

end PropSig

namespace TNode

def form : TNode → NForm
  | .mk f _ => f

/-- `node.getType()`. -/
def ty : TNode → Ty
  | .mk _ t => t

/-- `node.getText()`; only the texts of keyword nodes (`otherN`) are ever
compared against `"string" / "number" / "boolean"`. -/
def getText (n : TNode) : String :=
  match n.form with
  | .otherN s => s
  | .literalNullN => "null"
  | .typeRefN nm _ => nm
  | .unionN _ => ""
  | .arrayN _ => ""

/-- The filter used on union-node members:
`n.getKind() === SyntaxKind.LiteralType && n.getText() === "null"`. -/
def isLiteralNullNode (n : TNode) : Bool :=
  match n.form with | .literalNullN => true | _ => false

end TNode

/-- `t.getProperty(name)`: first declared property of that name. -/
def getProperty (t : Ty) (propName : String) : Option PropSig :=
  t.getProperties.find? (fun p => p.name == propName)

/-! ## Declarations and programs -/

/-- An enum member: `getName()` and `getValue()`. -/
structure EnumMember where
  name : String
  value : Option LitScalar

inductive DeclBody where
  | interfaceDecl (typeParams : List String) (extendsList : List Ty) (props : List PropSig)
  | typeAliasDecl (ty : Ty)
  | enumDecl (members : List EnumMember)

structure Decl where
  name : String
  path : String
  exported : Bool
  body : DeclBody

/-- All declarations visible to the project (module graph collapsed; see the
header comment). -/
abbrev Program := List Decl

/-- `findTypeDeclaration`: lookup of an interface/type-alias/enum by name.
The source checks the current file, then named imports, then every project
source file; with the module graph collapsed this is a name lookup. -/
def findTypeDeclaration (P : Program) (typeName : String) : Option Decl :=
  P.find? (fun d => d.name == typeName)

end Ts2Rs
namespace Ts2Rs

/-! ## String helpers -/

/-- A separator character of the regex `[-_\s]+`. -/
def isSepChar (c : Char) : Bool := c == '-' || c == '_' || c.isWhitespace

mutual
/-- Accumulating scan for `jsSplitRuns`. -/
def splitRunsGo : List Char → List Char → List String
  | [], acc => [String.mk acc.reverse]
  | c :: cs, acc =>
    if isSepChar c then String.mk acc.reverse :: splitRunsSkip cs
    else splitRunsGo cs (c :: acc)

/-- Skips a maximal run of separators; the end of the input after a run
contributes a trailing empty part, as JavaScript `split` does. -/
def splitRunsSkip : List Char → List String
  | [] => [""]
  | c :: cs => if isSepChar c then splitRunsSkip cs else splitRunsGo cs [c]
end

/-- JavaScript `value.split(/[-_\s]+/)`: splits on maximal runs of `-`, `_`
and whitespace, keeping empty parts at the edges (`"".split` gives `[""]`,
`"-a"` gives `["", "a"]`, `"a-"` gives `["a", ""]`). -/
def jsSplitRuns (s : String) : List String := splitRunsGo s.data []

/-- `part.charAt(0).toUpperCase() + part.slice(1).toLowerCase()` (for the
empty part this is the empty string, as in JavaScript). -/
def capitalizePart (part : String) : String :=
  match part.data with
  | [] => ""
  | c :: cs => String.mk (c.toUpper :: cs.map Char.toLower)

/-- `toVariantName` of the resolver: split on `[-_\s]+`, capitalize each
part, join. -/
def toVariantName (value : String) : String :=
  String.join ((jsSplitRuns value).map capitalizePart)

/-- Character-list prefix test (structural, so concrete runs reduce
definitionally). -/
def isPrefixOfChars : List Char → List Char → Bool
  | [], _ => true
  | _ :: _, [] => false
  | a :: as, b :: bs => a == b && isPrefixOfChars as bs

def charsIncludes (sub : List Char) : List Char → Bool
  | [] => isPrefixOfChars sub []
  | c :: rest => isPrefixOfChars sub (c :: rest) || charsIncludes sub rest

/-- JavaScript `s.includes(sub)`. -/
def jsIncludes (s sub : String) : Bool := charsIncludes sub.data s.data

/-! ## The resolver's small pure predicates -/

def isFromNodeModules (filePath : String) : Bool :=
  jsIncludes filePath "node_modules" && !(jsIncludes filePath "node_modules/typescript/lib")

def isFromTypeScriptLib (filePath : String) : Bool :=
  jsIncludes filePath "node_modules/typescript/lib"

def builtInTypeNames : List String :=
  ["Array", "ReadonlyArray", "Record", "Map", "Set", "Date", "Promise",
   "Object", "Function", "String", "Number", "Boolean"]

/-- `isBuiltInType`: a type with an alias symbol is a named alias, never a
built-in; otherwise the symbol's name is checked against the list. -/
def isBuiltInType (t : Ty) : Bool :=
  if t.aliasSym.isSome then false
  else match t.symbol with
    | none => false
    | some s => builtInTypeNames.contains s.name

def isInternalType (symbolName : String) : Bool :=
  isPrefixOfChars "__".data symbolName.data || symbolName == "Object" ||
  symbolName == "Function"

def builtInAliasNames : List String :=
  ["Array", "ReadonlyArray", "Record", "Map", "Set", "Date", "Promise",
   "Partial", "Required", "Readonly", "Pick", "Omit", "Exclude", "Extract",
   "NonNullable", "ReturnType", "InstanceType", "Parameters"]

def isBuiltInAlias (aliasName : String) : Bool :=
  builtInAliasNames.contains aliasName

/-- `isLiteralUnion`: every member is a string/number/boolean literal, null
or undefined. -/
def isLiteralUnion (types : List Ty) : Bool :=
  types.all fun t =>
    t.isStringLiteral || t.isNumberLiteral || t.isBooleanLiteral ||
    t.isNull || t.isUndefined

/-- The per-candidate check of `isDiscriminatedUnion`: the property exists in
every object member and has a literal type there. -/
def isDiscriminantProp (objectTypes : List Ty) (propName : String) : Bool :=
  objectTypes.all fun t =>
    match getProperty t propName with
    | none => false
    | some p => p.ty.isStringLiteral || p.ty.isNumberLiteral || p.ty.isBooleanLiteral

/-- The object members of a union as filtered by the resolver:
`t.isObject() && !t.isNull() && !t.isUndefined()`. -/
def objectMembers (types : List Ty) : List Ty :=
  types.filter fun t => t.isObject && !t.isNull && !t.isUndefined

/-- `isDiscriminatedUnion`: at least two members, at least two object
members, and some property of the *first* object member is a discriminant of
all object members. -/
def isDiscriminatedUnion (types : List Ty) : Bool :=
  if types.length < 2 then false
  else
    let objectTypes := objectMembers types
    if objectTypes.length < 2 then false
    else match objectTypes with
      | [] => false
      | first :: _ =>
        (first.getProperties.map PropSig.name).any (isDiscriminantProp objectTypes)

/-! ## Resolver state, options, errors -/

/-- `ConversionOptions` (the fields the resolver and façade read;
`customTypeMappings`, `customHeader` etc. are consumed only by the emitter,
which is outside the properties stated here). -/
structure ConversionOptions where
  entryFile : String
  typeNames : Option (List String) := none
  outputPath : Option String := none
  strict : Bool := false

/-- Errors: `TypeConversionError (typeName, reason, sourceFile?)` plus the
fuel sentinel of the embedding. -/
inductive Err where
  | typeConversion (typeName : String) (reason : String) (sourceFile : Option String)
  | fuelExhausted
deriving Repr

/-- The mutable instance state of a `TypeResolver`. -/
structure St where
  collectedTypes : List (String × CollectedType) := []
  processingTypes : List String := []
  typeParameters : List String := []
  warnings : List String := []
deriving Repr

def St.empty : St := {}

/-- JS `Map.set`: replaces in place if the key exists, else appends. -/
def mapSet (m : List (String × CollectedType)) (k : String) (v : CollectedType) :
    List (String × CollectedType) :=
  if (m.find? (fun p => p.1 == k)).isSome then
    m.map fun p => if p.1 == k then (k, v) else p
  else m ++ [(k, v)]

/-- JS `Map.has`. -/
def mapHas (m : List (String × CollectedType)) (k : String) : Bool :=
  (m.find? (fun p => p.1 == k)).isSome

/-- JS `Map.get`. -/
def mapGet (m : List (String × CollectedType)) (k : String) : Option CollectedType :=
  (m.find? (fun p => p.1 == k)).map (·.2)

/-- JS `Set.add`. -/
def setAdd (l : List String) (x : String) : List String :=
  if l.contains x then l else l ++ [x]

/-- JS `Set.delete`. -/
def setDelete (l : List String) (x : String) : List String :=
  l.filter fun y => y != x

/-- Collect a type: `this.collectedTypes.set(name, {...})`. -/
def collect (st : St) (name : String) (ty : ResolvedType) (sourceFile : String) : St :=
  { st with collectedTypes := mapSet st.collectedTypes name ⟨name, ty, sourceFile⟩ }

/-- Append a warning. -/
def pushWarning (st : St) (w : String) : St :=
  { st with warnings := st.warnings ++ [w] }

/-- `handleValueFallback`: in strict mode raise `TypeConversionError`,
otherwise record a warning and produce `json_value`.  `typeText` models
`type?.getText()`. -/
def handleValueFallback (opts : ConversionOptions) (st : St) (reason : String)
    (typeText : Option String) (sourceFile : Option String) :
    Except Err (St × ResolvedType) :=
  let message := "Falling back to serde_json::Value: " ++ reason ++
    (match sourceFile with | some f => " (in " ++ f ++ ")" | none => "") ++
    (match typeText with | some tx => " (type: " ++ tx ++ ")" | none => "")
  if opts.strict then
    .error (.typeConversion (typeText.getD "unknown") reason sourceFile)
  else
    .ok (pushWarning st message, ResolvedType.json_value)

/-- `resolveEnum`: preserves member order; `isStringEnum` becomes true when
any member's value is a string. -/
def resolveEnum (st : St) (name : String) (path : String)
    (members : List EnumMember) : St :=
  let isStringEnum := members.any fun m =>
    match m.value with | some (.str _) => true | _ => false
  let variants : List EnumVariant := members.map fun m => ⟨m.name, m.value⟩
  collect st name (.enum name variants isStringEnum) path

/-- `resolveLiteralUnionAsEnum` (pure: it only reads literal values).
Null/undefined members are stripped; string literals set `isStringEnum`;
numeric literals get `Value<n>` names; boolean literals expose no literal
value and are skipped. -/
def resolveLiteralUnionAsEnum (name : String) (types : List Ty) : ResolvedType :=
  let step := fun (acc : List EnumVariant × Bool) (t : Ty) =>
    if t.isNull || t.isUndefined then acc
    else match t.getLiteralValue with
      | some (.str s) => (acc.1 ++ [⟨toVariantName s, some (.str s)⟩], true)
      | some (.num n) => (acc.1 ++ [⟨"Value" ++ toString n, some (.num n)⟩], acc.2)
      | _ => acc
  let r := types.foldl step ([], false)
  .enum name r.1 r.2

end Ts2Rs
namespace Ts2Rs

/-- `resolvedType.kind` is one of `"struct" | "enum" | "union"` — the check
at the end of `resolveTypeAlias`. -/
def ResolvedType.isNominal : ResolvedType → Bool
  | .struct _ _ _ | .enum _ _ _ | .union _ _ _ => true
  | _ => false

/-- The fixed context of a resolver run: the project and the options. -/
structure Ctx where
  P : Program
  opts : ConversionOptions

/-- The tail of `resolveInlineUnionType` after the null/undefined analysis:
literal-union refusal, then the generic union fallback. -/
def inlineUnionTail (opts : ConversionOptions) (st : St) (t : Ty) (sf : String) :
    Except Err (St × ResolvedType) :=
  if isLiteralUnion t.getUnionTypes then
    handleValueFallback opts st
      "Inline literal union cannot be converted (must be a named type)"
      (some t.text) (some sf)
  else
    handleValueFallback opts st "Union type could not be resolved"
      (some t.text) (some sf)

/-! ## The resolver proper

One mutually recursive block, every function consuming one unit of fuel on
entry.  Function names and branch order mirror `resolver.ts`; the inner
`for` loops of the source are the `…Loop` functions.  Each function's
doc comment names its source counterpart. -/

mutual

/-- `resolveTypeByName`: idempotence and cycle guards, declaration lookup
(raising `TypeConversionError` when missing), dispatch on declaration kind
with the `processingTypes` sentinel held for the duration (`try/finally`). -/
def resolveTypeByName (C : Ctx) : Nat → St → String → String → Except Err (St × Unit)
  | 0, _, _, _ => .error .fuelExhausted
  | fuel + 1, st, typeName, sfPath =>
    if mapHas st.collectedTypes typeName then .ok (st, ())
    else if st.processingTypes.contains typeName then .ok (st, ())
    else
      match findTypeDeclaration C.P typeName with
      | none => .error (.typeConversion typeName "Type declaration not found" (some sfPath))
      | some d =>
        let st₁ := { st with processingTypes := setAdd st.processingTypes typeName }
        let r :=
          match d.body with
          | .interfaceDecl tps exts props => resolveInterface C fuel st₁ d.name d.path tps exts props
          | .typeAliasDecl ty => resolveTypeAlias C fuel st₁ d.name d.path ty
          | .enumDecl ms => .ok (resolveEnum st₁ d.name d.path ms, ())
        match r with
        | .error e => .error e
        | .ok (st₂, _) =>
          .ok ({ st₂ with processingTypes := setDelete st₂.processingTypes typeName }, ())

/-- `resolveInterface`: pushes the type parameters into scope, flattens the
`extends` fields, resolves own properties, collects the struct and restores
the ambient type parameters. -/
def resolveInterface (C : Ctx) :
    Nat → St → String → String → List String → List Ty → List PropSig →
    Except Err (St × Unit)
  | 0, _, _, _, _, _, _ => .error .fuelExhausted
  | fuel + 1, st, name, path, typeParams, extendsList, props =>
    let previousTypeParams := st.typeParameters
    let st₀ := { st with typeParameters := typeParams.foldl setAdd st.typeParameters }
    match extendsFieldsLoop C fuel st₀ extendsList path with
    | .error e => .error e
    | .ok (st₁, baseFields) =>
      match resolvePropsLoop C fuel st₁ props path with
      | .error e => .error e
      | .ok (st₂, ownFields) =>
        let structType : ResolvedType :=
          .struct name (baseFields ++ ownFields)
            (if typeParams.length > 0 then some typeParams else none)
        let st₃ := collect st₂ name structType path
        .ok ({ st₃ with typeParameters := previousTypeParams }, ())

/-- The `extends` loop of `resolveInterface`. -/
def extendsFieldsLoop (C : Ctx) :
    Nat → St → List Ty → String → Except Err (St × List StructField)
  | 0, _, _, _ => .error .fuelExhausted
  | _fuel + 1, st, [], _ => .ok (st, [])
  | fuel + 1, st, b :: rest, path =>
    match extractFieldsFromType C fuel st b path with
    | .error e => .error e
    | .ok (st₁, fs) =>
      match extendsFieldsLoop C fuel st₁ rest path with
      | .error e => .error e
      | .ok (st₂, fss) => .ok (st₂, fs ++ fss)

/-- `extractFieldsFromType`: resolves the properties of a base type whose
first declaration is a `PropertySignature` (others are skipped). -/
def extractFieldsFromType (C : Ctx) :
    Nat → St → Ty → String → Except Err (St × List StructField)
  | 0, _, _, _ => .error .fuelExhausted
  | fuel + 1, st, baseTy, path =>
    resolvePropsLoop C fuel st
      (baseTy.getProperties.filter fun p => p.isPropertySignature) path

/-- The property loop shared by `resolveInterface` and
`extractFieldsFromType`. -/
def resolvePropsLoop (C : Ctx) :
    Nat → St → List PropSig → String → Except Err (St × List StructField)
  | 0, _, _, _ => .error .fuelExhausted
  | _fuel + 1, st, [], _ => .ok (st, [])
  | fuel + 1, st, p :: rest, path =>
    match resolveProperty C fuel st p path with
    | .error e => .error e
    | .ok (st₁, f) =>
      match resolvePropsLoop C fuel st₁ rest path with
      | .error e => .error e
      | .ok (st₂, fs) => .ok (st₂, f :: fs)

/-- `resolveProperty`: resolves the property's type, applies the
direct-recursion `box` rule (only when the result is a struct reference with
a truthy name to a type currently being processed), then the
wrap-in-`option`-unless-already-`option` rule for optional properties. -/
def resolveProperty (C : Ctx) :
    Nat → St → PropSig → String → Except Err (St × StructField)
  | 0, _, _, _ => .error .fuelExhausted
  | fuel + 1, st, p, sf =>
    match resolveType C fuel st p.ty sf with
    | .error e => .error e
    | .ok (st₁, rt0) =>
      let rt1 :=
        match rt0 with
        | .struct n fs tp =>
          if !(n == "") && st₁.processingTypes.contains n then
            .box (.struct n fs tp)
          else .struct n fs tp
        | r => r
      let rt2 := if p.hasQuestionToken && !rt1.isOption then .option rt1 else rt1
      .ok (st₁, .mk p.name rt2 p.hasQuestionToken)

/-- `resolveTypeAlias`: tuple aliases, object aliases with properties
(collected as structs), then the union/other dispatch
(`resolveTypeAliasUnionPart`). -/
def resolveTypeAlias (C : Ctx) :
    Nat → St → String → String → Ty → Except Err (St × Unit)
  | 0, _, _, _, _ => .error .fuelExhausted
  | fuel + 1, st, name, path, t =>
    if t.isTuple then
      match resolveTypesList C fuel st t.getTupleElements path with
      | .error e => .error e
      | .ok (st₁, elems) =>
        .ok (collect st₁ name (.type_alias name (.tuple elems)) path, ())
    else if t.isObject && !t.isArray && !(isBuiltInType t) then
      if t.getProperties.length > 0 then
        match resolveAliasPropsLoop C fuel st t.getProperties path with
        | .error e => .error e
        | .ok (st₁, fields) =>
          .ok (collect st₁ name (.struct name fields none) path, ())
      else resolveTypeAliasUnionPart C fuel st name path t
    else resolveTypeAliasUnionPart C fuel st name path t

/-- The property loop of the object branch of `resolveTypeAlias`: uses the
property's syntactic type node (`resolveTypeWithNode`); declarations that
are not property signatures lose optionality and node. -/
def resolveAliasPropsLoop (C : Ctx) :
    Nat → St → List PropSig → String → Except Err (St × List StructField)
  | 0, _, _, _ => .error .fuelExhausted
  | _fuel + 1, st, [], _ => .ok (st, [])
  | fuel + 1, st, p :: rest, path =>
    let isOptional := p.isPropertySignature && p.hasQuestionToken
    let node := if p.isPropertySignature then p.typeNode else none
    match resolveTypeWithNode C fuel st p.ty path node with
    | .error e => .error e
    | .ok (st₁, rt0) =>
      let rt := if isOptional && !rt0.isOption then .option rt0 else rt0
      match resolveAliasPropsLoop C fuel st₁ rest path with
      | .error e => .error e
      | .ok (st₂, fs) => .ok (st₂, StructField.mk p.name rt isOptional :: fs)

/-- The union branch of `resolveTypeAlias` (discriminated, literal, general)
and the trailing nominal-alias case. When the general union resolution
reports an unresolvable variant (`none`), the alias is *not* collected and a
warning naming it is recorded. -/
def resolveTypeAliasUnionPart (C : Ctx) :
    Nat → St → String → String → Ty → Except Err (St × Unit)
  | 0, _, _, _, _ => .error .fuelExhausted
  | fuel + 1, st, name, path, t =>
    if t.isUnion then
      let unionTypes := t.getUnionTypes
      if isDiscriminatedUnion unionTypes then
        match resolveDiscriminatedUnion C fuel st name unionTypes path with
        | .error e => .error e
        | .ok (st₁, u) => .ok (collect st₁ name u path, ())
      else if isLiteralUnion unionTypes then
        .ok (collect st name (resolveLiteralUnionAsEnum name unionTypes) path, ())
      else
        match resolveUnionType C fuel st name unionTypes path with
        | .error e => .error e
        | .ok (st₁, none) =>
          .ok (pushWarning st₁ ("Union type '" ++ name ++
            "' has unresolvable variants and will be used as serde_json::Value in other types (at "
            ++ path ++ ")"), ())
        | .ok (st₁, some u) => .ok (collect st₁ name u path, ())
    else
      match resolveType C fuel st t path with
      | .error e => .error e
      | .ok (st₁, rt) =>
        if rt.isNominal then .ok (collect st₁ name rt path, ())
        else .ok (st₁, ())

/-- `resolveTypeWithNode`: the syntactic `T | null` refinement on property
type nodes; otherwise defers to `resolveType`. -/
def resolveTypeWithNode (C : Ctx) :
    Nat → St → Ty → String → Option TNode → Except Err (St × ResolvedType)
  | 0, _, _, _, _ => .error .fuelExhausted
  | fuel + 1, st, t, sf, node =>
    match node with
    | some nd =>
      match nd.form with
      | .unionN typeNodes =>
        let nullNodes := typeNodes.filter TNode.isLiteralNullNode
        let nonNullNodes := typeNodes.filter fun n => !(TNode.isLiteralNullNode n)
        if nullNodes.length > 0 && nonNullNodes.length == 1 then
          match nonNullNodes with
          | [nn] =>
            match nn.form with
            | .typeRefN typeName args =>
              match findTypeDeclaration C.P typeName with
              | some _ =>
                match resolveTypeByName C fuel st typeName sf with
                | .error e => .error e
                | .ok (st₁, _) => .ok (st₁, .option (.struct typeName [] none))
              | none =>
                if typeName == "Array" then
                  match args with
                  | a :: _ =>
                    match resolveTypeFromNode C fuel st a sf with
                    | .error e => .error e
                    | .ok (st₁, et) => .ok (st₁, .option (.array et))
                  | [] => resolveType C fuel st t sf
                else resolveType C fuel st t sf
            | .arrayN elemNode =>
              match resolveTypeFromNode C fuel st elemNode sf with
              | .error e => .error e
              | .ok (st₁, et) => .ok (st₁, .option (.array et))
            | _ => resolveType C fuel st t sf
          | _ => resolveType C fuel st t sf
        else resolveType C fuel st t sf
      | _ => resolveType C fuel st t sf
    | none => resolveType C fuel st t sf

/-- `resolveTypeFromNode`: type references (with a special `Array` case),
keyword texts, then the checker type. -/
def resolveTypeFromNode (C : Ctx) :
    Nat → St → TNode → String → Except Err (St × ResolvedType)
  | 0, _, _, _ => .error .fuelExhausted
  | fuel + 1, st, node, sf =>
    match node.form with
    | .typeRefN typeName args =>
      if typeName == "Array" then
        match args with
        | a :: _ =>
          match resolveTypeFromNode C fuel st a sf with
          | .error e => .error e
          | .ok (st₁, et) => .ok (st₁, .array et)
        | [] => resolveFromNodeRef C fuel st typeName sf
      else resolveFromNodeRef C fuel st typeName sf
    | _ =>
      let text := node.getText
      if text == "string" then .ok (st, .primitive .string)
      else if text == "number" then .ok (st, .primitive .number)
      else if text == "boolean" then .ok (st, .primitive .boolean)
      else resolveType C fuel st node.ty sf

/-- The named-reference tail of `resolveTypeFromNode`: a local declaration
becomes a struct reference, otherwise `resolveImportedType`. -/
def resolveFromNodeRef (C : Ctx) :
    Nat → St → String → String → Except Err (St × ResolvedType)
  | 0, _, _, _ => .error .fuelExhausted
  | fuel + 1, st, typeName, sf =>
    match findTypeDeclaration C.P typeName with
    | some _ =>
      match resolveTypeByName C fuel st typeName sf with
      | .error e => .error e
      | .ok (st₁, _) => .ok (st₁, .struct typeName [] none)
    | none => resolveImportedType C fuel st typeName sf

/-- `resolveImportedType` (import scan collapsed to the project-wide
declaration lookup, see the header comment): resolve by name and fall back
to `json_value` when the name was not collected. -/
def resolveImportedType (C : Ctx) :
    Nat → St → String → String → Except Err (St × ResolvedType)
  | 0, _, _, _ => .error .fuelExhausted
  | fuel + 1, st, typeName, sf =>
    match findTypeDeclaration C.P typeName with
    | some _ =>
      match resolveTypeByName C fuel st typeName sf with
      | .error e => .error e
      | .ok (st₁, _) =>
        if !(mapHas st₁.collectedTypes typeName) then
          handleValueFallback C.opts st₁
            ("Type '" ++ typeName ++ "' could not be fully resolved") none (some sf)
        else .ok (st₁, .struct typeName [] none)
    | none => handleValueFallback C.opts st "Type could not be resolved" none (some sf)

/-- `resolveType`, head: the type-parameter check (first, deliberately before
the alias check) and the user-named-alias branch; the rest of the fixed
dispatch order is `resolveTypeAfterAlias`. -/
def resolveType (C : Ctx) :
    Nat → St → Ty → String → Except Err (St × ResolvedType)
  | 0, _, _, _ => .error .fuelExhausted
  | fuel + 1, st, t, sf =>
    if t.isTypeParameter then
      let typeParamName := match t.symbol with | some s => s.name | none => "unknown"
      handleValueFallback C.opts st
        ("Type parameter '" ++ typeParamName ++ "' cannot be resolved to concrete type")
        (some t.text) (some sf)
    else
      match t.aliasSym with
      | some a =>
        if isBuiltInAlias a.name then resolveTypeAfterAlias C fuel st t sf
        else if st.typeParameters.contains a.name then
          handleValueFallback C.opts st
            ("Type parameter '" ++ a.name ++ "' cannot be resolved to concrete type")
            (some t.text) (some sf)
        else
          match a.declPath with
          | some p =>
            match resolveTypeByName C fuel st a.name p with
            | .error e => .error e
            | .ok (st₁, _) =>
              if mapHas st₁.collectedTypes a.name || st₁.processingTypes.contains a.name then
                .ok (st₁, .struct a.name [] none)
              else resolveTypeAfterAlias C fuel st₁ t sf
          | none => resolveTypeAfterAlias C fuel st t sf
      | none => resolveTypeAfterAlias C fuel st t sf

/-- `resolveType`, fixed dispatch order after the alias branch: null,
undefined, primitives (literals collapse to their ground primitive),
any/unknown (`json_value`, deliberately without warning), the three
unreachable literal branches, arrays, tuples, unions, index signatures; the
remainder is `resolveTypeObjAlias`. -/
def resolveTypeAfterAlias (C : Ctx) :
    Nat → St → Ty → String → Except Err (St × ResolvedType)
  | 0, _, _, _ => .error .fuelExhausted
  | fuel + 1, st, t, sf =>
    if t.isNull then .ok (st, .primitive .null)
    else if t.isUndefined then .ok (st, .primitive .undefined)
    else if t.isString || t.isStringLiteral then .ok (st, .primitive .string)
    else if t.isNumber || t.isNumberLiteral then .ok (st, .primitive .number)
    else if t.isBoolean || t.isBooleanLiteral then .ok (st, .primitive .boolean)
    else if t.isAny || t.isUnknown then .ok (st, .json_value)
    else if t.isStringLiteral then
      -- unreachable: subsumed by the string branch above; the JS cast of the
      -- literal value is modelled with a default
      .ok (st, .literal (.str (match t.getLiteralValue with | some (.str s) => s | _ => "")))
    else if t.isNumberLiteral then
      .ok (st, .literal (.num (match t.getLiteralValue with | some (.num n) => n | _ => 0)))
    else if t.isBooleanLiteral then
      .ok (st, .literal (.bool (t.text == "true")))
    else if t.isArray then
      match t.getArrayElementType with
      | some elem =>
        match resolveType C fuel st elem sf with
        | .error e => .error e
        | .ok (st₁, et) => .ok (st₁, .array et)
      | none =>
        -- unreachable in the model (arrays always carry an element type);
        -- the source falls through the remaining checks, all false for arrays
        resolveTypeObjAlias C fuel st t sf
    else if t.isTuple then
      match resolveTypesList C fuel st t.getTupleElements sf with
      | .error e => .error e
      | .ok (st₁, es) => .ok (st₁, .tuple es)
    else if t.isUnion then resolveInlineUnionType C fuel st t sf
    else
      match t.getStringIndexType, t.getProperties.length == 0 with
      | some v, true =>
        match resolveType C fuel st v sf with
        | .error e => .error e
        | .ok (st₁, vt) => .ok (st₁, .record (.primitive .string) vt)
      | _, _ =>
        match t.getNumberIndexType, t.getProperties.length == 0 with
        | some v, true =>
          match resolveType C fuel st v sf with
          | .error e => .error e
          | .ok (st₁, vt) => .ok (st₁, .record (.primitive .number) vt)
        | _, _ => resolveTypeObjAlias C fuel st t sf

/-- The element loop for tuple types. -/
def resolveTypesList (C : Ctx) :
    Nat → St → List Ty → String → Except Err (St × List ResolvedType)
  | 0, _, _, _ => .error .fuelExhausted
  | _fuel + 1, st, [], _ => .ok (st, [])
  | fuel + 1, st, t :: rest, sf =>
    match resolveType C fuel st t sf with
    | .error e => .error e
    | .ok (st₁, rt) =>
      match resolveTypesList C fuel st₁ rest sf with
      | .error e => .error e
      | .ok (st₂, rts) => .ok (st₂, rt :: rts)

/-- The node-modules object-alias branch of `resolveType`: a named object
type from an external package with properties is either resolved as a
top-level declaration or materialized structurally under its bare symbol
name. -/
def resolveTypeObjAlias (C : Ctx) :
    Nat → St → Ty → String → Except Err (St × ResolvedType)
  | 0, _, _, _ => .error .fuelExhausted
  | fuel + 1, st, t, sf =>
    match t.aliasSym with
    | some a =>
      if t.isObject && t.getProperties.length > 0 then
        match a.declPath with
        | some filePath =>
          if isFromNodeModules filePath then
            match findTypeDeclaration C.P a.name with
            | some _ =>
              match resolveTypeByName C fuel st a.name filePath with
              | .error e => .error e
              | .ok (st₁, _) => .ok (st₁, .struct a.name [] none)
            | none =>
              if !(mapHas st.collectedTypes a.name) then
                match resolveObjectFields C fuel st t.getProperties sf with
                | .error e => .error e
                | .ok (st₁, fields) =>
                  .ok (collect st₁ a.name (.struct a.name fields none) filePath,
                       .struct a.name [] none)
              else .ok (st, .struct a.name [] none)
          else resolveTypeSymbol C fuel st t sf
        | none => resolveTypeSymbol C fuel st t sf
      else resolveTypeSymbol C fuel st t sf
    | none => resolveTypeSymbol C fuel st t sf

/-- The symbol dispatch of `resolveType`: well-known container names, `Date`,
`Promise` (fatal), internal names, then other named nominal types. -/
def resolveTypeSymbol (C : Ctx) :
    Nat → St → Ty → String → Except Err (St × ResolvedType)
  | 0, _, _, _ => .error .fuelExhausted
  | fuel + 1, st, t, sf =>
    match (match t.symbol with | some s => some s | none => t.aliasSym) with
    | none => resolveTypeAnon C fuel st t sf
    | some sym =>
      let symbolName := sym.name
      if symbolName == "Array" || symbolName == "ReadonlyArray" then
        match t.getTypeArguments with
        | a :: _ =>
          match resolveType C fuel st a sf with
          | .error e => .error e
          | .ok (st₁, et) => .ok (st₁, .array et)
        | [] => resolveTypeSymbolTail C fuel st t sf sym
      else if symbolName == "Record" then
        match t.getTypeArguments with
        | k :: v :: _ =>
          match resolveType C fuel st k sf with
          | .error e => .error e
          | .ok (st₁, kt) =>
            match resolveType C fuel st₁ v sf with
            | .error e => .error e
            | .ok (st₂, vt) => .ok (st₂, .record kt vt)
        | _ => resolveTypeSymbolTail C fuel st t sf sym
      else if symbolName == "Map" then
        match t.getTypeArguments with
        | k :: v :: _ =>
          match resolveType C fuel st k sf with
          | .error e => .error e
          | .ok (st₁, kt) =>
            match resolveType C fuel st₁ v sf with
            | .error e => .error e
            | .ok (st₂, vt) => .ok (st₂, .map kt vt)
        | _ => resolveTypeSymbolTail C fuel st t sf sym
      else if symbolName == "Set" then
        match t.getTypeArguments with
        | a :: _ =>
          match resolveType C fuel st a sf with
          | .error e => .error e
          | .ok (st₁, et) => .ok (st₁, .set et)
        | [] => resolveTypeSymbolTail C fuel st t sf sym
      else if symbolName == "Date" then .ok (st, .primitive .string)
      else if symbolName == "Promise" then
        .error (.typeConversion "Promise" "Promise types cannot be serialized to JSON" (some sf))
      else resolveTypeSymbolTail C fuel st t sf sym

/-- The tail of the symbol dispatch: internal types (with the `__type`
anonymous-object escape), then non-built-in named types resolved through
their declaration. -/
def resolveTypeSymbolTail (C : Ctx) :
    Nat → St → Ty → String → Sym → Except Err (St × ResolvedType)
  | 0, _, _, _, _ => .error .fuelExhausted
  | fuel + 1, st, t, sf, sym =>
    let symbolName := sym.name
    if isInternalType symbolName then
      if symbolName == "__type" && t.isObject && t.getProperties.length > 0 then
        resolveTypeAnon C fuel st t sf
      else
        handleValueFallback C.opts st
          ("Internal TypeScript type '" ++ symbolName ++ "' cannot be converted")
          (some t.text) (some sf)
    else if !(isBuiltInType t) then
      match sym.declPath with
      | some filePath =>
        if !(isFromTypeScriptLib filePath) then
          match resolveTypeByName C fuel st symbolName filePath with
          | .error e => .error e
          | .ok (st₁, _) =>
            if !(mapHas st₁.collectedTypes symbolName) &&
               !(st₁.processingTypes.contains symbolName) then
              handleValueFallback C.opts st₁
                ("Type '" ++ symbolName ++ "' could not be fully resolved")
                (some t.text) (some sf)
            else .ok (st₁, .struct symbolName [] none)
        else
          handleValueFallback C.opts st
            ("TypeScript lib type '" ++ symbolName ++ "' from '" ++ filePath ++
             "' cannot be resolved") (some t.text) (some sf)
      | none => .ok (st, .struct symbolName [] none)
    else resolveTypeAnon C fuel st t sf

/-- The anonymous-object branch of `resolveType` and the final fallback. -/
def resolveTypeAnon (C : Ctx) :
    Nat → St → Ty → String → Except Err (St × ResolvedType)
  | 0, _, _, _ => .error .fuelExhausted
  | fuel + 1, st, t, sf =>
    if t.isObject && !(isBuiltInType t) && t.getProperties.length > 0 then
      match resolveObjectFields C fuel st t.getProperties sf with
      | .error e => .error e
      | .ok (st₁, fields) => .ok (st₁, .struct "" fields none)
    else
      handleValueFallback C.opts st "Complex type could not be resolved"
        (some t.text) (some sf)

/-- The field loop shared by the node-modules materialization and the
anonymous-object branch. -/
def resolveObjectFields (C : Ctx) :
    Nat → St → List PropSig → String → Except Err (St × List StructField)
  | 0, _, _, _ => .error .fuelExhausted
  | _fuel + 1, st, [], _ => .ok (st, [])
  | fuel + 1, st, p :: rest, sf =>
    let isOptional := p.isPropertySignature && p.hasQuestionToken
    match resolveType C fuel st p.ty sf with
    | .error e => .error e
    | .ok (st₁, rt0) =>
      let rt := if isOptional && !rt0.isOption then .option rt0 else rt0
      match resolveObjectFields C fuel st₁ rest sf with
      | .error e => .error e
      | .ok (st₂, fs) => .ok (st₂, StructField.mk p.name rt isOptional :: fs)

/-- `resolveInlineUnionType`, head: a union carrying a non-generic alias
symbol is treated as a named reference; otherwise the null/undefined
partition (`resolveInlineUnionRest`). -/
def resolveInlineUnionType (C : Ctx) :
    Nat → St → Ty → String → Except Err (St × ResolvedType)
  | 0, _, _, _ => .error .fuelExhausted
  | fuel + 1, st, t, sf =>
    match t.aliasSym with
    | some a =>
      match a.declPath with
      | some filePath =>
        if t.aliasTypeArguments.length > 0 then resolveInlineUnionRest C fuel st t sf
        else
          match resolveTypeByName C fuel st a.name filePath with
          | .error e => .error e
          | .ok (st₁, _) =>
            if !(mapHas st₁.collectedTypes a.name) then
              handleValueFallback C.opts st₁
                ("Type '" ++ a.name ++ "' could not be fully resolved")
                (some t.text) (some sf)
            else .ok (st₁, .struct a.name [] none)
      | none => resolveInlineUnionRest C fuel st t sf
    | none => resolveInlineUnionRest C fuel st t sf

/-- `resolveInlineUnionType`, tail: `T | null`-style unions become `option`
(with the recursion `box` rule applied to the inner struct reference);
several non-null members become `option(json_value)` with no further
bookkeeping; the rest is `inlineUnionTail`. -/
def resolveInlineUnionRest (C : Ctx) :
    Nat → St → Ty → String → Except Err (St × ResolvedType)
  | 0, _, _, _ => .error .fuelExhausted
  | fuel + 1, st, t, sf =>
    let unionTypes := t.getUnionTypes
    let nullOrUndefinedTypes := unionTypes.filter fun x => x.isNull || x.isUndefined
    let nonNullTypes := unionTypes.filter fun x => !x.isNull && !x.isUndefined
    if nullOrUndefinedTypes.length > 0 then
      match nonNullTypes with
      | [m] =>
        match resolveType C fuel st m sf with
        | .error e => .error e
        | .ok (st₁, inner0) =>
          let inner :=
            match inner0 with
            | .struct n fs tp =>
              if !(n == "") && st₁.processingTypes.contains n then
                .box (.struct n fs tp)
              else .struct n fs tp
            | r => r
          .ok (st₁, .option inner)
      | _ :: _ :: _ => .ok (st, .option .json_value)
      | [] => inlineUnionTail C.opts st t sf
    else inlineUnionTail C.opts st t sf

/-- `resolveDiscriminatedUnion`: finds the discriminant (first qualifying
property of the first object member), then builds one variant per object
member. -/
def resolveDiscriminatedUnion (C : Ctx) :
    Nat → St → String → List Ty → String → Except Err (St × ResolvedType)
  | 0, _, _, _, _ => .error .fuelExhausted
  | fuel + 1, st, name, types, path =>
    let objectTypes := objectMembers types
    match objectTypes with
    | [] => .ok (st, .union name [] none)
    | first :: _ =>
      let discriminantProp :=
        (first.getProperties.map PropSig.name).find? (isDiscriminantProp objectTypes)
      match discVariantsLoop C fuel st discriminantProp objectTypes 0 path with
      | .error e => .error e
      | .ok (st₁, variants) => .ok (st₁, .union name variants discriminantProp)

/-- The variant loop of `resolveDiscriminatedUnion`: variant naming by the
(truthy) discriminator literal through `toVariantName`, positional
`Variant<i>` names otherwise; zero-field variants carry no payload. -/
def discVariantsLoop (C : Ctx) :
    Nat → St → Option String → List Ty → Nat → String →
    Except Err (St × List UnionVariant)
  | 0, _, _, _, _, _ => .error .fuelExhausted
  | _fuel + 1, st, _, [], _, _ => .ok (st, [])
  | fuel + 1, st, discriminantProp, t :: rest, idx, path =>
    let discriminantValue : Option LitScalar :=
      match discriminantProp with
      | some dp =>
        match getProperty t dp with
        | some p => p.ty.getLiteralValue
        | none => none
      | none => none
    let variantName :=
      match discriminantValue with
      | some v => if scalarTruthy v then toVariantName (jsStringOfScalar v)
                  else "Variant" ++ toString idx
      | none => "Variant" ++ toString idx
    let dv : Option String :=
      match discriminantValue with
      | some v => if scalarTruthy v then some (jsStringOfScalar v) else none
      | none => none
    match discVariantFieldsLoop C fuel st discriminantProp t t.getProperties path with
    | .error e => .error e
    | .ok (st₁, fields) =>
      let v :=
        if fields.length > 0 then
          UnionVariant.mk variantName (some (.struct variantName fields none)) dv
        else UnionVariant.mk variantName none dv
      match discVariantsLoop C fuel st₁ discriminantProp rest (idx + 1) path with
      | .error e => .error e
      | .ok (st₂, vs) => .ok (st₂, v :: vs)

/-- The field loop of a discriminated-union variant: the discriminant
property is skipped exactly when its declared type at this member is a
*string* literal. -/
def discVariantFieldsLoop (C : Ctx) :
    Nat → St → Option String → Ty → List PropSig → String →
    Except Err (St × List StructField)
  | 0, _, _, _, _, _ => .error .fuelExhausted
  | _fuel + 1, st, _, _, [], _ => .ok (st, [])
  | fuel + 1, st, discriminantProp, t, p :: rest, path =>
    let propName := p.name
    let propTypeOpt : Option Ty :=
      if discriminantProp == some propName then (getProperty t propName).map PropSig.ty
      else none
    let isStringDiscriminant :=
      discriminantProp == some propName &&
      (match propTypeOpt with | some pt => pt.isStringLiteral | none => false)
    if isStringDiscriminant then
      discVariantFieldsLoop C fuel st discriminantProp t rest path
    else
      let isOptional := p.isPropertySignature && p.hasQuestionToken
      match resolveType C fuel st p.ty path with
      | .error e => .error e
      | .ok (st₁, rt0) =>
        let rt := if isOptional && !rt0.isOption then .option rt0 else rt0
        match discVariantFieldsLoop C fuel st₁ discriminantProp t rest path with
        | .error e => .error e
        | .ok (st₂, fs) => .ok (st₂, StructField.mk propName rt isOptional :: fs)

/-- `resolveUnionType` (the general named union): `none` signals an
unresolvable variant. -/
def resolveUnionType (C : Ctx) :
    Nat → St → String → List Ty → String → Except Err (St × Option ResolvedType)
  | 0, _, _, _, _ => .error .fuelExhausted
  | fuel + 1, st, name, types, path =>
    match resolveUnionVariantsLoop C fuel st 0 types path with
    | .error e => .error e
    | .ok (st₁, (variants, hasUnresolvableType)) =>
      if hasUnresolvableType then .ok (st₁, none)
      else .ok (st₁, some (.union name variants none))

/-- The variant loop of `resolveUnionType`: null/undefined members are
skipped (the index still advances), variant names come from the symbol,
`json_value` results mark the union unresolvable. -/
def resolveUnionVariantsLoop (C : Ctx) :
    Nat → St → Nat → List Ty → String →
    Except Err (St × (List UnionVariant × Bool))
  | 0, _, _, _, _ => .error .fuelExhausted
  | _fuel + 1, st, _, [], _ => .ok (st, ([], false))
  | fuel + 1, st, i, t :: rest, path =>
    if t.isNull || t.isUndefined then
      resolveUnionVariantsLoop C fuel st (i + 1) rest path
    else
      let symOpt := match t.symbol with | some s => some s | none => t.aliasSym
      let variantName := match symOpt with | some s => s.name | none => "Variant" ++ toString i
      match resolveType C fuel st t path with
      | .error e => .error e
      | .ok (st₁, rt) =>
        let vtype : Option ResolvedType :=
          match rt with
          | .primitive .null => none
          | r => some r
        match resolveUnionVariantsLoop C fuel st₁ (i + 1) rest path with
        | .error e => .error e
        | .ok (st₂, (vs, hu)) =>
          .ok (st₂, (UnionVariant.mk variantName vtype none :: vs, rt.isJsonValue || hu))

end

end Ts2Rs
namespace Ts2Rs

/-! ## Entry points: `resolve()` and the `convert` façade -/

/-- The root loop for an explicit `typeNames` list. -/
def resolveRoots (C : Ctx) (fuel : Nat) : List String → St → Except Err St
  | [], st => .ok st
  | n :: rest, st =>
    match resolveTypeByName C fuel st n C.opts.entryFile with
    | .error e => .error e
    | .ok (st₁, _) => resolveRoots C fuel rest st₁

/-- `resolveAllExportedTypes`: every exported interface/type-alias/enum of
the entry module. -/
def resolveExportedLoop (C : Ctx) (fuel : Nat) : List Decl → St → Except Err St
  | [], st => .ok st
  | d :: rest, st =>
    match resolveTypeByName C fuel st d.name C.opts.entryFile with
    | .error e => .error e
    | .ok (st₁, _) => resolveExportedLoop C fuel rest st₁

/-- `TypeResolver.resolve()`: roots from `typeNames` when non-empty, else all
exported declarations of the entry file; returns the collected types in
insertion order (the final state is kept alongside for the stated
properties about warnings). -/
def resolveRun (C : Ctx) (fuel : Nat) : Except Err (St × List CollectedType) :=
  let r :=
    match C.opts.typeNames with
    | some (n :: ns) => resolveRoots C fuel (n :: ns) St.empty
    | _ =>
      resolveExportedLoop C fuel
        (C.P.filter fun d => d.path == C.opts.entryFile && d.exported) St.empty
  match r with
  | .error e => .error e
  | .ok st => .ok (st, st.collectedTypes.map (·.2))

/-- `ConversionResult` of `types.ts`. -/
structure ConversionResult where
  rustCode : String
  convertedTypes : List String
  warnings : List String
deriving Repr

/-- The `convert` façade (file I/O reified: the second component lists the
`(path, contents)` writes performed).  The Rust generator is a
parameter `gen`: the claims about `convert` concern only the empty-result
short-circuit, which returns before the generator runs. -/
def convert (C : Ctx) (gen : List CollectedType → ConversionResult) (fuel : Nat) :
    Except Err (ConversionResult × List (String × String)) :=
  match resolveRun C fuel with
  | .error e => .error e
  | .ok (_st, collectedTypes) =>
    if collectedTypes.length == 0 then
      .ok ({ rustCode := "// No types found to convert\n",
             convertedTypes := [],
             warnings := ["No exportable types found in the entry file"] }, [])
    else
      let result := gen collectedTypes
      match C.opts.outputPath with
      | some p => .ok (result, [(p, result.rustCode)])
      | none => .ok (result, [])

end Ts2Rs
namespace Ts2Rs

/-! ## Predicates used to state the properties -/

/-- `variantFieldNames`: the field names of a variant's payload struct. -/
def variantFieldNames (v : UnionVariant) : List String :=
  match v.type_ with
  | some (.struct _ fs _) => fs.map StructField.name
  | _ => []

mutual
/-- A *naked* occurrence of `struct_ref n`: reachable without passing
through any of `option`, `array`, `box`, `record`, `map`, `set` (the six
constructors the specification counts as sufficient indirection).  Struct
fields, tuple elements, union variants and alias bodies do *not* guard. -/
def nakedRefRT (n : String) : ResolvedType → Bool
  | .struct m fields _ => m == n || nakedRefFields n fields
  | .tuple es => nakedRefList n es
  | .union _ vs _ => nakedRefVariants n vs
  | .type_alias _ t => nakedRefRT n t
  | _ => false

def nakedRefFields (n : String) : List StructField → Bool
  | [] => false
  | .mk _ t _ :: fs => nakedRefRT n t || nakedRefFields n fs

def nakedRefList (n : String) : List ResolvedType → Bool
  | [] => false
  | t :: ts => nakedRefRT n t || nakedRefList n ts

def nakedRefVariants (n : String) : List UnionVariant → Bool
  | [] => false
  | .mk _ none _ :: vs => nakedRefVariants n vs
  | .mk _ (some t) _ :: vs => nakedRefRT n t || nakedRefVariants n vs
end

/-- The recursion-indirection invariant claimed by the specification, at one
`ResolvedType`: every transitive occurrence of `struct_ref n` passes through
one of the six indirection constructors (`box` on the path satisfies it,
since `nakedRefRT` stops at `box`). -/
def boxedRecursionOK (n : String) (rt : ResolvedType) : Bool := !(nakedRefRT n rt)

mutual
/-- Option normal form: no `option` node directly contains another
`option` node, anywhere in the tree. -/
def optionNF : ResolvedType → Bool
  | .primitive _ => true
  | .array e => optionNF e
  | .tuple es => optionNFList es
  | .record k v => optionNF k && optionNF v
  | .map k v => optionNF k && optionNF v
  | .set e => optionNF e
  | .option inner => !inner.isOption && optionNF inner
  | .box inner => optionNF inner
  | .struct _ fields _ => optionNFFields fields
  | .enum _ _ _ => true
  | .union _ vs _ => optionNFVariants vs
  | .literal _ => true
  | .json_value => true
  | .type_alias _ t => optionNF t

def optionNFFields : List StructField → Bool
  | [] => true
  | .mk _ t _ :: fs => optionNF t && optionNFFields fs

def optionNFList : List ResolvedType → Bool
  | [] => true
  | t :: ts => optionNF t && optionNFList ts

def optionNFVariants : List UnionVariant → Bool
  | [] => true
  | .mk _ none _ :: vs => optionNFVariants vs
  | .mk _ (some t) _ :: vs => optionNF t && optionNFVariants vs
end

mutual
/-- Whether a `json_value` node occurs anywhere in the tree. -/
def rtHasJsonValue : ResolvedType → Bool
  | .primitive _ => false
  | .array e => rtHasJsonValue e
  | .tuple es => rtHasJsonValueList es
  | .record k v => rtHasJsonValue k || rtHasJsonValue v
  | .map k v => rtHasJsonValue k || rtHasJsonValue v
  | .set e => rtHasJsonValue e
  | .option inner => rtHasJsonValue inner
  | .box inner => rtHasJsonValue inner
  | .struct _ fields _ => rtHasJsonValueFields fields
  | .enum _ _ _ => false
  | .union _ vs _ => rtHasJsonValueVariants vs
  | .literal _ => false
  | .json_value => true
  | .type_alias _ t => rtHasJsonValue t

def rtHasJsonValueFields : List StructField → Bool
  | [] => false
  | .mk _ t _ :: fs => rtHasJsonValue t || rtHasJsonValueFields fs

def rtHasJsonValueList : List ResolvedType → Bool
  | [] => false
  | t :: ts => rtHasJsonValue t || rtHasJsonValueList ts

def rtHasJsonValueVariants : List UnionVariant → Bool
  | [] => false
  | .mk _ none _ :: vs => rtHasJsonValueVariants vs
  | .mk _ (some t) _ :: vs => rtHasJsonValue t || rtHasJsonValueVariants vs
end

mutual
/-- Union-flattened surface types: every union's members are themselves not
unions (the TypeScript checker always hands the resolver flattened unions).
The claims about option normal form are stated under this hypothesis. -/
def flatTy : Ty → Bool
  | .mk s _ _ _ args => flatShape s && flatTyList args

def flatShape : Shape → Bool
  | .arrayS e => flatTy e
  | .tupleS es => flatTyList es
  | .unionS ms => notUnionList ms && flatTyList ms
  | .objectS props si ni targs =>
    flatProps props && flatOptTy si && flatOptTy ni && flatTyList targs
  | _ => true

def notUnionList : List Ty → Bool
  | [] => true
  | t :: ts => !t.isUnion && notUnionList ts

def flatOptTy : Option Ty → Bool
  | none => true
  | some t => flatTy t

def flatTyList : List Ty → Bool
  | [] => true
  | t :: ts => flatTy t && flatTyList ts

def flatProps : List PropSig → Bool
  | [] => true
  | .mk _ t _ _ node :: ps => flatTy t && flatOptNode node && flatProps ps

def flatOptNode : Option TNode → Bool
  | none => true
  | some nd => flatTNode nd

def flatTNode : TNode → Bool
  | .mk f t => flatNForm f && flatTy t

def flatNForm : NForm → Bool
  | .unionN ns => flatNodeList ns
  | .typeRefN _ args => flatNodeList args
  | .arrayN e => flatTNode e
  | _ => true

def flatNodeList : List TNode → Bool
  | [] => true
  | n :: ns => flatTNode n && flatNodeList ns
end

def flatDeclBody : DeclBody → Bool
  | .interfaceDecl _ exts props => flatTyList exts && flatProps props
  | .typeAliasDecl t => flatTy t
  | .enumDecl _ => true

def flatProg (P : Program) : Bool := P.all fun d => flatDeclBody d.body

/-- Every `ResolvedType` stored in the collected map is in option normal
form. -/
def stOk (st : St) : Bool := st.collectedTypes.all fun p => optionNF p.2.type_

end Ts2Rs
namespace Ts2Rs

/-! ## Spec-side predicate for discriminated-union recognition (C4)

A second definition following the specification's words, to be compared with
`isDiscriminatedUnion` (refinement statement): a union is discriminated when
it has at least two object members and some property name `d` is declared in
every object member with a literal (string, number or boolean) type. -/

def isLiteralTy (t : Ty) : Bool :=
  t.isStringLiteral || t.isNumberLiteral || t.isBooleanLiteral

/-- "there exists at least one property name `D` such that in every object
member, `D` is declared and its type is a literal" — the inner condition,
decidably, following the spec's words. -/
def specDiscProp (types : List Ty) (d : String) : Bool :=
  (objectMembers types).all fun t =>
    t.getProperties.any fun p => p.name == d && isLiteralTy p.ty

/-- The specification's recognition condition as a proposition. -/
def SpecDiscriminated (types : List Ty) : Prop :=
  2 ≤ (objectMembers types).length ∧ ∃ d, specDiscProp types d = true

/-! ## Concrete programs used by the counterexamples and witnesses -/

/-- A primitive/keyword type handle with no symbols. -/
def tyPrim (s : Shape) (txt : String) : Ty := .mk s none none txt []

def strTy : Ty := tyPrim .stringS "string"
def numTy : Ty := tyPrim .numberS "number"
def nullTy : Ty := tyPrim .nullS "null"
def anyTy : Ty := tyPrim .anyS "any"
/-- `bigint`: none of the resolver's predicates hold for it. -/
def bigintTy : Ty := tyPrim .otherS "bigint"

def entryPath : String := "/src/types.ts"

/-- The use-site handle of an interface named `n` declared in the entry
file: symbol set, alias symbol absent, object shape (whose internals the
resolver never inspects for such a handle — the symbol dispatch returns
first). -/
def ifaceRef (n : String) : Ty :=
  .mk (.objectS [] none none []) none (some ⟨n, some entryPath⟩) n []

/-- A required property signature without a syntactic node. -/
def prp (n : String) (t : Ty) : PropSig := .mk n t false true none

/-- C1 program: `interface N { f: A }` with `type A = { x: N }` (the claim's
"object-type-alias properties inside the resolution of N" case).
`tyNRef` is the use-site handle of `N`; `tyAObj` is the right-hand side of
the alias `A` (object type, alias symbol `A`); `tyARef` is the use-site
handle of `A`. -/
def tyNRef : Ty := ifaceRef "N"
def propX : PropSig := .mk "x" tyNRef false true (some (.mk (.typeRefN "N" []) tyNRef))
def tyAObj : Ty := .mk (.objectS [propX] none none []) (some ⟨"A", some entryPath⟩) none "A" []
def tyARef : Ty := .mk (.objectS [] none none []) (some ⟨"A", some entryPath⟩) none "A" []
def progC1 : Program :=
  [⟨"N", entryPath, true, .interfaceDecl [] [] [.mk "f" tyARef false true none]⟩,
   ⟨"A", entryPath, false, .typeAliasDecl tyAObj⟩]
def ctxC1 : Ctx := ⟨progC1, { entryFile := entryPath }⟩

/-- C1 witness program: the classic direct self-reference
`interface R { next: R }`. -/
def progR : Program :=
  [⟨"R", entryPath, true, .interfaceDecl [] [] [prp "next" (ifaceRef "R")]⟩]
def ctxR : Ctx := ⟨progR, { entryFile := entryPath }⟩

/-- C2 program: `interface A2 { data: any }` resolved in strict mode. -/
def progC2 : Program :=
  [⟨"A2", entryPath, true, .interfaceDecl [] [] [prp "data" anyTy]⟩]
def ctxC2 : Ctx := ⟨progC2, { entryFile := entryPath, strict := true }⟩

/-- C6 program: `type T6 = { kind: 0; a: number } | { kind: 1; b: number }`
— a numeric discriminator whose first value `0` is falsy in JavaScript. -/
def m0 : Ty :=
  .mk (.objectS [prp "kind" (tyPrim (.numberLitS 0) "0"), prp "a" numTy] none none [])
    none none "{ kind: 0; a: number }" []
def m1 : Ty :=
  .mk (.objectS [prp "kind" (tyPrim (.numberLitS 1) "1"), prp "b" numTy] none none [])
    none none "{ kind: 1; b: number }" []
def tyT6 : Ty := .mk (.unionS [m0, m1]) (some ⟨"T6", some entryPath⟩) none "T6" []
def progC6 : Program := [⟨"T6", entryPath, true, .typeAliasDecl tyT6⟩]
def ctxC6 : Ctx := ⟨progC6, { entryFile := entryPath }⟩

/-- C7 type: the inline union `string | number | null` (no alias symbol). -/
def tyU7 : Ty := .mk (.unionS [nullTy, strTy, numTy]) none none "string | number | null" []
def ctxC7 : Ctx := ⟨[], { entryFile := entryPath }⟩

/-- C8 program: `type U8 = string | bigint` — the `bigint` variant resolves
to `json_value`, so the general union is unresolvable. -/
def tyU8 : Ty := .mk (.unionS [strTy, bigintTy]) (some ⟨"U8", some entryPath⟩) none "U8" []
def progC8 : Program := [⟨"U8", entryPath, true, .typeAliasDecl tyU8⟩]
def ctxC8 : Ctx := ⟨progC8, { entryFile := entryPath }⟩

/-- C5 witness program:
`type S5 = { kind: "circle"; radius: number } | { kind: "rect"; w: number }`. -/
def mCircle : Ty :=
  .mk (.objectS [prp "kind" (tyPrim (.stringLitS "circle") "\"circle\""), prp "radius" numTy]
        none none []) none none "\x7b kind: \"circle\"; radius: number \x7d" []
def mRect : Ty :=
  .mk (.objectS [prp "kind" (tyPrim (.stringLitS "rect") "\"rect\""), prp "w" numTy]
        none none []) none none "\x7b kind: \"rect\"; w: number \x7d" []
def tyS5 : Ty := .mk (.unionS [mCircle, mRect]) (some ⟨"S5", some entryPath⟩) none "S5" []
def progC5 : Program := [⟨"S5", entryPath, true, .typeAliasDecl tyS5⟩]
def ctxC5 : Ctx := ⟨progC5, { entryFile := entryPath }⟩

/-- C10 witness context: empty program, output path set. -/
def ctxC10 : Ctx := ⟨[], { entryFile := entryPath, outputPath := some "/out/types.rs" }⟩

end Ts2Rs
namespace Ts2Rs

/-! ## Derived views of the discriminated-union loops (used in statements) -/

/-- The literal value of the discriminant property at a member, exactly as
`resolveDiscriminatedUnion` computes it
(`t.getProperty(d)?.getTypeAtLocation(...).getLiteralValue()`). -/
def discLiteralValue (d : Option String) (t : Ty) : Option LitScalar :=
  match d with
  | some dp =>
    match getProperty t dp with
    | some p => p.ty.getLiteralValue
    | none => none
  | none => none

/-- The variant name `resolveDiscriminatedUnion` assigns to the member at
index `i`: the (truthy) discriminator value through `toVariantName`,
positional `Variant<i>` otherwise. -/
def discVariantNameAt (d : Option String) (t : Ty) (i : Nat) : String :=
  match discLiteralValue d t with
  | some v => if scalarTruthy v then toVariantName (jsStringOfScalar v)
              else "Variant" ++ toString i
  | none => "Variant" ++ toString i

/-- The `discriminatorValue` carried on the variant: `String(v)` when the
literal value is truthy, absent otherwise. -/
def discVariantValueAt (d : Option String) (t : Ty) : Option String :=
  match discLiteralValue d t with
  | some v => if scalarTruthy v then some (jsStringOfScalar v) else none
  | none => none

/-- The skip test of the variant-field loop: the property is the
discriminant and its declared type (looked up via `getProperty`) is a string
literal. -/
def discSkip (d : Option String) (t : Ty) (p : PropSig) : Bool :=
  d == some p.name &&
  (match (getProperty t p.name).map PropSig.ty with
   | some pt => pt.isStringLiteral
   | none => false)

/-- The names of the member's properties that survive the skip test, in
order — the field names of the variant's payload. -/
def discKeptNames (d : Option String) (t : Ty) : List String :=
  (t.getProperties.filter fun p => !discSkip d t p).map PropSig.name

/-- The warning recorded when a named union has unresolvable variants. -/
def unresolvableUnionWarning (name path : String) : String :=
  "Union type '" ++ name ++
  "' has unresolvable variants and will be used as serde_json::Value in other types (at "
  ++ path ++ ")"

/-- The two variants the C5 run produces (used by the witness). -/
def v5c : UnionVariant :=
  .mk "Circle" (some (.struct "Circle" [.mk "radius" (.primitive .number) false] none))
    (some "circle")

def v5r : UnionVariant :=
  .mk "Rect" (some (.struct "Rect" [.mk "w" (.primitive .number) false] none)) (some "rect")

/-- The two variants the C6 run produces (used by the witness). -/
def v60 : UnionVariant :=
  .mk "Variant0" (some (.struct "Variant0"
    [.mk "kind" (.primitive .number) false, .mk "a" (.primitive .number) false] none)) none

def v61 : UnionVariant :=
  .mk "1" (some (.struct "1"
    [.mk "kind" (.primitive .number) false, .mk "b" (.primitive .number) false] none)) (some "1")

/-! ## The option-normal-form motive (C3)

`NF C fuel` packages, for every function of the resolver's mutual block at
a given fuel, the statement that successful calls preserve the collected-map
invariant `stOk` and return results in option normal form (plus, for the
`resolveType` dispatch chain, that non-union surface types never resolve to
a top-level `option`).  It is established for all fuels by induction. -/
structure NF (C : Ctx) (fuel : Nat) : Prop where
  byName : ∀ st tn sf st', stOk st = true →
    resolveTypeByName C fuel st tn sf = .ok (st', ()) → stOk st' = true
  iface : ∀ st name path tps exts props st', stOk st = true →
    flatTyList exts = true → flatProps props = true →
    resolveInterface C fuel st name path tps exts props = .ok (st', ()) →
    stOk st' = true
  extLoop : ∀ st exts path st' fs, stOk st = true → flatTyList exts = true →
    extendsFieldsLoop C fuel st exts path = .ok (st', fs) →
    stOk st' = true ∧ optionNFFields fs = true
  extract : ∀ st b path st' fs, stOk st = true → flatTy b = true →
    extractFieldsFromType C fuel st b path = .ok (st', fs) →
    stOk st' = true ∧ optionNFFields fs = true
  propsLoop : ∀ st props path st' fs, stOk st = true → flatProps props = true →
    resolvePropsLoop C fuel st props path = .ok (st', fs) →
    stOk st' = true ∧ optionNFFields fs = true
  prop : ∀ st p sf st' f, stOk st = true → flatTy p.ty = true →
    resolveProperty C fuel st p sf = .ok (st', f) →
    stOk st' = true ∧ optionNF f.type_ = true
  aliasT : ∀ st name path t st', stOk st = true → flatTy t = true →
    resolveTypeAlias C fuel st name path t = .ok (st', ()) → stOk st' = true
  aliasProps : ∀ st props path st' fs, stOk st = true → flatProps props = true →
    resolveAliasPropsLoop C fuel st props path = .ok (st', fs) →
    stOk st' = true ∧ optionNFFields fs = true
  aliasUnion : ∀ st name path t st', stOk st = true → flatTy t = true →
    resolveTypeAliasUnionPart C fuel st name path t = .ok (st', ()) →
    stOk st' = true
  withNode : ∀ st t sf node st' rt, stOk st = true → flatTy t = true →
    flatOptNode node = true →
    resolveTypeWithNode C fuel st t sf node = .ok (st', rt) →
    stOk st' = true ∧ optionNF rt = true
  fromNode : ∀ st node sf st' rt, stOk st = true → flatTNode node = true →
    resolveTypeFromNode C fuel st node sf = .ok (st', rt) →
    stOk st' = true ∧ optionNF rt = true
  nodeRef : ∀ st tn sf st' rt, stOk st = true →
    resolveFromNodeRef C fuel st tn sf = .ok (st', rt) →
    stOk st' = true ∧ optionNF rt = true
  imported : ∀ st tn sf st' rt, stOk st = true →
    resolveImportedType C fuel st tn sf = .ok (st', rt) →
    stOk st' = true ∧ optionNF rt = true
  type_ : ∀ st t sf st' rt, stOk st = true → flatTy t = true →
    resolveType C fuel st t sf = .ok (st', rt) →
    stOk st' = true ∧ optionNF rt = true ∧
      (t.isUnion = false → rt.isOption = false)
  afterAlias : ∀ st t sf st' rt, stOk st = true → flatTy t = true →
    resolveTypeAfterAlias C fuel st t sf = .ok (st', rt) →
    stOk st' = true ∧ optionNF rt = true ∧
      (t.isUnion = false → rt.isOption = false)
  typesList : ∀ st ts sf st' rts, stOk st = true → flatTyList ts = true →
    resolveTypesList C fuel st ts sf = .ok (st', rts) →
    stOk st' = true ∧ optionNFList rts = true
  objAlias : ∀ st t sf st' rt, stOk st = true → flatTy t = true →
    resolveTypeObjAlias C fuel st t sf = .ok (st', rt) →
    stOk st' = true ∧ optionNF rt = true ∧ rt.isOption = false
  symbol : ∀ st t sf st' rt, stOk st = true → flatTy t = true →
    resolveTypeSymbol C fuel st t sf = .ok (st', rt) →
    stOk st' = true ∧ optionNF rt = true ∧ rt.isOption = false
  symbolTail : ∀ st t sf sym st' rt, stOk st = true → flatTy t = true →
    resolveTypeSymbolTail C fuel st t sf sym = .ok (st', rt) →
    stOk st' = true ∧ optionNF rt = true ∧ rt.isOption = false
  anon : ∀ st t sf st' rt, stOk st = true → flatTy t = true →
    resolveTypeAnon C fuel st t sf = .ok (st', rt) →
    stOk st' = true ∧ optionNF rt = true ∧ rt.isOption = false
  objFields : ∀ st props sf st' fs, stOk st = true → flatProps props = true →
    resolveObjectFields C fuel st props sf = .ok (st', fs) →
    stOk st' = true ∧ optionNFFields fs = true
  inlineU : ∀ st t sf st' rt, stOk st = true → flatTy t = true →
    resolveInlineUnionType C fuel st t sf = .ok (st', rt) →
    stOk st' = true ∧ optionNF rt = true
  inlineRest : ∀ st t sf st' rt, stOk st = true → flatTy t = true →
    resolveInlineUnionRest C fuel st t sf = .ok (st', rt) →
    stOk st' = true ∧ optionNF rt = true
  discU : ∀ st name types path st' u, stOk st = true → flatTyList types = true →
    resolveDiscriminatedUnion C fuel st name types path = .ok (st', u) →
    stOk st' = true ∧ optionNF u = true
  discVars : ∀ st dp types idx path st' vs, stOk st = true → flatTyList types = true →
    discVariantsLoop C fuel st dp types idx path = .ok (st', vs) →
    stOk st' = true ∧ optionNFVariants vs = true
  discFields : ∀ st dp t props path st' fs, stOk st = true → flatProps props = true →
    discVariantFieldsLoop C fuel st dp t props path = .ok (st', fs) →
    stOk st' = true ∧ optionNFFields fs = true
  unionT : ∀ st name types path st' u, stOk st = true → flatTyList types = true →
    resolveUnionType C fuel st name types path = .ok (st', u) →
    stOk st' = true ∧ ∀ x, u = some x → optionNF x = true
  unionVars : ∀ st i types path st' vs b, stOk st = true → flatTyList types = true →
    resolveUnionVariantsLoop C fuel st i types path = .ok (st', (vs, b)) →
    stOk st' = true ∧ optionNFVariants vs = true

end Ts2Rs

namespace Ts2Rs

/-! # Theorems

Helper lemmas first, then one theorem per claim (with counterexamples and
witnesses where required). -/

/-- A successful `handleValueFallback` always yields the `json_value`
sentinel. -/
theorem handleValueFallback_ok_json (opts : ConversionOptions) (st : St)
    (reason : String) (tt sf : Option String) (st' : St) (rt : ResolvedType) :
    handleValueFallback opts st reason tt sf = .ok (st', rt) → rt = .json_value := by
  intro h
  unfold handleValueFallback at h
  by_cases hs : opts.strict = true <;> simp [hs] at h
  simp_all

/-- `resolveTypeAnon` never returns a `literal` node (it returns an
anonymous struct or the fallback). -/
theorem resolveTypeAnon_not_literal (C : Ctx) (fuel : Nat) (st : St) (t : Ty)
    (sf : String) (st' : St) (rt : ResolvedType) :
    resolveTypeAnon C fuel st t sf = .ok (st', rt) → rt.isLiteralNode = false := by
  cases fuel with
  | zero => intro h; simp [resolveTypeAnon] at h
  | succ f =>
    intro h
    unfold resolveTypeAnon at h
    split at h
    · split at h
      · simp at h
      · simp only [Except.ok.injEq, Prod.mk.injEq] at h
        obtain ⟨h1, h2⟩ := h
        subst h2
        rfl
    · have := handleValueFallback_ok_json _ _ _ _ _ _ _ h
      subst this; rfl

end Ts2Rs
namespace Ts2Rs

/-- `inlineUnionTail` never yields a `literal` node. -/
theorem inlineUnionTail_not_literal (opts : ConversionOptions) (st : St) (t : Ty)
    (sf : String) (st' : St) (rt : ResolvedType) :
    inlineUnionTail opts st t sf = .ok (st', rt) → rt.isLiteralNode = false := by
  intro h
  unfold inlineUnionTail at h
  split at h <;>
    (have hjv := handleValueFallback_ok_json _ _ _ _ _ _ _ h; subst hjv; rfl)

/-- `resolveInlineUnionRest` never returns a `literal` node. -/
theorem resolveInlineUnionRest_not_literal (C : Ctx) (fuel : Nat) (st : St) (t : Ty)
    (sf : String) (st' : St) (rt : ResolvedType) :
    resolveInlineUnionRest C fuel st t sf = .ok (st', rt) → rt.isLiteralNode = false := by
  cases fuel with
  | zero => intro h; simp [resolveInlineUnionRest] at h
  | succ f =>
    intro h
    unfold resolveInlineUnionRest at h
    (try simp only [] at h)
    repeat' split at h
    all_goals first
      | (exact inlineUnionTail_not_literal _ _ _ _ _ _ h)
      | (simp only [Except.ok.injEq, Prod.mk.injEq] at h
         obtain ⟨h1, h2⟩ := h
         subst h2
         rfl)
      | simp at h

/-- `resolveInlineUnionType` never returns a `literal` node. -/
theorem resolveInlineUnionType_not_literal (C : Ctx) (fuel : Nat) (st : St) (t : Ty)
    (sf : String) (st' : St) (rt : ResolvedType) :
    resolveInlineUnionType C fuel st t sf = .ok (st', rt) → rt.isLiteralNode = false := by
  cases fuel with
  | zero => intro h; simp [resolveInlineUnionType] at h
  | succ f =>
    intro h
    unfold resolveInlineUnionType at h
    (try simp only [] at h)
    repeat' split at h
    all_goals first
      | (exact resolveInlineUnionRest_not_literal _ _ _ _ _ _ _ h)
      | (have hjv := handleValueFallback_ok_json _ _ _ _ _ _ _ h; subst hjv; rfl)
      | (simp only [Except.ok.injEq, Prod.mk.injEq] at h
         obtain ⟨h1, h2⟩ := h
         subst h2
         rfl)
      | simp at h

/-- `resolveTypeSymbolTail` never returns a `literal` node. -/
theorem resolveTypeSymbolTail_not_literal (C : Ctx) (fuel : Nat) (st : St) (t : Ty)
    (sf : String) (sym : Sym) (st' : St) (rt : ResolvedType) :
    resolveTypeSymbolTail C fuel st t sf sym = .ok (st', rt) → rt.isLiteralNode = false := by
  cases fuel with
  | zero => intro h; simp [resolveTypeSymbolTail] at h
  | succ f =>
    intro h
    unfold resolveTypeSymbolTail at h
    (try simp only [] at h)
    repeat' split at h
    all_goals first
      | (exact resolveTypeAnon_not_literal _ _ _ _ _ _ _ h)
      | (have hjv := handleValueFallback_ok_json _ _ _ _ _ _ _ h; subst hjv; rfl)
      | (simp only [Except.ok.injEq, Prod.mk.injEq] at h
         obtain ⟨h1, h2⟩ := h
         subst h2
         rfl)
      | simp at h

/-- `resolveTypeSymbol` never returns a `literal` node. -/
theorem resolveTypeSymbol_not_literal (C : Ctx) (fuel : Nat) (st : St) (t : Ty)
    (sf : String) (st' : St) (rt : ResolvedType) :
    resolveTypeSymbol C fuel st t sf = .ok (st', rt) → rt.isLiteralNode = false := by
  cases fuel with
  | zero => intro h; simp [resolveTypeSymbol] at h
  | succ f =>
    intro h
    unfold resolveTypeSymbol at h
    (try simp only [] at h)
    repeat' split at h
    all_goals first
      | (exact resolveTypeAnon_not_literal _ _ _ _ _ _ _ h)
      | (exact resolveTypeSymbolTail_not_literal _ _ _ _ _ _ _ _ h)
      | (simp only [Except.ok.injEq, Prod.mk.injEq] at h
         obtain ⟨h1, h2⟩ := h
         subst h2
         rfl)
      | simp at h

/-- `resolveTypeObjAlias` never returns a `literal` node. -/
theorem resolveTypeObjAlias_not_literal (C : Ctx) (fuel : Nat) (st : St) (t : Ty)
    (sf : String) (st' : St) (rt : ResolvedType) :
    resolveTypeObjAlias C fuel st t sf = .ok (st', rt) → rt.isLiteralNode = false := by
  cases fuel with
  | zero => intro h; simp [resolveTypeObjAlias] at h
  | succ f =>
    intro h
    unfold resolveTypeObjAlias at h
    (try simp only [] at h)
    repeat' split at h
    all_goals first
      | (exact resolveTypeSymbol_not_literal _ _ _ _ _ _ _ h)
      | (simp only [Except.ok.injEq, Prod.mk.injEq] at h
         obtain ⟨h1, h2⟩ := h
         subst h2
         rfl)
      | simp at h

/-- `resolveTypeAfterAlias` never returns a `literal` node: the three
literal branches are dead (their guards contradict the preceding
primitive-collapsing branches). -/
theorem resolveTypeAfterAlias_not_literal (C : Ctx) (fuel : Nat) (st : St) (t : Ty)
    (sf : String) (st' : St) (rt : ResolvedType) :
    resolveTypeAfterAlias C fuel st t sf = .ok (st', rt) → rt.isLiteralNode = false := by
  cases fuel with
  | zero => intro h; simp [resolveTypeAfterAlias] at h
  | succ f =>
    intro h
    obtain ⟨s, asym, symb, tx, args⟩ := t
    cases s <;>
      simp only [resolveTypeAfterAlias, Ty.isNull, Ty.isUndefined, Ty.isString,
        Ty.isStringLiteral, Ty.isNumber, Ty.isNumberLiteral, Ty.isBoolean,
        Ty.isBooleanLiteral, Ty.isAny, Ty.isUnknown, Ty.isArray, Ty.isTuple,
        Ty.isUnion, Ty.shape, Ty.getArrayElementType, Ty.getTupleElements,
        Ty.getStringIndexType, Ty.getNumberIndexType, Ty.getProperties,
        Ty.getLiteralValue] at h
    all_goals (repeat' split at h)
    all_goals first
      | (exact resolveTypeObjAlias_not_literal _ _ _ _ _ _ _ h)
      | (exact resolveInlineUnionType_not_literal _ _ _ _ _ _ _ h)
      | (obtain ⟨rfl, rfl⟩ := h; rfl)
      | (simp only [Except.ok.injEq, Prod.mk.injEq] at h
         obtain ⟨rfl, rfl⟩ := h
         rfl)
      | simp_all [ResolvedType.isLiteralNode]

end Ts2Rs
namespace Ts2Rs

/-- **C9.** The Resolver never constructs a `ResolvedType` with tag
`literal`: the three literal-constructing branches of `resolveType` are
unreachable because the string/number/boolean literal predicates are already
consumed by the earlier primitive-collapsing branches, so a successful
`resolveType` never returns a `literal` node (and no other code path builds
one — `literal` appears in no other constructor site of the resolver). -/
theorem resolveType_never_literal (C : Ctx) (fuel : Nat) (st : St) (t : Ty)
    (sf : String) (st' : St) (rt : ResolvedType) :
    resolveType C fuel st t sf = .ok (st', rt) → rt.isLiteralNode = false := by
  cases fuel with
  | zero => intro h; simp [resolveType] at h
  | succ f =>
    intro h
    unfold resolveType at h
    (try simp only [] at h)
    repeat' split at h
    all_goals first
      | (exact resolveTypeAfterAlias_not_literal _ _ _ _ _ _ _ h)
      | (have hjv := handleValueFallback_ok_json _ _ _ _ _ _ _ h; subst hjv; rfl)
      | (obtain ⟨rfl, rfl⟩ := h; rfl)
      | (simp only [Except.ok.injEq, Prod.mk.injEq] at h
         obtain ⟨rfl, rfl⟩ := h
         rfl)
      | simp at h

/-- Witness for C9: a concrete successful resolution (of `string`). -/
theorem resolveType_never_literal_witness :
    resolveType ctxC7 2 St.empty strTy entryPath = .ok (St.empty, .primitive .string) ∧
    (ResolvedType.primitive .string).isLiteralNode = false :=
  ⟨rfl, resolveType_never_literal ctxC7 2 St.empty strTy entryPath St.empty
    (.primitive .string) rfl⟩

/-- **C10.** Empty-result short-circuit of the `convert` façade: whenever
the Resolver collects zero types, `convert` returns `rustCode` equal to the
single comment line, an empty `convertedTypes` list and the one warning, and
writes no output file even when `outputPath` is set (the write list is
empty for every `gen` and every `outputPath`). -/
theorem convert_empty_short_circuit (C : Ctx) (gen : List CollectedType → ConversionResult)
    (fuel : Nat) (st : St) :
    resolveRun C fuel = .ok (st, []) →
    convert C gen fuel =
      .ok ({ rustCode := "// No types found to convert\n",
             convertedTypes := [],
             warnings := ["No exportable types found in the entry file"] }, []) := by
  intro h
  unfold convert
  rw [h]
  rfl

/-- Witness for C10: the empty program with `outputPath` set. -/
theorem convert_empty_short_circuit_witness :
    resolveRun ctxC10 2 = .ok (St.empty, []) ∧
    ctxC10.opts.outputPath = some "/out/types.rs" ∧
    convert ctxC10 (fun _ => ⟨"", [], []⟩) 2 =
      .ok ({ rustCode := "// No types found to convert\n", convertedTypes := [],
             warnings := ["No exportable types found in the entry file"] }, []) :=
  ⟨rfl, rfl, convert_empty_short_circuit ctxC10 (fun _ => ⟨"", [], []⟩) 2 St.empty rfl⟩

/-- Shared helper: an inline union (no alias symbol) with at least one
null/undefined member and at least two non-null members resolves to
`option(json_value)` with the state unchanged, in every mode. -/
theorem inlineUnion_multi_nullable_aux (C : Ctx) (fuel : Nat) (st : St) (t : Ty)
    (sf : String) (halias : t.aliasSym = none)
    (hnull : 0 < (t.getUnionTypes.filter fun x => x.isNull || x.isUndefined).length)
    (hmulti : 2 ≤ (t.getUnionTypes.filter fun x => !x.isNull && !x.isUndefined).length) :
    resolveInlineUnionType C (fuel + 2) st t sf = .ok (st, .option .json_value) := by
  rcases hn : t.getUnionTypes.filter (fun x => !x.isNull && !x.isUndefined) with _ | ⟨m, _ | ⟨m2, rest⟩⟩
  · rw [hn] at hmulti; simp at hmulti
  · rw [hn] at hmulti; simp at hmulti
  · unfold resolveInlineUnionType
    rw [halias]
    unfold resolveInlineUnionRest
    simp only [hn]
    rw [if_pos hnull]

end Ts2Rs
namespace Ts2Rs

/-- **C7, counterexample.** The claim states that an inline union with at
least one null/undefined member and two or more non-null members yields
`option(json_value)` *and appends a warning*.  On the concrete inline union
`string | number | null` the resolver returns `option(json_value)` with the
state — in particular the warning list — unchanged: starting from the empty
state, the final state still has zero warnings. -/
theorem inline_multi_nullable_warning_cex :
    resolveInlineUnionType ctxC7 3 St.empty tyU7 entryPath
      = .ok (St.empty, .option .json_value) ∧
    St.empty.warnings.length = 0 :=
  ⟨rfl, rfl⟩

/-- **C7 (amended).** For every union appearing inline at a use site (no
alias symbol) with at least one null or undefined member and at least two
non-null members, `resolveInlineUnionType` returns `option(json_value)` and
leaves the resolver state unchanged; in particular *no* warning is
appended. -/
theorem inline_multi_nullable_no_warning (C : Ctx) (fuel : Nat) (st : St) (t : Ty)
    (sf : String) (halias : t.aliasSym = none)
    (hnull : 0 < (t.getUnionTypes.filter fun x => x.isNull || x.isUndefined).length)
    (hmulti : 2 ≤ (t.getUnionTypes.filter fun x => !x.isNull && !x.isUndefined).length) :
    resolveInlineUnionType C (fuel + 2) st t sf = .ok (st, .option .json_value) :=
  inlineUnion_multi_nullable_aux C fuel st t sf halias hnull hmulti

/-- Witness for C7's amended theorem, at `string | number | null`. -/
theorem inline_multi_nullable_no_warning_witness :
    resolveInlineUnionType ctxC7 3 St.empty tyU7 entryPath
      = .ok (St.empty, .option .json_value) :=
  inline_multi_nullable_no_warning ctxC7 1 St.empty tyU7 entryPath rfl
    (by decide) (by decide)

/-- **C2, counterexample.** The claim states that in strict mode no
`json_value` ever appears in the collected set — every constructing path is
said to raise, explicitly including `any`/`unknown`.  On
`interface A2 { data: any }` with `strict = true` the run *succeeds* and the
collected struct contains `json_value` (the `any` branch of `resolveType`
returns the sentinel directly, bypassing `handleValueFallback`). -/
theorem strict_mode_json_value_cex :
    ctxC2.opts.strict = true ∧
    resolveRun ctxC2 9 =
      .ok ({ collectedTypes :=
               [("A2", ⟨"A2", .struct "A2" [.mk "data" .json_value false] none, entryPath⟩)] },
           [⟨"A2", .struct "A2" [.mk "data" .json_value false] none, entryPath⟩]) ∧
    rtHasJsonValue (.struct "A2" [.mk "data" .json_value false] none) = true :=
  ⟨rfl, rfl, rfl⟩

/-- **C2 (amended).** In strict mode every fallback that goes through
`handleValueFallback` raises `TypeConversion` (so no warning-producing
fallback can construct `json_value`); but `json_value` still reaches the IR
in strict mode on two paths that bypass the fallback handler: explicit
`any`/`unknown` types resolve to `json_value` directly, and inline nullable
unions with two or more non-null members resolve to `option(json_value)`. -/
theorem strict_mode_fallback_raises :
    (∀ (opts : ConversionOptions) (st : St) (reason : String) (tt sf : Option String),
      opts.strict = true →
      handleValueFallback opts st reason tt sf =
        .error (.typeConversion (tt.getD "unknown") reason sf)) ∧
    (∀ (C : Ctx) (fuel : Nat) (st : St) (t : Ty) (sf : String),
      t.isTypeParameter = false → t.aliasSym = none → (t.isAny || t.isUnknown) = true →
      resolveType C (fuel + 2) st t sf = .ok (st, .json_value)) ∧
    (∀ (C : Ctx) (fuel : Nat) (st : St) (t : Ty) (sf : String),
      t.aliasSym = none →
      0 < (t.getUnionTypes.filter fun x => x.isNull || x.isUndefined).length →
      2 ≤ (t.getUnionTypes.filter fun x => !x.isNull && !x.isUndefined).length →
      resolveInlineUnionType C (fuel + 2) st t sf = .ok (st, .option .json_value)) := by
  refine ⟨?_, ?_, ?_⟩
  · intro opts st reason tt sf hs
    unfold handleValueFallback
    rw [if_pos hs]
  · intro C fuel st t sf htp halias hany
    obtain ⟨s, asym, symb, tx, args⟩ := t
    cases s <;>
      simp_all [Ty.isAny, Ty.isUnknown, Ty.shape, Ty.isTypeParameter, Ty.aliasSym] <;>
      rfl
  · intro C fuel st t sf halias hnull hmulti
    exact inlineUnion_multi_nullable_aux C fuel st t sf halias hnull hmulti

/-- Witness for C2's amended theorem: all three conjuncts at concrete
inputs (a strict fallback, `any` in strict mode, and the strict inline
nullable multi-member union). -/
theorem strict_mode_fallback_raises_witness :
    handleValueFallback ctxC2.opts St.empty "r" none none =
      .error (.typeConversion "unknown" "r" none) ∧
    resolveType ctxC2 3 St.empty anyTy entryPath = .ok (St.empty, .json_value) ∧
    resolveInlineUnionType ⟨[], ctxC2.opts⟩ 3 St.empty tyU7 entryPath
      = .ok (St.empty, .option .json_value) :=
  ⟨strict_mode_fallback_raises.1 ctxC2.opts St.empty "r" none none rfl,
   strict_mode_fallback_raises.2.1 ctxC2 1 St.empty anyTy entryPath rfl rfl rfl,
   strict_mode_fallback_raises.2.2 ⟨[], ctxC2.opts⟩ 1 St.empty tyU7 entryPath rfl
     (by decide) (by decide)⟩

end Ts2Rs
namespace Ts2Rs

/-- **C1, counterexample.** The claim demands that, for the named interface
`N`, every field resolved within the resolution of `N` whose type contains
`struct_ref(N)` with none of the six indirection constructors on the path is
boxed — naming object-type-alias properties explicitly.  Running the
resolver on `interface N { f: A }` with `type A = { x: N }` (a single root
`N`; `A` is resolved while `N` is still in `processing`), the collected
struct `A` has field `x` of type `struct_ref(N)` with *no* indirection and
no `box`: `boxedRecursionOK "N"` is false on it.  (`resolveTypeAlias`'s
object branch applies no box rule at all.) -/
theorem recursion_box_cex :
    resolveRun ctxC1 20 =
      .ok ({ collectedTypes :=
               [("A", ⟨"A", .struct "A" [.mk "x" (.struct "N" [] none) false] none, entryPath⟩),
                ("N", ⟨"N", .struct "N" [.mk "f" (.struct "A" [] none) false] none, entryPath⟩)] },
           [⟨"A", .struct "A" [.mk "x" (.struct "N" [] none) false] none, entryPath⟩,
            ⟨"N", .struct "N" [.mk "f" (.struct "A" [] none) false] none, entryPath⟩]) ∧
    boxedRecursionOK "N" (StructField.type_ (.mk "x" (.struct "N" [] none) false)) = false :=
  ⟨by rfl, by rfl⟩

/-- **C1 (amended).** The boxing rule applies exactly when the dispatcher's
result for a property is *directly* a struct reference with a non-empty name
to a type currently in `processing`: such an interface property is wrapped
in `box` (under `option` when the property is optional).  Struct references
nested deeper in the resolved type (tuple elements, anonymous-struct fields)
and the properties of object type aliases are not boxed. -/
theorem resolveProperty_boxes_direct_self_ref (C : Ctx) (fuel : Nat) (st : St)
    (p : PropSig) (sf : String) (st₁ : St) (n : String) (fs : List StructField)
    (tp : Option (List String)) :
    resolveType C fuel st p.ty sf = .ok (st₁, .struct n fs tp) →
    (n == "") = false →
    st₁.processingTypes.contains n = true →
    resolveProperty C (fuel + 1) st p sf =
      .ok (st₁, .mk p.name
        (if p.hasQuestionToken then .option (.box (.struct n fs tp))
         else .box (.struct n fs tp))
        p.hasQuestionToken) := by
  intro h hn hp
  unfold resolveProperty
  rw [h]
  simp only [hn, hp, Bool.not_false, Bool.and_true, Bool.true_and,
    ResolvedType.isOption, Bool.not_true, Bool.and_false]
  cases hq : p.hasQuestionToken <;> simp

/-- Witness for C1's amended theorem: `interface R { next: R }`, resolving
the property `next` while `R` is in `processing` boxes the reference. -/
theorem resolveProperty_boxes_direct_self_ref_witness :
    resolveType ctxR 9 { processingTypes := ["R"] } (PropSig.ty (prp "next" (ifaceRef "R")))
        entryPath = .ok ({ processingTypes := ["R"] }, .struct "R" [] none) ∧
    resolveProperty ctxR 10 { processingTypes := ["R"] } (prp "next" (ifaceRef "R")) entryPath =
      .ok ({ processingTypes := ["R"] }, .mk "next" (.box (.struct "R" [] none)) false) := by
  refine ⟨by rfl, ?_⟩
  have := resolveProperty_boxes_direct_self_ref ctxR 9 { processingTypes := ["R"] }
    (prp "next" (ifaceRef "R")) entryPath { processingTypes := ["R"] } "R" [] none (by rfl) (by rfl)
    (by rfl)
  simpa using this

end Ts2Rs
namespace Ts2Rs

/-- The skip condition as written in the loop body equals `discSkip`. -/
theorem discSkip_eq (d : Option String) (t : Ty) (p : PropSig) :
    (d == some p.name &&
      (match (if d == some p.name then (getProperty t p.name).map PropSig.ty else none) with
       | some pt => pt.isStringLiteral
       | none => false)) = discSkip d t p := by
  cases hd : d == some p.name <;> simp [discSkip, hd]

/-- The field names a discriminated-union variant keeps are exactly the
member's property names that survive the skip test, in order. -/
theorem discVariantFieldsLoop_names (C : Ctx) (d : Option String) (t : Ty) (path : String) :
    ∀ (props : List PropSig) (fuel : Nat) (st st' : St) (fs : List StructField),
      discVariantFieldsLoop C fuel st d t props path = .ok (st', fs) →
      fs.map StructField.name = (props.filter fun p => !discSkip d t p).map PropSig.name := by
  intro props
  induction props with
  | nil =>
    intro fuel st st' fs h
    cases fuel with
    | zero => simp [discVariantFieldsLoop] at h
    | succ f =>
      simp only [discVariantFieldsLoop, Except.ok.injEq, Prod.mk.injEq] at h
      simp [← h.2]
  | cons p rest ih =>
    intro fuel st st' fs h
    cases fuel with
    | zero => simp [discVariantFieldsLoop] at h
    | succ f =>
      unfold discVariantFieldsLoop at h
      (try simp only [] at h)
      rw [discSkip_eq] at h
      cases hs : discSkip d t p with
      | true =>
        rw [if_pos hs] at h
        have := ih f st st' fs h
        simpa [List.filter_cons, hs] using this
      | false =>
        rw [if_neg (by simp [hs])] at h
        split at h
        · simp at h
        · split at h
          · simp at h
          · next st₂ fs' heq2 =>
            simp only [Except.ok.injEq, Prod.mk.injEq] at h
            obtain ⟨h1, h2⟩ := h
            subst h2
            have := ih _ _ _ _ heq2
            simp [List.filter_cons, hs, StructField.name, this]

end Ts2Rs
namespace Ts2Rs

/-- Per-index description of the variants produced by the variant loop of
`resolveDiscriminatedUnion`: one variant per object member, named by
`discVariantNameAt`, carrying `discVariantValueAt`, with payload field names
`discKeptNames`. -/
theorem discVariantsLoop_spec (C : Ctx) (d : Option String) (path : String) :
    ∀ (ts : List Ty) (fuel idx : Nat) (st st' : St) (vs : List UnionVariant),
      discVariantsLoop C fuel st d ts idx path = .ok (st', vs) →
      vs.length = ts.length ∧
      ∀ i (hi : i < ts.length) (hv : i < vs.length),
        (vs.get ⟨i, hv⟩).name = discVariantNameAt d (ts.get ⟨i, hi⟩) (idx + i) ∧
        (vs.get ⟨i, hv⟩).discriminatorValue = discVariantValueAt d (ts.get ⟨i, hi⟩) ∧
        variantFieldNames (vs.get ⟨i, hv⟩) = discKeptNames d (ts.get ⟨i, hi⟩) := by
  intro ts
  induction ts with
  | nil =>
    intro fuel idx st st' vs h
    cases fuel with
    | zero => simp [discVariantsLoop] at h
    | succ f =>
      simp only [discVariantsLoop, Except.ok.injEq, Prod.mk.injEq] at h
      obtain ⟨h1, h2⟩ := h
      subst h2
      exact ⟨rfl, fun i hi => absurd hi (by simp)⟩
  | cons t rest ih =>
    intro fuel idx st st' vs h
    cases fuel with
    | zero => simp [discVariantsLoop] at h
    | succ f =>
      unfold discVariantsLoop at h
      (try simp only [] at h)
      split at h
      · simp at h
      · next st₁ fields heq =>
        split at h
        · simp at h
        · next st₂ vs' heq2 =>
          simp only [Except.ok.injEq, Prod.mk.injEq] at h
          obtain ⟨h1, h2⟩ := h
          subst h1
          subst h2
          have hf := discVariantFieldsLoop_names C d t path t.getProperties f st st₁ fields heq
          obtain ⟨hlen, hspec⟩ := ih f (idx + 1) st₁ _ _ heq2
          constructor
          · simp [hlen]
          · intro i hi hv
            cases i with
            | zero =>
              cases fields with
              | nil => exact ⟨rfl, rfl, hf⟩
              | cons f0 fsrest =>
                have hpos : (f0 :: fsrest).length > 0 := by simp
                refine ⟨?_, ?_, ?_⟩ <;>
                  simp only [List.get, if_pos hpos] <;>
                  first
                    | rfl
                    | exact hf
            | succ i =>
              have hi' : i < rest.length := by simpa using hi
              have hv' : i < vs'.length := by simpa using hv
              have hstep := hspec i hi' hv'
              have harith : idx + 1 + i = idx + (i + 1) := by omega
              rw [harith] at hstep
              exact hstep

end Ts2Rs
namespace Ts2Rs

/-- **C6, counterexample.** The claim states that *every* variant's name is
the member's discriminator literal value formatted by `to_variant_name`, and
that the value is carried on the variant.  On
`type T6 = { kind: 0; a: number } | { kind: 1; b: number }` the first
member's literal `0` is falsy in JavaScript, so the resolver names the
variant `Variant0` (not `toVariantName "0" = "0"`) and carries no
discriminator value. -/
theorem variant_name_falsy_cex :
    resolveRun ctxC6 20 =
      .ok ({ collectedTypes :=
               [("T6", ⟨"T6", .union "T6" [v60, v61] (some "kind"), entryPath⟩)] },
           [⟨"T6", .union "T6" [v60, v61] (some "kind"), entryPath⟩]) ∧
    toVariantName "0" = "0" ∧
    v60.name = "Variant0" ∧
    ¬("Variant0" = "0") ∧
    v60.discriminatorValue = none :=
  ⟨by rfl, by rfl, by rfl, by decide, by rfl⟩

/-- **C6 (amended).** For every object member of a collected discriminated
union: when the member's discriminator literal value is *truthy* (a
non-empty string or a nonzero number — boolean literals expose no literal
value), the variant's name is the value formatted by `to_variant_name`
(split on runs of `-`, `_` and whitespace, upper-case the first letter of
each part, lower-case the remainder, concatenate) and the stringified value
is carried on the variant; otherwise the variant gets the positional name
`Variant<i>` and carries no discriminator value.  `discVariantNameAt` /
`discVariantValueAt` encode exactly this. -/
theorem variant_naming (C : Ctx) (fuel : Nat) (st : St) (name : String)
    (types : List Ty) (path : String) (st' : St) (nm : String)
    (vs : List UnionVariant) (disc : Option String) :
    resolveDiscriminatedUnion C fuel st name types path = .ok (st', .union nm vs disc) →
    ∀ i (hi : i < (objectMembers types).length) (hv : i < vs.length),
      (vs.get ⟨i, hv⟩).name = discVariantNameAt disc ((objectMembers types).get ⟨i, hi⟩) i ∧
      (vs.get ⟨i, hv⟩).discriminatorValue =
        discVariantValueAt disc ((objectMembers types).get ⟨i, hi⟩) := by
  intro h
  cases fuel with
  | zero => simp [resolveDiscriminatedUnion] at h
  | succ f =>
    unfold resolveDiscriminatedUnion at h
    (try simp only [] at h)
    split at h
    · next hobj =>
      simp only [Except.ok.injEq, Prod.mk.injEq, ResolvedType.union.injEq] at h
      obtain ⟨h1, h2, h3, h4⟩ := h
      subst h3
      intro i hi hv
      exact absurd hv (by simp)
    · next first rest hobj =>
      split at h
      · simp at h
      · next st₁ variants heq =>
        simp only [Except.ok.injEq, Prod.mk.injEq, ResolvedType.union.injEq] at h
        obtain ⟨h1, h2, h3, h4⟩ := h
        subst h3
        subst h4
        obtain ⟨hlen, hspec⟩ :=
          discVariantsLoop_spec C _ path (objectMembers types) f 0 st st₁ _ heq
        intro i hi hv
        have hstep := hspec i hi hv
        have harith : 0 + i = i := by omega
        rw [harith] at hstep
        exact ⟨hstep.1, hstep.2.1⟩

/-- Witness for C6's amended theorem, on the `T6` union: the falsy member
gets `Variant0`/no value, the truthy member gets `toVariantName "1" = "1"`
with the value carried. -/
theorem variant_naming_witness :
    resolveDiscriminatedUnion ctxC6 15 St.empty "T6" [m0, m1] entryPath =
      .ok (St.empty, .union "T6" [v60, v61] (some "kind")) ∧
    ((([v60, v61] : List UnionVariant).get ⟨0, by decide⟩).name =
        discVariantNameAt (some "kind") ((objectMembers [m0, m1]).get ⟨0, by decide⟩) 0 ∧
      (([v60, v61] : List UnionVariant).get ⟨0, by decide⟩).discriminatorValue =
        discVariantValueAt (some "kind") ((objectMembers [m0, m1]).get ⟨0, by decide⟩)) ∧
    ((([v60, v61] : List UnionVariant).get ⟨1, by decide⟩).name =
        discVariantNameAt (some "kind") ((objectMembers [m0, m1]).get ⟨1, by decide⟩) 1 ∧
      (([v60, v61] : List UnionVariant).get ⟨1, by decide⟩).discriminatorValue =
        discVariantValueAt (some "kind") ((objectMembers [m0, m1]).get ⟨1, by decide⟩)) := by
  have h : resolveDiscriminatedUnion ctxC6 15 St.empty "T6" [m0, m1] entryPath =
      .ok (St.empty, .union "T6" [v60, v61] (some "kind")) := by rfl
  refine ⟨h, ?_, ?_⟩
  · exact variant_naming ctxC6 15 St.empty "T6" [m0, m1] entryPath St.empty "T6"
      [v60, v61] (some "kind") h 0 (by decide) (by decide)
  · exact variant_naming ctxC6 15 St.empty "T6" [m0, m1] entryPath St.empty "T6"
      [v60, v61] (some "kind") h 1 (by decide) (by decide)

end Ts2Rs
namespace Ts2Rs

/-- `getProperty` returns a property with the requested name. -/
theorem getProperty_name (t : Ty) (d : String) (p : PropSig) :
    getProperty t d = some p → p.name = d := by
  intro h
  have := List.find?_some h
  simpa using this

/-- `getProperty` returns a member of the property list. -/
theorem getProperty_mem (t : Ty) (d : String) (p : PropSig) :
    getProperty t d = some p → p ∈ t.getProperties :=
  fun h => List.mem_of_find?_eq_some h

/-- Literal kinds are mutually exclusive: a number/boolean literal type is
not a string literal type. -/
theorem isStringLiteral_false_of_num_or_bool (t : Ty) :
    (t.isNumberLiteral || t.isBooleanLiteral) = true → t.isStringLiteral = false := by
  obtain ⟨s, a, b, c, e⟩ := t
  cases s <;> simp [Ty.isNumberLiteral, Ty.isBooleanLiteral, Ty.isStringLiteral, Ty.shape]

/-- **C5.** Discriminator-omission asymmetry: for every variant of a
collected discriminated union, if the discriminator property's literal type
at that member is a *string* literal then the variant's payload struct does
not contain the discriminator field; if it is a numeric or boolean literal
the discriminator field is retained in the payload. -/
theorem string_discriminator_omitted (C : Ctx) (fuel : Nat) (st : St) (name : String)
    (types : List Ty) (path : String) (st' : St) (nm : String)
    (vs : List UnionVariant) (disc : Option String) (d : String) :
    resolveDiscriminatedUnion C fuel st name types path = .ok (st', .union nm vs disc) →
    disc = some d →
    ∀ i (hi : i < (objectMembers types).length) (hv : i < vs.length),
      (∀ p, getProperty ((objectMembers types).get ⟨i, hi⟩) d = some p →
        p.ty.isStringLiteral = true →
        d ∉ variantFieldNames (vs.get ⟨i, hv⟩)) ∧
      (∀ p, getProperty ((objectMembers types).get ⟨i, hi⟩) d = some p →
        (p.ty.isNumberLiteral || p.ty.isBooleanLiteral) = true →
        d ∈ variantFieldNames (vs.get ⟨i, hv⟩)) := by
  intro h hd
  cases fuel with
  | zero => simp [resolveDiscriminatedUnion] at h
  | succ f =>
    unfold resolveDiscriminatedUnion at h
    (try simp only [] at h)
    split at h
    · next hobj =>
      simp only [Except.ok.injEq, Prod.mk.injEq, ResolvedType.union.injEq] at h
      obtain ⟨h1, h2, h3, h4⟩ := h
      subst h3
      intro i hi hv
      exact absurd hv (by simp)
    · next first rest hobj =>
      split at h
      · simp at h
      · next st₁ variants heq =>
        simp only [Except.ok.injEq, Prod.mk.injEq, ResolvedType.union.injEq] at h
        obtain ⟨h1, h2, h3, h4⟩ := h
        subst h3
        subst h4
        rw [hd] at heq
        obtain ⟨hlen, hspec⟩ :=
          discVariantsLoop_spec C _ path (objectMembers types) f 0 st st₁ _ heq
        intro i hi hv
        have hfields := (hspec i hi hv).2.2
        rw [hfields]
        set t := (objectMembers types).get ⟨i, hi⟩ with ht
        constructor
        · intro p hp hlit hmem
          unfold discKeptNames at hmem
          obtain ⟨q, hqmem, hqname⟩ := List.mem_map.mp hmem
          obtain ⟨hqprops, hqkeep⟩ := List.mem_filter.mp hqmem
          have : discSkip (some d) t q = true := by
            unfold discSkip
            rw [hqname, hp]
            simpa using hlit
          simp [this] at hqkeep
        · intro p hp hnum
          have hpname := getProperty_name t d p hp
          have hpmem := getProperty_mem t d p hp
          have hskip : discSkip (some d) t p = false := by
            unfold discSkip
            rw [hpname, hp]
            simpa using isStringLiteral_false_of_num_or_bool p.ty hnum
          unfold discKeptNames
          refine List.mem_map.mpr ⟨p, List.mem_filter.mpr ⟨hpmem, by simp [hskip]⟩, hpname⟩

/-- Witness for C5, on
`type S5 = { kind: "circle"; radius } | { kind: "rect"; w }`: the string
discriminator `kind` is omitted from the `Circle` payload. -/
theorem string_discriminator_omitted_witness :
    resolveDiscriminatedUnion ctxC5 15 St.empty "S5" [mCircle, mRect] entryPath =
      .ok (St.empty, .union "S5" [v5c, v5r] (some "kind")) ∧
    "kind" ∉ variantFieldNames (([v5c, v5r] : List UnionVariant).get ⟨0, by decide⟩) := by
  have h : resolveDiscriminatedUnion ctxC5 15 St.empty "S5" [mCircle, mRect] entryPath =
      .ok (St.empty, .union "S5" [v5c, v5r] (some "kind")) := by rfl
  refine ⟨h, ?_⟩
  exact (string_discriminator_omitted ctxC5 15 St.empty "S5" [mCircle, mRect] entryPath
      St.empty "S5" [v5c, v5r] (some "kind") "kind" h rfl 0 (by decide) (by decide)).1
    (prp "kind" (tyPrim (.stringLitS "circle") "\"circle\"")) (by rfl) (by rfl)

end Ts2Rs
namespace Ts2Rs

/-- Under distinct property names, "the first property of this name has a
literal type" (the code's `getProperty`-based check) agrees with "some
property of this name is declared with a literal type" (the spec's
wording). -/
theorem find_lit_eq_any (nm : String) :
    ∀ (props : List PropSig), (props.map PropSig.name).Nodup →
    (match props.find? (fun p => p.name == nm) with
     | none => false
     | some p => isLiteralTy p.ty) =
    (props.any fun p => p.name == nm && isLiteralTy p.ty) := by
  intro props
  induction props with
  | nil => intro _; rfl
  | cons p rest ih =>
    intro hnd
    simp only [List.map_cons, List.nodup_cons] at hnd
    obtain ⟨hnotin, hnd2⟩ := hnd
    by_cases hp : (p.name == nm) = true
    · have hrest : (rest.any fun q => q.name == nm && isLiteralTy q.ty) = false := by
        rw [List.any_eq_false]
        intro q hq
        simp only [Bool.and_eq_true, beq_iff_eq, not_and]
        intro hqn _
        exact hnotin (by
          rw [show p.name = q.name from by rw [hqn]; exact beq_iff_eq.mp hp]
          exact List.mem_map_of_mem PropSig.name hq)
      simp only [List.find?, hp, List.any_cons]
      simp [hrest]
    · have hpf : (p.name == nm) = false := by simpa using hp
      simp only [List.find?, hpf, List.any_cons, Bool.false_and, Bool.false_or]
      exact ih hnd2

/-- List version of the agreement, over any member list. -/
theorem all_lit_eq (nm : String) :
    ∀ (l : List Ty), (∀ t ∈ l, (t.getProperties.map PropSig.name).Nodup) →
    (l.all fun t =>
        match getProperty t nm with
        | none => false
        | some p => p.ty.isStringLiteral || p.ty.isNumberLiteral || p.ty.isBooleanLiteral) =
    (l.all fun t => t.getProperties.any fun p => p.name == nm && isLiteralTy p.ty) := by
  intro l
  induction l with
  | nil => intro _; rfl
  | cons t rest ih =>
    intro hnd
    simp only [List.all_cons]
    rw [show (match getProperty t nm with
          | none => false
          | some p => p.ty.isStringLiteral || p.ty.isNumberLiteral || p.ty.isBooleanLiteral) =
        (t.getProperties.any fun p => p.name == nm && isLiteralTy p.ty) from
      find_lit_eq_any nm t.getProperties (hnd t (List.mem_cons_self t rest))]
    rw [ih (fun u hu => hnd u (List.mem_cons_of_mem t hu))]

/-- Pointwise agreement of the code's discriminant test with the spec's. -/
theorem isDiscriminantProp_eq_spec (types : List Ty) (nm : String)
    (hnd : ∀ t ∈ objectMembers types, (t.getProperties.map PropSig.name).Nodup) :
    isDiscriminantProp (objectMembers types) nm = specDiscProp types nm :=
  all_lit_eq nm (objectMembers types) hnd

end Ts2Rs
namespace Ts2Rs

/-- **C4.** Discriminated-union recognition: under the (always true in
TypeScript) assumption that each object member's property names are
distinct, a union at the right-hand side of a named alias is classified as
discriminated *exactly when* it has at least two object members and some
property name is declared in every object member with a literal (string,
number, or boolean) type; and the discriminator recorded on the resulting
`Union` is the first such name in insertion order of the first object
member's properties. -/
theorem discriminated_union_recognition (types : List Ty)
    (hnd : ∀ t ∈ objectMembers types, (t.getProperties.map PropSig.name).Nodup) :
    (isDiscriminatedUnion types = true ↔ SpecDiscriminated types) ∧
    (∀ (C : Ctx) (fuel : Nat) (st : St) (name path : String) (st' : St)
       (nm : String) (vs : List UnionVariant) (disc : Option String),
      resolveDiscriminatedUnion C fuel st name types path = .ok (st', .union nm vs disc) →
      disc =
        match objectMembers types with
        | [] => none
        | first :: _ => (first.getProperties.map PropSig.name).find? (specDiscProp types)) := by
  have hfun : isDiscriminantProp (objectMembers types) = specDiscProp types :=
    funext fun nm => isDiscriminantProp_eq_spec types nm hnd
  constructor
  · constructor
    · intro h
      unfold isDiscriminatedUnion at h
      (try simp only [] at h)
      split at h
      · simp at h
      · next hge =>
        split at h
        · simp at h
        · next hlen2 =>
          split at h
          · simp at h
          · next first rest hobj =>
            obtain ⟨nmv, hmem, hpred⟩ := List.any_eq_true.mp h
            refine ⟨by omega, ⟨nmv, ?_⟩⟩
            rw [← hfun]
            exact hpred
    · rintro ⟨h2, d, hd⟩
      unfold isDiscriminatedUnion
      (try simp only [])
      have hlen : ¬(types.length < 2) := by
        have := List.length_filter_le
          (fun t => t.isObject && !t.isNull && !t.isUndefined) types
        unfold objectMembers at h2
        omega
      rw [if_neg hlen, if_neg (by unfold objectMembers at h2 ⊢; omega)]
      rcases hobj : objectMembers types with _ | ⟨first, rest⟩
      · rw [hobj] at h2; simp at h2
      · rw [hobj] at hfun
        have hfirst : specDiscProp types d = true := hd
        have hhead : first.getProperties.any (fun p => p.name == d && isLiteralTy p.ty) = true := by
          unfold specDiscProp at hfirst
          rw [hobj] at hfirst
          simp only [List.all_cons, Bool.and_eq_true] at hfirst
          exact hfirst.1
        obtain ⟨p, hpmem, hppred⟩ := List.any_eq_true.mp hhead
        simp only [Bool.and_eq_true] at hppred
        obtain ⟨hpname, hplit⟩ := hppred
        apply List.any_eq_true.mpr
        refine ⟨p.name, List.mem_map_of_mem PropSig.name hpmem, ?_⟩
        rw [hfun, show p.name = d from beq_iff_eq.mp hpname]
        exact hd
  · intro C fuel st name path st' nm vs disc h
    cases fuel with
    | zero => simp [resolveDiscriminatedUnion] at h
    | succ f =>
      unfold resolveDiscriminatedUnion at h
      (try simp only [] at h)
      split at h
      · next hobj =>
        simp only [Except.ok.injEq, Prod.mk.injEq, ResolvedType.union.injEq] at h
        exact h.2.2.2.symm
      · next first rest hobj =>
        split at h
        · simp at h
        · next st₁ variants heq =>
          simp only [Except.ok.injEq, Prod.mk.injEq, ResolvedType.union.injEq] at h
          rw [← h.2.2.2, hfun]

/-- Witness for C4, on the members of `S5` (through the C5 run for the
second conjunct). -/
theorem discriminated_union_recognition_witness :
    (isDiscriminatedUnion [mCircle, mRect] = true ↔ SpecDiscriminated [mCircle, mRect]) ∧
    ((some "kind" : Option String) =
      match objectMembers [mCircle, mRect] with
      | [] => none
      | first :: _ =>
        (first.getProperties.map PropSig.name).find? (specDiscProp [mCircle, mRect])) := by
  have H := discriminated_union_recognition [mCircle, mRect] (by decide)
  refine ⟨H.1, ?_⟩
  exact H.2 ctxC5 15 St.empty "S5" entryPath St.empty "S5" [v5c, v5r] (some "kind") (by rfl)

end Ts2Rs
namespace Ts2Rs

/-- **C8.** Unresolvable named unions are not collected: when a named type
alias resolves to a general (non-discriminated, non-literal) union whose
resolution reports an unresolvable variant (`resolveUnionType` returns
`none`, i.e. some variant resolved to `json_value`), `resolveTypeAlias`
does not add the alias's name to the collected map and appends the warning
naming the alias and stating that uses fall back to `serde_json::Value`.
The second conjunct instantiates the end-of-run statement on the program
`type U8 = string | bigint`: after the whole run, `U8` is absent from the
collected set and the warning naming it is present. -/
theorem unresolvable_union_not_collected :
    (∀ (C : Ctx) (fuel : Nat) (st st₁ : St) (name path : String) (t : Ty) (ms : List Ty),
      t.shape = .unionS ms →
      isDiscriminatedUnion ms = false →
      isLiteralUnion ms = false →
      resolveUnionType C fuel st name ms path = .ok (st₁, none) →
      resolveTypeAlias C (fuel + 2) st name path t =
        .ok (pushWarning st₁ (unresolvableUnionWarning name path), ()) ∧
      mapHas (pushWarning st₁ (unresolvableUnionWarning name path)).collectedTypes name
        = mapHas st₁.collectedTypes name ∧
      (pushWarning st₁ (unresolvableUnionWarning name path)).warnings
        = st₁.warnings ++ [unresolvableUnionWarning name path]) ∧
    ((match resolveRun ctxC8 20 with
      | .ok (st, _) =>
        !(mapHas st.collectedTypes "U8") &&
          st.warnings.contains (unresolvableUnionWarning "U8" entryPath)
      | .error _ => false) = true) := by
  constructor
  · intro C fuel st st₁ name path t ms hshape hdisc hlit hru
    obtain ⟨s, asym, symb, tx, args⟩ := t
    have hs : s = Shape.unionS ms := hshape
    subst hs
    refine ⟨?_, rfl, rfl⟩
    show resolveTypeAlias C (fuel + 1 + 1) st name path _ = _
    unfold resolveTypeAlias
    simp only [Ty.isTuple, Ty.isObject, Ty.isArray, Ty.shape, Ty.getUnionTypes,
      Ty.getProperties, Bool.false_and, Bool.and_false]
    unfold resolveTypeAliasUnionPart
    simp only [Ty.isUnion, Ty.shape, Ty.getUnionTypes, hdisc, hlit, hru,
      Bool.false_eq_true, if_false]
    rfl
  · rfl

/-- Witness for C8's general part, on `type U8 = string | bigint`. -/
theorem unresolvable_union_not_collected_witness :
    resolveUnionType ctxC8 10 St.empty "U8" [strTy, bigintTy] entryPath =
      .ok ({ warnings :=
        ["Falling back to serde_json::Value: Complex type could not be resolved (in /src/types.ts) (type: bigint)"] },
        none) ∧
    resolveTypeAlias ctxC8 12 St.empty "U8" entryPath tyU8 =
      .ok (pushWarning { warnings :=
        ["Falling back to serde_json::Value: Complex type could not be resolved (in /src/types.ts) (type: bigint)"] }
        (unresolvableUnionWarning "U8" entryPath), ()) := by
  refine ⟨by rfl, ?_⟩
  exact (unresolvable_union_not_collected.1 ctxC8 10 St.empty
    { warnings :=
        ["Falling back to serde_json::Value: Complex type could not be resolved (in /src/types.ts) (type: bigint)"] }
    "U8" entryPath tyU8 [strTy, bigintTy] (by rfl) (by rfl) (by rfl) (by rfl)).1

end Ts2Rs
namespace Ts2Rs

/-! ## Basic state and normal-form lemmas for the C3 induction -/

/-- `stOk` only reads the collected map: `pushWarning` preserves it. -/
theorem stOk_pushWarning (st : St) (w : String) : stOk (pushWarning st w) = stOk st := rfl

/-- `stOk` ignores the processing set. -/
theorem stOk_withProcessing (st : St) (x : List String) :
    stOk { st with processingTypes := x } = stOk st := rfl

/-- `stOk` ignores the type-parameter scope. -/
theorem stOk_withTypeParams (st : St) (x : List String) :
    stOk { st with typeParameters := x } = stOk st := rfl

/-- Collecting a type in option normal form preserves `stOk` (JS `Map.set`
either rewrites the entry in place or appends). -/
theorem stOk_collect (st : St) (n : String) (ty : ResolvedType) (p : String)
    (h1 : stOk st = true) (h2 : optionNF ty = true) :
    stOk (collect st n ty p) = true := by
  simp only [stOk, collect, mapSet] at h1 ⊢
  split
  · rw [List.all_eq_true] at h1 ⊢
    intro x hx
    rw [List.mem_map] at hx
    obtain ⟨q, hq, rfl⟩ := hx
    by_cases hk : (q.1 == n) = true
    · simp only [hk, if_true]
      exact h2
    · simp only [hk, Bool.false_eq_true, if_false]
      exact h1 q hq
  · rw [List.all_append]
    simp only [h1, List.all_cons, List.all_nil, Bool.and_true, Bool.true_and]
    exact h2

/-- `optionNFFields` distributes over append. -/
theorem optionNFFields_append (a b : List StructField) :
    optionNFFields (a ++ b) = (optionNFFields a && optionNFFields b) := by
  induction a with
  | nil => simp [optionNFFields]
  | cons f fs ih =>
    obtain ⟨n, t, o⟩ := f
    simp [optionNFFields, ih, Bool.and_assoc]

/-- The optional-wrap rule preserves option normal form: wrapping is guarded
by `!rt.isOption`. -/
theorem optionNF_wrap (b : Bool) (rt : ResolvedType) (h : optionNF rt = true) :
    optionNF (if b && !rt.isOption then .option rt else rt) = true := by
  split
  · next hg =>
    rw [Bool.and_eq_true] at hg
    simp only [optionNF, hg.2, h, Bool.and_self]
  · exact h

/-- A successful fallback leaves the collected map intact and yields
`json_value`. -/
theorem nf_handleValueFallback (opts : ConversionOptions) (st : St) (r : String)
    (tx sfo : Option String) (st' : St) (rt : ResolvedType)
    (h : handleValueFallback opts st r tx sfo = .ok (st', rt)) :
    stOk st' = stOk st ∧ rt = .json_value := by
  unfold handleValueFallback at h
  (try simp only [] at h)
  split at h
  · exact absurd h (by simp)
  · simp only [Except.ok.injEq, Prod.mk.injEq] at h
    obtain ⟨rfl, rfl⟩ := h
    exact ⟨rfl, rfl⟩

end Ts2Rs
namespace Ts2Rs

/-! ## Flatness extraction lemmas -/

/-- Flatness of a surface type passes to its properties. -/
theorem flatTy_getProperties (t : Ty) (h : flatTy t = true) :
    flatProps t.getProperties = true := by
  obtain ⟨s, a, sy, tx, args⟩ := t
  cases s <;> simp_all [flatTy, flatShape, Ty.getProperties, flatProps, Ty.shape]

/-- Flatness passes to tuple elements. -/
theorem flatTy_getTupleElements (t : Ty) (h : flatTy t = true) :
    flatTyList t.getTupleElements = true := by
  obtain ⟨s, a, sy, tx, args⟩ := t
  cases s <;> simp_all [flatTy, flatShape, Ty.getTupleElements, flatTyList, Ty.shape]

/-- Flatness passes to union members, which are moreover themselves not
unions. -/
theorem flatTy_getUnionTypes (t : Ty) (h : flatTy t = true) :
    flatTyList t.getUnionTypes = true ∧ notUnionList t.getUnionTypes = true := by
  obtain ⟨s, a, sy, tx, args⟩ := t
  cases s <;>
    simp_all [flatTy, flatShape, Ty.getUnionTypes, flatTyList, notUnionList, Ty.shape]

/-- Flatness passes to the array element type. -/
theorem flatTy_getArrayElementType (t e : Ty) (h : flatTy t = true)
    (he : t.getArrayElementType = some e) : flatTy e = true := by
  obtain ⟨s, a, sy, tx, args⟩ := t
  cases s <;> simp_all [flatTy, flatShape, Ty.getArrayElementType, Ty.shape]

/-- Flatness passes to the string index value type. -/
theorem flatTy_getStringIndexType (t e : Ty) (h : flatTy t = true)
    (he : t.getStringIndexType = some e) : flatTy e = true := by
  obtain ⟨s, a, sy, tx, args⟩ := t
  cases s <;> simp_all [flatTy, flatShape, Ty.getStringIndexType, flatOptTy, Ty.shape]

/-- Flatness passes to the number index value type. -/
theorem flatTy_getNumberIndexType (t e : Ty) (h : flatTy t = true)
    (he : t.getNumberIndexType = some e) : flatTy e = true := by
  obtain ⟨s, a, sy, tx, args⟩ := t
  cases s <;> simp_all [flatTy, flatShape, Ty.getNumberIndexType, flatOptTy, Ty.shape]

/-- Flatness passes to `getTypeArguments()`. -/
theorem flatTy_getTypeArguments (t : Ty) (h : flatTy t = true) :
    flatTyList t.getTypeArguments = true := by
  obtain ⟨s, a, sy, tx, args⟩ := t
  cases s <;> simp_all [flatTy, flatShape, Ty.getTypeArguments, flatTyList, Ty.shape]

/-- Membership form of `flatTyList`. -/
theorem flatTyList_mem (l : List Ty) (t : Ty) (h : flatTyList l = true)
    (hm : t ∈ l) : flatTy t = true := by
  induction l with
  | nil => cases hm
  | cons x xs ih =>
    simp only [flatTyList, Bool.and_eq_true] at h
    rcases hm with _ | hm
    · exact h.1
    · exact ih h.2 (by assumption)

/-- `flatTyList` survives `filter`. -/
theorem flatTyList_filter (l : List Ty) (p : Ty → Bool) (h : flatTyList l = true) :
    flatTyList (l.filter p) = true := by
  induction l with
  | nil => simp [flatTyList]
  | cons x xs ih =>
    simp only [flatTyList, Bool.and_eq_true] at h
    simp only [List.filter]
    cases p x
    · exact ih h.2
    · simp only [flatTyList, ih h.2, h.1, Bool.and_self]

/-- Membership form of `notUnionList`. -/
theorem notUnionList_mem (l : List Ty) (t : Ty) (h : notUnionList l = true)
    (hm : t ∈ l) : t.isUnion = false := by
  induction l with
  | nil => cases hm
  | cons x xs ih =>
    simp only [notUnionList, Bool.and_eq_true] at h
    rcases hm with _ | hm
    · simpa using h.1
    · exact ih h.2 (by assumption)

/-- Head form of `flatProps`. -/
theorem flatProps_cons (p : PropSig) (ps : List PropSig) :
    flatProps (p :: ps) = ((flatTy p.ty && flatOptNode p.typeNode) && flatProps ps) := by
  obtain ⟨n, t, q, ip, nd⟩ := p
  rfl

/-- `flatProps` survives `filter`. -/
theorem flatProps_filter (ps : List PropSig) (pred : PropSig → Bool)
    (h : flatProps ps = true) : flatProps (ps.filter pred) = true := by
  induction ps with
  | nil => simp [flatProps]
  | cons p rest ih =>
    rw [flatProps_cons, Bool.and_eq_true] at h
    simp only [List.filter]
    cases pred p
    · exact ih h.2
    · rw [flatProps_cons, ih h.2, h.1]
      rfl

/-- Membership form of `flatNodeList`. -/
theorem flatNodeList_mem (l : List TNode) (n : TNode) (h : flatNodeList l = true)
    (hm : n ∈ l) : flatTNode n = true := by
  induction l with
  | nil => cases hm
  | cons x xs ih =>
    simp only [flatNodeList, Bool.and_eq_true] at h
    rcases hm with _ | hm
    · exact h.1
    · exact ih h.2 (by assumption)

/-- `flatNodeList` survives `filter`. -/
theorem flatNodeList_filter (l : List TNode) (p : TNode → Bool)
    (h : flatNodeList l = true) : flatNodeList (l.filter p) = true := by
  induction l with
  | nil => simp [flatNodeList]
  | cons x xs ih =>
    simp only [flatNodeList, Bool.and_eq_true] at h
    simp only [List.filter]
    cases p x
    · exact ih h.2
    · simp only [flatNodeList, ih h.2, h.1, Bool.and_self]

/-- Looked-up declarations of a flat program have flat bodies. -/
theorem flatProg_find (P : Program) (n : String) (d : Decl)
    (hP : flatProg P = true) (hf : findTypeDeclaration P n = some d) :
    flatDeclBody d.body = true := by
  have hmem := List.mem_of_find?_eq_some hf
  rw [flatProg, List.all_eq_true] at hP
  exact hP d hmem

end Ts2Rs
namespace Ts2Rs

/-- Base case of the C3 induction: with no fuel every resolver function
errors out, so the statements hold vacuously. -/
theorem nf_zero (C : Ctx) : NF C 0 := by
  constructor <;> intros <;>
    simp_all [resolveTypeByName, resolveInterface, extendsFieldsLoop,
      extractFieldsFromType, resolvePropsLoop, resolveProperty, resolveTypeAlias,
      resolveAliasPropsLoop, resolveTypeAliasUnionPart, resolveTypeWithNode,
      resolveTypeFromNode, resolveFromNodeRef, resolveImportedType, resolveType,
      resolveTypeAfterAlias, resolveTypesList, resolveTypeObjAlias,
      resolveTypeSymbol, resolveTypeSymbolTail, resolveTypeAnon,
      resolveObjectFields, resolveInlineUnionType, resolveInlineUnionRest,
      resolveDiscriminatedUnion, discVariantsLoop, discVariantFieldsLoop,
      resolveUnionType, resolveUnionVariantsLoop]

end Ts2Rs
namespace Ts2Rs

/-- Head form of `optionNFFields`. -/
theorem optionNFFields_cons (f : StructField) (fs : List StructField) :
    optionNFFields (f :: fs) = (optionNF f.type_ && optionNFFields fs) := by
  obtain ⟨n, t, o⟩ := f
  rfl

/-- Head form of `optionNFVariants`. -/
theorem optionNFVariants_cons (v : UnionVariant) (vs : List UnionVariant) :
    optionNFVariants (v :: vs) =
      ((match v.type_ with | some t => optionNF t | none => true) &&
        optionNFVariants vs) := by
  obtain ⟨n, ty, dv⟩ := v
  cases ty <;> simp [optionNFVariants, UnionVariant.type_]

/-- Step case for the `extends` loop. -/
theorem nf_step_extLoop (C : Ctx) (fuel : Nat) (ih : NF C fuel) :
    ∀ st exts path st' fs, stOk st = true → flatTyList exts = true →
      extendsFieldsLoop C (fuel + 1) st exts path = .ok (st', fs) →
      stOk st' = true ∧ optionNFFields fs = true := by
  intro st exts path st' fs hst hflat h
  cases exts with
  | nil =>
    simp only [extendsFieldsLoop, Except.ok.injEq, Prod.mk.injEq] at h
    obtain ⟨rfl, rfl⟩ := h
    exact ⟨hst, rfl⟩
  | cons b rest =>
    simp only [extendsFieldsLoop] at h
    simp only [flatTyList, Bool.and_eq_true] at hflat
    cases h1 : extractFieldsFromType C fuel st b path with
    | error e => simp only [h1] at h; exact absurd h (by simp)
    | ok r1 =>
      obtain ⟨st₁, fs1⟩ := r1
      simp only [h1] at h
      cases h2 : extendsFieldsLoop C fuel st₁ rest path with
      | error e => simp only [h2] at h; exact absurd h (by simp)
      | ok r2 =>
        obtain ⟨st₂, fs2⟩ := r2
        simp only [h2] at h
        simp only [Except.ok.injEq, Prod.mk.injEq] at h
        obtain ⟨rfl, rfl⟩ := h
        have ha := ih.extract st b path st₁ fs1 hst hflat.1 h1
        have hb := ih.extLoop st₁ rest path st₂ fs2 ha.1 hflat.2 h2
        refine ⟨hb.1, ?_⟩
        rw [optionNFFields_append, ha.2, hb.2]
        rfl

/-- Step case for the shared property loop. -/
theorem nf_step_propsLoop (C : Ctx) (fuel : Nat) (ih : NF C fuel) :
    ∀ st props path st' fs, stOk st = true → flatProps props = true →
      resolvePropsLoop C (fuel + 1) st props path = .ok (st', fs) →
      stOk st' = true ∧ optionNFFields fs = true := by
  intro st props path st' fs hst hflat h
  cases props with
  | nil =>
    simp only [resolvePropsLoop, Except.ok.injEq, Prod.mk.injEq] at h
    obtain ⟨rfl, rfl⟩ := h
    exact ⟨hst, rfl⟩
  | cons p rest =>
    simp only [resolvePropsLoop] at h
    rw [flatProps_cons] at hflat
    simp only [Bool.and_eq_true] at hflat
    cases h1 : resolveProperty C fuel st p path with
    | error e => simp only [h1] at h; exact absurd h (by simp)
    | ok r1 =>
      obtain ⟨st₁, f1⟩ := r1
      simp only [h1] at h
      cases h2 : resolvePropsLoop C fuel st₁ rest path with
      | error e => simp only [h2] at h; exact absurd h (by simp)
      | ok r2 =>
        obtain ⟨st₂, fs2⟩ := r2
        simp only [h2] at h
        simp only [Except.ok.injEq, Prod.mk.injEq] at h
        obtain ⟨rfl, rfl⟩ := h
        have ha := ih.prop st p path st₁ f1 hst hflat.1.1 h1
        have hb := ih.propsLoop st₁ rest path st₂ fs2 ha.1 hflat.2 h2
        refine ⟨hb.1, ?_⟩
        rw [optionNFFields_cons, ha.2, hb.2]
        rfl

/-- Step case for `extractFieldsFromType`. -/
theorem nf_step_extract (C : Ctx) (fuel : Nat) (ih : NF C fuel) :
    ∀ st b path st' fs, stOk st = true → flatTy b = true →
      extractFieldsFromType C (fuel + 1) st b path = .ok (st', fs) →
      stOk st' = true ∧ optionNFFields fs = true := by
  intro st b path st' fs hst hflat h
  simp only [extractFieldsFromType] at h
  exact ih.propsLoop st _ path st' fs hst
    (flatProps_filter _ _ (flatTy_getProperties b hflat)) h

/-- Step case for the tuple-element loop. -/
theorem nf_step_typesList (C : Ctx) (fuel : Nat) (ih : NF C fuel) :
    ∀ st ts sf st' rts, stOk st = true → flatTyList ts = true →
      resolveTypesList C (fuel + 1) st ts sf = .ok (st', rts) →
      stOk st' = true ∧ optionNFList rts = true := by
  intro st ts sf st' rts hst hflat h
  cases ts with
  | nil =>
    simp only [resolveTypesList, Except.ok.injEq, Prod.mk.injEq] at h
    obtain ⟨rfl, rfl⟩ := h
    exact ⟨hst, rfl⟩
  | cons t rest =>
    simp only [resolveTypesList] at h
    simp only [flatTyList, Bool.and_eq_true] at hflat
    cases h1 : resolveType C fuel st t sf with
    | error e => simp only [h1] at h; exact absurd h (by simp)
    | ok r1 =>
      obtain ⟨st₁, rt1⟩ := r1
      simp only [h1] at h
      cases h2 : resolveTypesList C fuel st₁ rest sf with
      | error e => simp only [h2] at h; exact absurd h (by simp)
      | ok r2 =>
        obtain ⟨st₂, rts2⟩ := r2
        simp only [h2] at h
        simp only [Except.ok.injEq, Prod.mk.injEq] at h
        obtain ⟨rfl, rfl⟩ := h
        have ha := ih.type_ st t sf st₁ rt1 hst hflat.1 h1
        have hb := ih.typesList st₁ rest sf st₂ rts2 ha.1 hflat.2 h2
        refine ⟨hb.1, ?_⟩
        simp only [optionNFList, ha.2.1, hb.2, Bool.and_self]

end Ts2Rs
namespace Ts2Rs

/-- Step case for the object-field loop. -/
theorem nf_step_objFields (C : Ctx) (fuel : Nat) (ih : NF C fuel) :
    ∀ st props sf st' fs, stOk st = true → flatProps props = true →
      resolveObjectFields C (fuel + 1) st props sf = .ok (st', fs) →
      stOk st' = true ∧ optionNFFields fs = true := by
  intro st props sf st' fs hst hflat h
  cases props with
  | nil =>
    simp only [resolveObjectFields, Except.ok.injEq, Prod.mk.injEq] at h
    obtain ⟨rfl, rfl⟩ := h
    exact ⟨hst, rfl⟩
  | cons p rest =>
    simp only [resolveObjectFields] at h
    rw [flatProps_cons] at hflat
    simp only [Bool.and_eq_true] at hflat
    cases h1 : resolveType C fuel st p.ty sf with
    | error e => simp only [h1] at h; exact absurd h (by simp)
    | ok r1 =>
      obtain ⟨st₁, rt0⟩ := r1
      simp only [h1] at h
      cases h2 : resolveObjectFields C fuel st₁ rest sf with
      | error e => simp only [h2] at h; exact absurd h (by simp)
      | ok r2 =>
        obtain ⟨st₂, fs2⟩ := r2
        simp only [h2] at h
        simp only [Except.ok.injEq, Prod.mk.injEq] at h
        obtain ⟨rfl, rfl⟩ := h
        have ha := ih.type_ st p.ty sf st₁ rt0 hst hflat.1.1 h1
        have hb := ih.objFields st₁ rest sf st₂ fs2 ha.1 hflat.2 h2
        refine ⟨hb.1, ?_⟩
        rw [optionNFFields_cons]
        simp only [StructField.type_, optionNF_wrap _ _ ha.2.1, hb.2, Bool.and_self]

/-- Step case for the object-type-alias property loop. -/
theorem nf_step_aliasProps (C : Ctx) (fuel : Nat) (ih : NF C fuel) :
    ∀ st props path st' fs, stOk st = true → flatProps props = true →
      resolveAliasPropsLoop C (fuel + 1) st props path = .ok (st', fs) →
      stOk st' = true ∧ optionNFFields fs = true := by
  intro st props path st' fs hst hflat h
  cases props with
  | nil =>
    simp only [resolveAliasPropsLoop, Except.ok.injEq, Prod.mk.injEq] at h
    obtain ⟨rfl, rfl⟩ := h
    exact ⟨hst, rfl⟩
  | cons p rest =>
    simp only [resolveAliasPropsLoop] at h
    rw [flatProps_cons] at hflat
    simp only [Bool.and_eq_true] at hflat
    have hnode : flatOptNode (if p.isPropertySignature then p.typeNode else none) = true := by
      split
      · exact hflat.1.2
      · rfl
    cases h1 : resolveTypeWithNode C fuel st p.ty path
        (if p.isPropertySignature then p.typeNode else none) with
    | error e => simp only [h1] at h; exact absurd h (by simp)
    | ok r1 =>
      obtain ⟨st₁, rt0⟩ := r1
      simp only [h1] at h
      cases h2 : resolveAliasPropsLoop C fuel st₁ rest path with
      | error e => simp only [h2] at h; exact absurd h (by simp)
      | ok r2 =>
        obtain ⟨st₂, fs2⟩ := r2
        simp only [h2] at h
        simp only [Except.ok.injEq, Prod.mk.injEq] at h
        obtain ⟨rfl, rfl⟩ := h
        have ha := ih.withNode st p.ty path _ st₁ rt0 hst hflat.1.1 hnode h1
        have hb := ih.aliasProps st₁ rest path st₂ fs2 ha.1 hflat.2 h2
        refine ⟨hb.1, ?_⟩
        rw [optionNFFields_cons]
        simp only [StructField.type_, optionNF_wrap _ _ ha.2, hb.2, Bool.and_self]

end Ts2Rs
namespace Ts2Rs

/-- Step case for the discriminated-variant field loop. -/
theorem nf_step_discFields (C : Ctx) (fuel : Nat) (ih : NF C fuel) :
    ∀ st dp t props path st' fs, stOk st = true → flatProps props = true →
      discVariantFieldsLoop C (fuel + 1) st dp t props path = .ok (st', fs) →
      stOk st' = true ∧ optionNFFields fs = true := by
  intro st dp t props path st' fs hst hflat h
  cases props with
  | nil =>
    simp only [discVariantFieldsLoop, Except.ok.injEq, Prod.mk.injEq] at h
    obtain ⟨rfl, rfl⟩ := h
    exact ⟨hst, rfl⟩
  | cons p rest =>
    unfold discVariantFieldsLoop at h
    (try simp only [] at h)
    rw [discSkip_eq] at h
    rw [flatProps_cons] at hflat
    simp only [Bool.and_eq_true] at hflat
    cases hs : discSkip dp t p with
    | true =>
      rw [if_pos hs] at h
      exact ih.discFields st dp t rest path st' fs hst hflat.2 h
    | false =>
      rw [if_neg (by simp [hs])] at h
      cases h1 : resolveType C fuel st p.ty path with
      | error e => simp only [h1] at h; exact absurd h (by simp)
      | ok r1 =>
        obtain ⟨st₁, rt0⟩ := r1
        simp only [h1] at h
        cases h2 : discVariantFieldsLoop C fuel st₁ dp t rest path with
        | error e => simp only [h2] at h; exact absurd h (by simp)
        | ok r2 =>
          obtain ⟨st₂, fs2⟩ := r2
          simp only [h2] at h
          simp only [Except.ok.injEq, Prod.mk.injEq] at h
          obtain ⟨rfl, rfl⟩ := h
          have ha := ih.type_ st p.ty path st₁ rt0 hst hflat.1.1 h1
          have hb := ih.discFields st₁ dp t rest path st₂ fs2 ha.1 hflat.2 h2
          refine ⟨hb.1, ?_⟩
          rw [optionNFFields_cons]
          simp only [StructField.type_, optionNF_wrap _ _ ha.2.1, hb.2, Bool.and_self]

/-- Step case for the discriminated-variant loop. -/
theorem nf_step_discVars (C : Ctx) (fuel : Nat) (ih : NF C fuel) :
    ∀ st dp types idx path st' vs, stOk st = true → flatTyList types = true →
      discVariantsLoop C (fuel + 1) st dp types idx path = .ok (st', vs) →
      stOk st' = true ∧ optionNFVariants vs = true := by
  intro st dp types idx path st' vs hst hflat h
  cases types with
  | nil =>
    simp only [discVariantsLoop, Except.ok.injEq, Prod.mk.injEq] at h
    obtain ⟨rfl, rfl⟩ := h
    exact ⟨hst, rfl⟩
  | cons t rest =>
    unfold discVariantsLoop at h
    (try simp only [] at h)
    simp only [flatTyList, Bool.and_eq_true] at hflat
    cases h1 : discVariantFieldsLoop C fuel st dp t t.getProperties path with
    | error e => simp only [h1] at h; exact absurd h (by simp)
    | ok r1 =>
      obtain ⟨st₁, fields⟩ := r1
      simp only [h1] at h
      cases h2 : discVariantsLoop C fuel st₁ dp rest (idx + 1) path with
      | error e => simp only [h2] at h; exact absurd h (by simp)
      | ok r2 =>
        obtain ⟨st₂, vs2⟩ := r2
        simp only [h2] at h
        simp only [Except.ok.injEq, Prod.mk.injEq] at h
        obtain ⟨rfl, rfl⟩ := h
        have ha := ih.discFields st dp t t.getProperties path st₁ fields hst
          (flatTy_getProperties t hflat.1) h1
        have hb := ih.discVars st₁ dp rest (idx + 1) path st₂ vs2 ha.1 hflat.2 h2
        refine ⟨hb.1, ?_⟩
        by_cases hlen : fields.length > 0
        · rw [if_pos hlen, optionNFVariants_cons]
          simp [UnionVariant.type_, optionNF, ha.2, hb.2]
        · rw [if_neg hlen, optionNFVariants_cons]
          simp [UnionVariant.type_, hb.2]

end Ts2Rs
namespace Ts2Rs

/-- The payload the general-union loop stores for a variant (`null` results
dropped) is in option normal form when the resolved type is. -/
theorem optionNF_unionVtype (rt : ResolvedType) (h : optionNF rt = true) :
    (match (match rt with
        | ResolvedType.primitive Primitive.null => (none : Option ResolvedType)
        | r => some r) with
      | some x => optionNF x
      | none => true) = true := by
  cases rt <;> try exact h
  rename_i p
  cases p <;> simp_all

/-- Step case for the general-union variant loop. -/
theorem nf_step_unionVars (C : Ctx) (fuel : Nat) (ih : NF C fuel) :
    ∀ st i types path st' vs b, stOk st = true → flatTyList types = true →
      resolveUnionVariantsLoop C (fuel + 1) st i types path = .ok (st', (vs, b)) →
      stOk st' = true ∧ optionNFVariants vs = true := by
  intro st i types path st' vs b hst hflat h
  cases types with
  | nil =>
    simp only [resolveUnionVariantsLoop, Except.ok.injEq, Prod.mk.injEq] at h
    obtain ⟨rfl, rfl, rfl⟩ := h
    exact ⟨hst, rfl⟩
  | cons t rest =>
    unfold resolveUnionVariantsLoop at h
    (try simp only [] at h)
    simp only [flatTyList, Bool.and_eq_true] at hflat
    split at h
    · exact ih.unionVars st (i + 1) rest path st' vs b hst hflat.2 h
    · cases h1 : resolveType C fuel st t path with
      | error e => simp only [h1] at h; exact absurd h (by simp)
      | ok r1 =>
        obtain ⟨st₁, rt⟩ := r1
        simp only [h1] at h
        cases h2 : resolveUnionVariantsLoop C fuel st₁ (i + 1) rest path with
        | error e => simp only [h2] at h; exact absurd h (by simp)
        | ok r2 =>
          obtain ⟨st₂, vs2, hu2⟩ := r2
          simp only [h2] at h
          simp only [Except.ok.injEq, Prod.mk.injEq] at h
          obtain ⟨rfl, rfl, rfl⟩ := h
          have ha := ih.type_ st t path st₁ rt hst hflat.1 h1
          have hb := ih.unionVars st₁ (i + 1) rest path st₂ vs2 hu2 ha.1 hflat.2 h2
          refine ⟨hb.1, ?_⟩
          rw [optionNFVariants_cons]
          (try simp only [UnionVariant.type_])
          rw [optionNF_unionVtype rt ha.2.1, hb.2]
          rfl

end Ts2Rs
namespace Ts2Rs

/-- Step case for `resolveUnionType`. -/
theorem nf_step_unionT (C : Ctx) (fuel : Nat) (ih : NF C fuel) :
    ∀ st name types path st' u, stOk st = true → flatTyList types = true →
      resolveUnionType C (fuel + 1) st name types path = .ok (st', u) →
      stOk st' = true ∧ ∀ x, u = some x → optionNF x = true := by
  intro st name types path st' u hst hflat h
  unfold resolveUnionType at h
  (try simp only [] at h)
  cases h1 : resolveUnionVariantsLoop C fuel st 0 types path with
  | error e => simp only [h1] at h; exact absurd h (by simp)
  | ok r1 =>
    obtain ⟨st₁, vars, hu⟩ := r1
    simp only [h1] at h
    have ha := ih.unionVars st 0 types path st₁ vars hu hst hflat h1
    split at h
    · simp only [Except.ok.injEq, Prod.mk.injEq] at h
      obtain ⟨rfl, rfl⟩ := h
      exact ⟨ha.1, fun x hx => by cases hx⟩
    · simp only [Except.ok.injEq, Prod.mk.injEq] at h
      obtain ⟨rfl, rfl⟩ := h
      refine ⟨ha.1, fun x hx => ?_⟩
      cases hx
      simp only [optionNF]
      exact ha.2

/-- Step case for `resolveDiscriminatedUnion`. -/
theorem nf_step_discU (C : Ctx) (fuel : Nat) (ih : NF C fuel) :
    ∀ st name types path st' u, stOk st = true → flatTyList types = true →
      resolveDiscriminatedUnion C (fuel + 1) st name types path = .ok (st', u) →
      stOk st' = true ∧ optionNF u = true := by
  intro st name types path st' u hst hflat h
  unfold resolveDiscriminatedUnion at h
  (try simp only [] at h)
  have hobjflat : flatTyList (objectMembers types) = true :=
    flatTyList_filter _ _ hflat
  cases hobj : objectMembers types with
  | nil =>
    rw [hobj] at h
    simp only [Except.ok.injEq, Prod.mk.injEq] at h
    obtain ⟨rfl, rfl⟩ := h
    exact ⟨hst, rfl⟩
  | cons first restO =>
    rw [hobj] at h
    (try simp only [] at h)
    rw [hobj] at hobjflat
    cases h1 : discVariantsLoop C fuel st
        ((first.getProperties.map PropSig.name).find? (isDiscriminantProp (first :: restO)))
        (first :: restO) 0 path with
    | error e => simp only [h1] at h; exact absurd h (by simp)
    | ok r1 =>
      obtain ⟨st₁, variants⟩ := r1
      simp only [h1] at h
      simp only [Except.ok.injEq, Prod.mk.injEq] at h
      obtain ⟨rfl, rfl⟩ := h
      have ha := ih.discVars st _ (first :: restO) 0 path st₁ variants hst hobjflat h1
      exact ⟨ha.1, by simp only [optionNF]; exact ha.2⟩

/-- Step case for `resolveInterface`. -/
theorem nf_step_iface (C : Ctx) (fuel : Nat) (ih : NF C fuel) :
    ∀ st name path tps exts props st', stOk st = true →
      flatTyList exts = true → flatProps props = true →
      resolveInterface C (fuel + 1) st name path tps exts props = .ok (st', ()) →
      stOk st' = true := by
  intro st name path tps exts props st' hst hexts hprops h
  unfold resolveInterface at h
  (try simp only [] at h)
  cases h1 : extendsFieldsLoop C fuel
      { st with typeParameters := tps.foldl setAdd st.typeParameters } exts path with
  | error e => simp only [h1] at h; exact absurd h (by simp)
  | ok r1 =>
    obtain ⟨st₁, baseFields⟩ := r1
    simp only [h1] at h
    cases h2 : resolvePropsLoop C fuel st₁ props path with
    | error e => simp only [h2] at h; exact absurd h (by simp)
    | ok r2 =>
      obtain ⟨st₂, ownFields⟩ := r2
      simp only [h2] at h
      simp only [Except.ok.injEq, Prod.mk.injEq] at h
      obtain ⟨rfl, -⟩ := h
      have hst0 : stOk { st with typeParameters := tps.foldl setAdd st.typeParameters } = true := by
        rw [stOk_withTypeParams]; exact hst
      have ha := ih.extLoop _ exts path st₁ baseFields hst0 hexts h1
      have hb := ih.propsLoop st₁ props path st₂ ownFields ha.1 hprops h2
      rw [stOk_withTypeParams]
      refine stOk_collect st₂ name _ path hb.1 ?_
      simp only [optionNF]
      rw [optionNFFields_append, ha.2, hb.2]
      rfl

end Ts2Rs
namespace Ts2Rs

/-- Step case for `resolveTypeByName`. -/
theorem nf_step_byName (C : Ctx) (hP : flatProg C.P = true) (fuel : Nat) (ih : NF C fuel) :
    ∀ st tn sf st', stOk st = true →
      resolveTypeByName C (fuel + 1) st tn sf = .ok (st', ()) → stOk st' = true := by
  intro st tn sf st' hst h
  unfold resolveTypeByName at h
  (try simp only [] at h)
  split at h
  · simp only [Except.ok.injEq, Prod.mk.injEq] at h
    obtain ⟨rfl, -⟩ := h
    exact hst
  · split at h
    · simp only [Except.ok.injEq, Prod.mk.injEq] at h
      obtain ⟨rfl, -⟩ := h
      exact hst
    · cases hf : findTypeDeclaration C.P tn with
      | none => simp only [hf] at h; exact absurd h (by simp)
      | some d =>
        simp only [hf] at h
        have hbody := flatProg_find C.P tn d hP hf
        have hst1 : stOk { st with processingTypes := setAdd st.processingTypes tn } = true := by
          rw [stOk_withProcessing]; exact hst
        cases hb : d.body with
        | interfaceDecl tps exts props =>
          rw [hb] at h hbody
          simp only [flatDeclBody, Bool.and_eq_true] at hbody
          cases hr : resolveInterface C fuel
              { st with processingTypes := setAdd st.processingTypes tn }
              d.name d.path tps exts props with
          | error e => simp only [hr] at h; exact absurd h (by simp)
          | ok r2 =>
            obtain ⟨st₂, u⟩ := r2
            cases u
            simp only [hr] at h
            simp only [Except.ok.injEq, Prod.mk.injEq] at h
            obtain ⟨rfl, -⟩ := h
            rw [stOk_withProcessing]
            exact ih.iface _ d.name d.path tps exts props st₂ hst1 hbody.1 hbody.2 hr
        | typeAliasDecl ty =>
          rw [hb] at h hbody
          simp only [flatDeclBody] at hbody
          cases hr : resolveTypeAlias C fuel
              { st with processingTypes := setAdd st.processingTypes tn }
              d.name d.path ty with
          | error e => simp only [hr] at h; exact absurd h (by simp)
          | ok r2 =>
            obtain ⟨st₂, u⟩ := r2
            cases u
            simp only [hr] at h
            simp only [Except.ok.injEq, Prod.mk.injEq] at h
            obtain ⟨rfl, -⟩ := h
            rw [stOk_withProcessing]
            exact ih.aliasT _ d.name d.path ty st₂ hst1 hbody hr
        | enumDecl ms =>
          rw [hb] at h
          simp only [Except.ok.injEq, Prod.mk.injEq] at h
          obtain ⟨rfl, -⟩ := h
          rw [stOk_withProcessing]
          simp only [resolveEnum]
          exact stOk_collect _ d.name _ d.path hst1 rfl

/-- Step case for `resolveProperty`. -/
theorem nf_step_prop (C : Ctx) (fuel : Nat) (ih : NF C fuel) :
    ∀ st p sf st' f, stOk st = true → flatTy p.ty = true →
      resolveProperty C (fuel + 1) st p sf = .ok (st', f) →
      stOk st' = true ∧ optionNF f.type_ = true := by
  intro st p sf st' f hst hflat h
  unfold resolveProperty at h
  (try simp only [] at h)
  cases h1 : resolveType C fuel st p.ty sf with
  | error e => simp only [h1] at h; exact absurd h (by simp)
  | ok r1 =>
    obtain ⟨st₁, rt0⟩ := r1
    simp only [h1] at h
    have ha := ih.type_ st p.ty sf st₁ rt0 hst hflat h1
    cases rt0 <;>
      (simp only [Except.ok.injEq, Prod.mk.injEq] at h
       obtain ⟨rfl, rfl⟩ := h
       refine ⟨ha.1, ?_⟩
       simp only [StructField.type_])
    case ok.mk.struct.intro n fs tp =>
      have hb1 : optionNF (if (!(n == "") && st₁.processingTypes.contains n) = true
          then ResolvedType.box (.struct n fs tp) else ResolvedType.struct n fs tp) = true := by
        split <;> simp_all [optionNF]
      exact optionNF_wrap _ _ hb1
    all_goals exact optionNF_wrap _ _ ha.2.1

end Ts2Rs
namespace Ts2Rs

/-- Step case for `resolveTypeAlias`. -/
theorem nf_step_aliasT (C : Ctx) (fuel : Nat) (ih : NF C fuel) :
    ∀ st name path t st', stOk st = true → flatTy t = true →
      resolveTypeAlias C (fuel + 1) st name path t = .ok (st', ()) →
      stOk st' = true := by
  intro st name path t st' hst hflat h
  unfold resolveTypeAlias at h
  (try simp only [] at h)
  split at h
  · cases h1 : resolveTypesList C fuel st t.getTupleElements path with
    | error e => simp only [h1] at h; exact absurd h (by simp)
    | ok r1 =>
      obtain ⟨st₁, elems⟩ := r1
      simp only [h1] at h
      simp only [Except.ok.injEq, Prod.mk.injEq] at h
      obtain ⟨rfl, -⟩ := h
      have ha := ih.typesList st t.getTupleElements path st₁ elems hst
        (flatTy_getTupleElements t hflat) h1
      refine stOk_collect st₁ name _ path ha.1 ?_
      simp only [optionNF]
      exact ha.2
  · split at h
    · split at h
      · cases h1 : resolveAliasPropsLoop C fuel st t.getProperties path with
        | error e => simp only [h1] at h; exact absurd h (by simp)
        | ok r1 =>
          obtain ⟨st₁, fields⟩ := r1
          simp only [h1] at h
          simp only [Except.ok.injEq, Prod.mk.injEq] at h
          obtain ⟨rfl, -⟩ := h
          have ha := ih.aliasProps st t.getProperties path st₁ fields hst
            (flatTy_getProperties t hflat) h1
          refine stOk_collect st₁ name _ path ha.1 ?_
          simp only [optionNF]
          exact ha.2
      · exact ih.aliasUnion st name path t st' hst hflat h
    · exact ih.aliasUnion st name path t st' hst hflat h

/-- Step case for the union part of `resolveTypeAlias`. -/
theorem nf_step_aliasUnion (C : Ctx) (fuel : Nat) (ih : NF C fuel) :
    ∀ st name path t st', stOk st = true → flatTy t = true →
      resolveTypeAliasUnionPart C (fuel + 1) st name path t = .ok (st', ()) →
      stOk st' = true := by
  intro st name path t st' hst hflat h
  unfold resolveTypeAliasUnionPart at h
  (try simp only [] at h)
  have huts := flatTy_getUnionTypes t hflat
  split at h
  · split at h
    · cases h1 : resolveDiscriminatedUnion C fuel st name t.getUnionTypes path with
      | error e => simp only [h1] at h; exact absurd h (by simp)
      | ok r1 =>
        obtain ⟨st₁, u⟩ := r1
        simp only [h1] at h
        simp only [Except.ok.injEq, Prod.mk.injEq] at h
        obtain ⟨rfl, -⟩ := h
        have ha := ih.discU st name t.getUnionTypes path st₁ u hst huts.1 h1
        exact stOk_collect st₁ name u path ha.1 ha.2
    · split at h
      · simp only [Except.ok.injEq, Prod.mk.injEq] at h
        obtain ⟨rfl, -⟩ := h
        exact stOk_collect st name _ path hst (by rfl)
      · cases h1 : resolveUnionType C fuel st name t.getUnionTypes path with
        | error e => simp only [h1] at h; exact absurd h (by simp)
        | ok r1 =>
          obtain ⟨st₁, uo⟩ := r1
          have ha := ih.unionT st name t.getUnionTypes path st₁ uo hst huts.1 h1
          cases uo with
          | none =>
            simp only [h1] at h
            simp only [Except.ok.injEq, Prod.mk.injEq] at h
            obtain ⟨rfl, -⟩ := h
            rw [stOk_pushWarning]
            exact ha.1
          | some u =>
            simp only [h1] at h
            simp only [Except.ok.injEq, Prod.mk.injEq] at h
            obtain ⟨rfl, -⟩ := h
            exact stOk_collect st₁ name u path ha.1 (ha.2 u rfl)
  · cases h1 : resolveType C fuel st t path with
    | error e => simp only [h1] at h; exact absurd h (by simp)
    | ok r1 =>
      obtain ⟨st₁, rt⟩ := r1
      simp only [h1] at h
      have ha := ih.type_ st t path st₁ rt hst hflat h1
      split at h
      · simp only [Except.ok.injEq, Prod.mk.injEq] at h
        obtain ⟨rfl, -⟩ := h
        exact stOk_collect st₁ name rt path ha.1 ha.2.1
      · simp only [Except.ok.injEq, Prod.mk.injEq] at h
        obtain ⟨rfl, -⟩ := h
        exact ha.1

end Ts2Rs
namespace Ts2Rs

/-- Step case for `resolveFromNodeRef`. -/
theorem nf_step_nodeRef (C : Ctx) (fuel : Nat) (ih : NF C fuel) :
    ∀ st tn sf st' rt, stOk st = true →
      resolveFromNodeRef C (fuel + 1) st tn sf = .ok (st', rt) →
      stOk st' = true ∧ optionNF rt = true := by
  intro st tn sf st' rt hst h
  unfold resolveFromNodeRef at h
  (try simp only [] at h)
  cases hf : findTypeDeclaration C.P tn with
  | some d =>
    simp only [hf] at h
    cases h1 : resolveTypeByName C fuel st tn sf with
    | error e => simp only [h1] at h; exact absurd h (by simp)
    | ok r1 =>
      obtain ⟨st₁, u⟩ := r1
      cases u
      simp only [h1] at h
      simp only [Except.ok.injEq, Prod.mk.injEq] at h
      obtain ⟨rfl, rfl⟩ := h
      exact ⟨ih.byName st tn sf st₁ hst h1, rfl⟩
  | none =>
    simp only [hf] at h
    exact ih.imported st tn sf st' rt hst h

/-- Step case for `resolveImportedType`. -/
theorem nf_step_imported (C : Ctx) (fuel : Nat) (ih : NF C fuel) :
    ∀ st tn sf st' rt, stOk st = true →
      resolveImportedType C (fuel + 1) st tn sf = .ok (st', rt) →
      stOk st' = true ∧ optionNF rt = true := by
  intro st tn sf st' rt hst h
  unfold resolveImportedType at h
  (try simp only [] at h)
  cases hf : findTypeDeclaration C.P tn with
  | some d =>
    simp only [hf] at h
    cases h1 : resolveTypeByName C fuel st tn sf with
    | error e => simp only [h1] at h; exact absurd h (by simp)
    | ok r1 =>
      obtain ⟨st₁, u⟩ := r1
      cases u
      simp only [h1] at h
      have hst1 := ih.byName st tn sf st₁ hst h1
      split at h
      · obtain ⟨he, rfl⟩ := nf_handleValueFallback _ _ _ _ _ _ _ h
        rw [he]
        exact ⟨hst1, rfl⟩
      · simp only [Except.ok.injEq, Prod.mk.injEq] at h
        obtain ⟨rfl, rfl⟩ := h
        exact ⟨hst1, rfl⟩
  | none =>
    simp only [hf] at h
    obtain ⟨he, rfl⟩ := nf_handleValueFallback _ _ _ _ _ _ _ h
    rw [he]
    exact ⟨hst, rfl⟩

/-- Step case for `resolveTypeAnon`. -/
theorem nf_step_anon (C : Ctx) (fuel : Nat) (ih : NF C fuel) :
    ∀ st t sf st' rt, stOk st = true → flatTy t = true →
      resolveTypeAnon C (fuel + 1) st t sf = .ok (st', rt) →
      stOk st' = true ∧ optionNF rt = true ∧ rt.isOption = false := by
  intro st t sf st' rt hst hflat h
  unfold resolveTypeAnon at h
  (try simp only [] at h)
  split at h
  · cases h1 : resolveObjectFields C fuel st t.getProperties sf with
    | error e => simp only [h1] at h; exact absurd h (by simp)
    | ok r1 =>
      obtain ⟨st₁, fields⟩ := r1
      simp only [h1] at h
      simp only [Except.ok.injEq, Prod.mk.injEq] at h
      obtain ⟨rfl, rfl⟩ := h
      have ha := ih.objFields st t.getProperties sf st₁ fields hst
        (flatTy_getProperties t hflat) h1
      exact ⟨ha.1, by simpa [optionNF] using ha.2, rfl⟩
  · obtain ⟨he, rfl⟩ := nf_handleValueFallback _ _ _ _ _ _ _ h
    rw [he]
    exact ⟨hst, rfl, rfl⟩

/-- Step case for `resolveTypeFromNode`. -/
theorem nf_step_fromNode (C : Ctx) (fuel : Nat) (ih : NF C fuel) :
    ∀ st node sf st' rt, stOk st = true → flatTNode node = true →
      resolveTypeFromNode C (fuel + 1) st node sf = .ok (st', rt) →
      stOk st' = true ∧ optionNF rt = true := by
  intro st node sf st' rt hst hflat h
  obtain ⟨nform, nty⟩ := node
  simp only [flatTNode, Bool.and_eq_true] at hflat
  unfold resolveTypeFromNode at h
  (try simp only [] at h)
  cases nform with
  | typeRefN typeName args =>
    simp only [TNode.form] at h
    split at h
    · cases args with
      | nil => exact ih.nodeRef st typeName sf st' rt hst h
      | cons a rest =>
        cases h1 : resolveTypeFromNode C fuel st a sf with
        | error e => simp only [h1] at h; exact absurd h (by simp)
        | ok r1 =>
          obtain ⟨st₁, et⟩ := r1
          simp only [h1] at h
          simp only [Except.ok.injEq, Prod.mk.injEq] at h
          obtain ⟨rfl, rfl⟩ := h
          have hfa : flatTNode a = true := by
            have := hflat.1
            simp only [flatNForm, flatNodeList, Bool.and_eq_true] at this
            exact this.1
          have ha := ih.fromNode st a sf st₁ et hst hfa h1
          exact ⟨ha.1, by simpa [optionNF] using ha.2⟩
    · exact ih.nodeRef st typeName sf st' rt hst h
  | unionN ns =>
    simp only [TNode.form] at h
    repeat' split at h
    any_goals
      (simp only [Except.ok.injEq, Prod.mk.injEq] at h
       obtain ⟨rfl, rfl⟩ := h
       exact ⟨hst, rfl⟩)
    all_goals exact
      ⟨(ih.type_ st nty sf st' rt hst hflat.2 h).1,
       (ih.type_ st nty sf st' rt hst hflat.2 h).2.1⟩
  | literalNullN =>
    simp only [TNode.form] at h
    repeat' split at h
    any_goals
      (simp only [Except.ok.injEq, Prod.mk.injEq] at h
       obtain ⟨rfl, rfl⟩ := h
       exact ⟨hst, rfl⟩)
    all_goals exact
      ⟨(ih.type_ st nty sf st' rt hst hflat.2 h).1,
       (ih.type_ st nty sf st' rt hst hflat.2 h).2.1⟩
  | arrayN en =>
    simp only [TNode.form] at h
    repeat' split at h
    any_goals
      (simp only [Except.ok.injEq, Prod.mk.injEq] at h
       obtain ⟨rfl, rfl⟩ := h
       exact ⟨hst, rfl⟩)
    all_goals exact
      ⟨(ih.type_ st nty sf st' rt hst hflat.2 h).1,
       (ih.type_ st nty sf st' rt hst hflat.2 h).2.1⟩
  | otherN tx =>
    simp only [TNode.form] at h
    repeat' split at h
    any_goals
      (simp only [Except.ok.injEq, Prod.mk.injEq] at h
       obtain ⟨rfl, rfl⟩ := h
       exact ⟨hst, rfl⟩)
    all_goals exact
      ⟨(ih.type_ st nty sf st' rt hst hflat.2 h).1,
       (ih.type_ st nty sf st' rt hst hflat.2 h).2.1⟩

end Ts2Rs
namespace Ts2Rs

/-- Step case for `resolveTypeSymbolTail`. -/
theorem nf_step_symbolTail (C : Ctx) (fuel : Nat) (ih : NF C fuel) :
    ∀ st t sf sym st' rt, stOk st = true → flatTy t = true →
      resolveTypeSymbolTail C (fuel + 1) st t sf sym = .ok (st', rt) →
      stOk st' = true ∧ optionNF rt = true ∧ rt.isOption = false := by
  intro st t sf sym st' rt hst hflat h
  unfold resolveTypeSymbolTail at h
  (try simp only [] at h)
  split at h
  · split at h
    · exact ih.anon st t sf st' rt hst hflat h
    · obtain ⟨he, rfl⟩ := nf_handleValueFallback _ _ _ _ _ _ _ h
      rw [he]
      exact ⟨hst, rfl, rfl⟩
  · split at h
    · cases hd : sym.declPath with
      | some filePath =>
        simp only [hd] at h
        split at h
        · cases h1 : resolveTypeByName C fuel st sym.name filePath with
          | error e => simp only [h1] at h; exact absurd h (by simp)
          | ok r1 =>
            obtain ⟨st₁, u⟩ := r1
            cases u
            simp only [h1] at h
            have hst1 := ih.byName st sym.name filePath st₁ hst h1
            split at h
            · obtain ⟨he, rfl⟩ := nf_handleValueFallback _ _ _ _ _ _ _ h
              rw [he]
              exact ⟨hst1, rfl, rfl⟩
            · simp only [Except.ok.injEq, Prod.mk.injEq] at h
              obtain ⟨rfl, rfl⟩ := h
              exact ⟨hst1, rfl, rfl⟩
        · obtain ⟨he, rfl⟩ := nf_handleValueFallback _ _ _ _ _ _ _ h
          rw [he]
          exact ⟨hst, rfl, rfl⟩
      | none =>
        simp only [hd] at h
        simp only [Except.ok.injEq, Prod.mk.injEq] at h
        obtain ⟨rfl, rfl⟩ := h
        exact ⟨hst, rfl, rfl⟩
    · exact ih.anon st t sf st' rt hst hflat h

/-- Step case for `resolveTypeSymbol`. -/
theorem nf_step_symbol (C : Ctx) (fuel : Nat) (ih : NF C fuel) :
    ∀ st t sf st' rt, stOk st = true → flatTy t = true →
      resolveTypeSymbol C (fuel + 1) st t sf = .ok (st', rt) →
      stOk st' = true ∧ optionNF rt = true ∧ rt.isOption = false := by
  intro st t sf st' rt hst hflat h
  unfold resolveTypeSymbol at h
  (try simp only [] at h)
  have hargs := flatTy_getTypeArguments t hflat
  cases hsym : (match t.symbol with | some s => some s | none => t.aliasSym) with
  | none =>
    simp only [hsym] at h
    exact ih.anon st t sf st' rt hst hflat h
  | some sym =>
    simp only [hsym] at h
    split at h
    · -- Array / ReadonlyArray
      cases hta : t.getTypeArguments with
      | nil =>
        simp only [hta] at h
        exact ih.symbolTail st t sf sym st' rt hst hflat h
      | cons a rest =>
        simp only [hta] at h
        rw [hta] at hargs
        simp only [flatTyList, Bool.and_eq_true] at hargs
        cases h1 : resolveType C fuel st a sf with
        | error e => simp only [h1] at h; exact absurd h (by simp)
        | ok r1 =>
          obtain ⟨st₁, et⟩ := r1
          simp only [h1] at h
          simp only [Except.ok.injEq, Prod.mk.injEq] at h
          obtain ⟨rfl, rfl⟩ := h
          have ha := ih.type_ st a sf st₁ et hst hargs.1 h1
          exact ⟨ha.1, by simpa [optionNF] using ha.2.1, rfl⟩
    · split at h
      · -- Record
        cases hta : t.getTypeArguments with
        | nil =>
          simp only [hta] at h
          exact ih.symbolTail st t sf sym st' rt hst hflat h
        | cons k restk =>
          rw [hta] at hargs
          simp only [flatTyList, Bool.and_eq_true] at hargs
          cases restk with
          | nil =>
            simp only [hta] at h
            exact ih.symbolTail st t sf sym st' rt hst hflat h
          | cons v restv =>
            simp only [hta] at h
            cases h1 : resolveType C fuel st k sf with
            | error e => simp only [h1] at h; exact absurd h (by simp)
            | ok r1 =>
              obtain ⟨st₁, kt⟩ := r1
              simp only [h1] at h
              cases h2 : resolveType C fuel st₁ v sf with
              | error e => simp only [h2] at h; exact absurd h (by simp)
              | ok r2 =>
                obtain ⟨st₂, vt⟩ := r2
                simp only [h2] at h
                simp only [Except.ok.injEq, Prod.mk.injEq] at h
                obtain ⟨rfl, rfl⟩ := h
                have ha := ih.type_ st k sf st₁ kt hst hargs.1 h1
                simp only [flatTyList, Bool.and_eq_true] at hargs
                have hb := ih.type_ st₁ v sf st₂ vt ha.1 hargs.2.1 h2
                exact ⟨hb.1, by simp [optionNF, ha.2.1, hb.2.1], rfl⟩
      · split at h
        · -- Map
          cases hta : t.getTypeArguments with
          | nil =>
            simp only [hta] at h
            exact ih.symbolTail st t sf sym st' rt hst hflat h
          | cons k restk =>
            rw [hta] at hargs
            simp only [flatTyList, Bool.and_eq_true] at hargs
            cases restk with
            | nil =>
              simp only [hta] at h
              exact ih.symbolTail st t sf sym st' rt hst hflat h
            | cons v restv =>
              simp only [hta] at h
              cases h1 : resolveType C fuel st k sf with
              | error e => simp only [h1] at h; exact absurd h (by simp)
              | ok r1 =>
                obtain ⟨st₁, kt⟩ := r1
                simp only [h1] at h
                cases h2 : resolveType C fuel st₁ v sf with
                | error e => simp only [h2] at h; exact absurd h (by simp)
                | ok r2 =>
                  obtain ⟨st₂, vt⟩ := r2
                  simp only [h2] at h
                  simp only [Except.ok.injEq, Prod.mk.injEq] at h
                  obtain ⟨rfl, rfl⟩ := h
                  have ha := ih.type_ st k sf st₁ kt hst hargs.1 h1
                  simp only [flatTyList, Bool.and_eq_true] at hargs
                  have hb := ih.type_ st₁ v sf st₂ vt ha.1 hargs.2.1 h2
                  exact ⟨hb.1, by simp [optionNF, ha.2.1, hb.2.1], rfl⟩
        · split at h
          · -- Set
            cases hta : t.getTypeArguments with
            | nil =>
              simp only [hta] at h
              exact ih.symbolTail st t sf sym st' rt hst hflat h
            | cons a rest =>
              simp only [hta] at h
              rw [hta] at hargs
              simp only [flatTyList, Bool.and_eq_true] at hargs
              cases h1 : resolveType C fuel st a sf with
              | error e => simp only [h1] at h; exact absurd h (by simp)
              | ok r1 =>
                obtain ⟨st₁, et⟩ := r1
                simp only [h1] at h
                simp only [Except.ok.injEq, Prod.mk.injEq] at h
                obtain ⟨rfl, rfl⟩ := h
                have ha := ih.type_ st a sf st₁ et hst hargs.1 h1
                exact ⟨ha.1, by simpa [optionNF] using ha.2.1, rfl⟩
          · split at h
            · -- Date
              simp only [Except.ok.injEq, Prod.mk.injEq] at h
              obtain ⟨rfl, rfl⟩ := h
              exact ⟨hst, rfl, rfl⟩
            · split at h
              · -- Promise
                exact absurd h (by simp)
              · exact ih.symbolTail st t sf sym st' rt hst hflat h

/-- Step case for `resolveTypeObjAlias`. -/
theorem nf_step_objAlias (C : Ctx) (fuel : Nat) (ih : NF C fuel) :
    ∀ st t sf st' rt, stOk st = true → flatTy t = true →
      resolveTypeObjAlias C (fuel + 1) st t sf = .ok (st', rt) →
      stOk st' = true ∧ optionNF rt = true ∧ rt.isOption = false := by
  intro st t sf st' rt hst hflat h
  unfold resolveTypeObjAlias at h
  (try simp only [] at h)
  cases hal : t.aliasSym with
  | none =>
    simp only [hal] at h
    exact ih.symbol st t sf st' rt hst hflat h
  | some a =>
    simp only [hal] at h
    split at h
    · cases hd : a.declPath with
      | some filePath =>
        simp only [hd] at h
        split at h
        · cases hf : findTypeDeclaration C.P a.name with
          | some d =>
            simp only [hf] at h
            cases h1 : resolveTypeByName C fuel st a.name filePath with
            | error e => simp only [h1] at h; exact absurd h (by simp)
            | ok r1 =>
              obtain ⟨st₁, u⟩ := r1
              cases u
              simp only [h1] at h
              simp only [Except.ok.injEq, Prod.mk.injEq] at h
              obtain ⟨rfl, rfl⟩ := h
              exact ⟨ih.byName st a.name filePath st₁ hst h1, rfl, rfl⟩
          | none =>
            simp only [hf] at h
            split at h
            · cases h1 : resolveObjectFields C fuel st t.getProperties sf with
              | error e => simp only [h1] at h; exact absurd h (by simp)
              | ok r1 =>
                obtain ⟨st₁, fields⟩ := r1
                simp only [h1] at h
                simp only [Except.ok.injEq, Prod.mk.injEq] at h
                obtain ⟨rfl, rfl⟩ := h
                have ha := ih.objFields st t.getProperties sf st₁ fields hst
                  (flatTy_getProperties t hflat) h1
                refine ⟨stOk_collect st₁ a.name _ filePath ha.1 ?_, rfl, rfl⟩
                simpa [optionNF] using ha.2
            · simp only [Except.ok.injEq, Prod.mk.injEq] at h
              obtain ⟨rfl, rfl⟩ := h
              exact ⟨hst, rfl, rfl⟩
        · exact ih.symbol st t sf st' rt hst hflat h
      | none =>
        simp only [hd] at h
        exact ih.symbol st t sf st' rt hst hflat h
    · exact ih.symbol st t sf st' rt hst hflat h

end Ts2Rs
namespace Ts2Rs

/-- A successful `inlineUnionTail` leaves the collected map intact and
yields `json_value`. -/
theorem nf_inlineUnionTail (opts : ConversionOptions) (st : St) (t : Ty)
    (sf : String) (st' : St) (rt : ResolvedType)
    (h : inlineUnionTail opts st t sf = .ok (st', rt)) :
    stOk st' = stOk st ∧ rt = .json_value := by
  unfold inlineUnionTail at h
  split at h <;> exact nf_handleValueFallback _ _ _ _ _ _ _ h

/-- Step case for `resolveInlineUnionRest`. -/
theorem nf_step_inlineRest (C : Ctx) (fuel : Nat) (ih : NF C fuel) :
    ∀ st t sf st' rt, stOk st = true → flatTy t = true →
      resolveInlineUnionRest C (fuel + 1) st t sf = .ok (st', rt) →
      stOk st' = true ∧ optionNF rt = true := by
  intro st t sf st' rt hst hflat h
  unfold resolveInlineUnionRest at h
  (try simp only [] at h)
  have huts := flatTy_getUnionTypes t hflat
  split at h
  · cases hnn : t.getUnionTypes.filter (fun x => !x.isNull && !x.isUndefined) with
    | nil =>
      simp only [hnn] at h
      obtain ⟨he, rfl⟩ := nf_inlineUnionTail _ _ _ _ _ _ h
      rw [he]
      exact ⟨hst, rfl⟩
    | cons m rest =>
      cases rest with
      | nil =>
        simp only [hnn] at h
        have hm : m ∈ t.getUnionTypes := by
          have : m ∈ t.getUnionTypes.filter (fun x => !x.isNull && !x.isUndefined) := by
            rw [hnn]; exact List.mem_singleton_self m
          exact (List.mem_filter.mp this).1
        have hmf : flatTy m = true := flatTyList_mem _ m huts.1 hm
        have hmu : m.isUnion = false := notUnionList_mem _ m huts.2 hm
        cases h1 : resolveType C fuel st m sf with
        | error e => simp only [h1] at h; exact absurd h (by simp)
        | ok r1 =>
          obtain ⟨st₁, inner0⟩ := r1
          simp only [h1] at h
          have ha := ih.type_ st m sf st₁ inner0 hst hmf h1
          have hnopt := ha.2.2 hmu
          have hnf := ha.2.1
          (try simp only [] at h)
          simp only [Except.ok.injEq, Prod.mk.injEq] at h
          obtain ⟨rfl, rfl⟩ := h
          refine ⟨ha.1, ?_⟩
          cases inner0
          case option inner => simp [ResolvedType.isOption] at hnopt
          case struct n fs tp =>
            have hb1 : optionNF (ResolvedType.option
                (if (!(n == "") && st₁.processingTypes.contains n) = true
                 then ResolvedType.box (.struct n fs tp)
                 else ResolvedType.struct n fs tp)) = true := by
              split <;> simpa [optionNF, ResolvedType.isOption] using hnf
            exact hb1
          all_goals simp_all [optionNF, ResolvedType.isOption]
      | cons m2 rest2 =>
        simp only [hnn] at h
        simp only [Except.ok.injEq, Prod.mk.injEq] at h
        obtain ⟨rfl, rfl⟩ := h
        exact ⟨hst, rfl⟩
  · obtain ⟨he, rfl⟩ := nf_inlineUnionTail _ _ _ _ _ _ h
    rw [he]
    exact ⟨hst, rfl⟩

/-- Step case for `resolveInlineUnionType`. -/
theorem nf_step_inlineU (C : Ctx) (fuel : Nat) (ih : NF C fuel) :
    ∀ st t sf st' rt, stOk st = true → flatTy t = true →
      resolveInlineUnionType C (fuel + 1) st t sf = .ok (st', rt) →
      stOk st' = true ∧ optionNF rt = true := by
  intro st t sf st' rt hst hflat h
  unfold resolveInlineUnionType at h
  (try simp only [] at h)
  cases hal : t.aliasSym with
  | none =>
    simp only [hal] at h
    exact ih.inlineRest st t sf st' rt hst hflat h
  | some a =>
    simp only [hal] at h
    cases hd : a.declPath with
    | none =>
      simp only [hd] at h
      exact ih.inlineRest st t sf st' rt hst hflat h
    | some filePath =>
      simp only [hd] at h
      split at h
      · exact ih.inlineRest st t sf st' rt hst hflat h
      · cases h1 : resolveTypeByName C fuel st a.name filePath with
        | error e => simp only [h1] at h; exact absurd h (by simp)
        | ok r1 =>
          obtain ⟨st₁, u⟩ := r1
          cases u
          simp only [h1] at h
          have hst1 := ih.byName st a.name filePath st₁ hst h1
          split at h
          · obtain ⟨he, rfl⟩ := nf_handleValueFallback _ _ _ _ _ _ _ h
            rw [he]
            exact ⟨hst1, rfl⟩
          · simp only [Except.ok.injEq, Prod.mk.injEq] at h
            obtain ⟨rfl, rfl⟩ := h
            exact ⟨hst1, rfl⟩

end Ts2Rs
namespace Ts2Rs

/-- Step case for `resolveTypeWithNode`. -/
theorem nf_step_withNode (C : Ctx) (fuel : Nat) (ih : NF C fuel) :
    ∀ st t sf node st' rt, stOk st = true → flatTy t = true →
      flatOptNode node = true →
      resolveTypeWithNode C (fuel + 1) st t sf node = .ok (st', rt) →
      stOk st' = true ∧ optionNF rt = true := by
  intro st t sf node st' rt hst hflat hnode h
  have hty : ∀ st'' rt'', resolveType C fuel st t sf = .ok (st'', rt'') →
      stOk st'' = true ∧ optionNF rt'' = true := fun st'' rt'' hh =>
    ⟨(ih.type_ st t sf st'' rt'' hst hflat hh).1,
     (ih.type_ st t sf st'' rt'' hst hflat hh).2.1⟩
  unfold resolveTypeWithNode at h
  (try simp only [] at h)
  cases node with
  | none => exact hty st' rt h
  | some nd =>
    obtain ⟨nform, nty⟩ := nd
    simp only [flatOptNode, flatTNode, Bool.and_eq_true] at hnode
    simp only [TNode.form] at h
    cases nform with
    | unionN typeNodes =>
      (try simp only [] at h)
      split at h
      · cases hnn : typeNodes.filter (fun n => !TNode.isLiteralNullNode n) with
        | nil => simp only [hnn] at h; exact hty st' rt h
        | cons nn rest =>
          cases rest with
          | cons n2 r2 => simp only [hnn] at h; exact hty st' rt h
          | nil =>
            simp only [hnn] at h
            have hnnf : flatTNode nn = true := by
              have hl : flatNodeList (typeNodes.filter
                  (fun n => !TNode.isLiteralNullNode n)) = true := by
                have := hnode.1
                simp only [flatNForm] at this
                exact flatNodeList_filter _ _ this
              rw [hnn] at hl
              simp only [flatNodeList, Bool.and_eq_true] at hl
              exact hl.1
            obtain ⟨nnf, nnty⟩ := nn
            simp only [TNode.form] at h
            cases nnf with
            | typeRefN tn args =>
              cases hf : findTypeDeclaration C.P tn with
              | some d =>
                simp only [hf] at h
                cases h1 : resolveTypeByName C fuel st tn sf with
                | error e => simp only [h1] at h; exact absurd h (by simp)
                | ok r1 =>
                  obtain ⟨st₁, u⟩ := r1
                  cases u
                  simp only [h1] at h
                  simp only [Except.ok.injEq, Prod.mk.injEq] at h
                  obtain ⟨rfl, rfl⟩ := h
                  exact ⟨ih.byName st tn sf st₁ hst h1, rfl⟩
              | none =>
                simp only [hf] at h
                split at h
                · cases args with
                  | nil => exact hty st' rt h
                  | cons a ra =>
                    cases h1 : resolveTypeFromNode C fuel st a sf with
                    | error e => simp only [h1] at h; exact absurd h (by simp)
                    | ok r1 =>
                      obtain ⟨st₁, et⟩ := r1
                      simp only [h1] at h
                      simp only [Except.ok.injEq, Prod.mk.injEq] at h
                      obtain ⟨rfl, rfl⟩ := h
                      have hfa : flatTNode a = true := by
                        simp only [flatTNode, flatNForm, flatNodeList,
                          Bool.and_eq_true] at hnnf
                        exact hnnf.1.1
                      have ha := ih.fromNode st a sf st₁ et hst hfa h1
                      exact ⟨ha.1, by simpa [optionNF, ResolvedType.isOption] using ha.2⟩
                · exact hty st' rt h
            | arrayN en =>
              cases h1 : resolveTypeFromNode C fuel st en sf with
              | error e => simp only [h1] at h; exact absurd h (by simp)
              | ok r1 =>
                obtain ⟨st₁, et⟩ := r1
                simp only [h1] at h
                simp only [Except.ok.injEq, Prod.mk.injEq] at h
                obtain ⟨rfl, rfl⟩ := h
                have hfa : flatTNode en = true := by
                  simp only [flatTNode, flatNForm, Bool.and_eq_true] at hnnf
                  exact hnnf.1
                have ha := ih.fromNode st en sf st₁ et hst hfa h1
                exact ⟨ha.1, by simpa [optionNF, ResolvedType.isOption] using ha.2⟩
            | unionN ns2 => exact hty st' rt h
            | literalNullN => exact hty st' rt h
            | otherN tx => exact hty st' rt h
      · exact hty st' rt h
    | literalNullN => exact hty st' rt h
    | typeRefN tn args => exact hty st' rt h
    | arrayN en => exact hty st' rt h
    | otherN tx => exact hty st' rt h

end Ts2Rs
namespace Ts2Rs

/-- Step case for the dispatch tail `resolveTypeAfterAlias`. -/
theorem nf_step_afterAlias (C : Ctx) (fuel : Nat) (ih : NF C fuel) :
    ∀ st t sf st' rt, stOk st = true → flatTy t = true →
      resolveTypeAfterAlias C (fuel + 1) st t sf = .ok (st', rt) →
      stOk st' = true ∧ optionNF rt = true ∧
        (t.isUnion = false → rt.isOption = false) := by
  intro st t sf st' rt hst hflat h
  obtain ⟨s, asym, symb, tx, args⟩ := t
  cases s <;>
    simp only [resolveTypeAfterAlias, Ty.isNull, Ty.isUndefined, Ty.isString,
      Ty.isStringLiteral, Ty.isNumber, Ty.isNumberLiteral, Ty.isBoolean,
      Ty.isBooleanLiteral, Ty.isAny, Ty.isUnknown, Ty.isArray, Ty.isTuple,
      Ty.isUnion, Ty.shape, Ty.getArrayElementType, Ty.getTupleElements,
      Ty.getStringIndexType, Ty.getNumberIndexType, Ty.getProperties,
      Ty.getLiteralValue, Bool.false_eq_true, Bool.or_self, Bool.or_false,
      Bool.false_or, Bool.true_or, Bool.or_true, eq_self_iff_true,
      if_true, if_false] at h ⊢
  case arrayS e =>
    simp only [flatTy, flatShape, Bool.and_eq_true] at hflat
    cases h1 : resolveType C fuel st e sf with
    | error e2 => simp only [h1] at h; exact absurd h (by simp)
    | ok r1 =>
      obtain ⟨st₁, et⟩ := r1
      simp only [h1] at h
      simp only [Except.ok.injEq, Prod.mk.injEq] at h
      obtain ⟨rfl, rfl⟩ := h
      have ha := ih.type_ st e sf st₁ et hst hflat.1 h1
      exact ⟨ha.1, by simpa [optionNF] using ha.2.1, fun _ => rfl⟩
  case tupleS es =>
    simp only [flatTy, flatShape, Bool.and_eq_true] at hflat
    cases h1 : resolveTypesList C fuel st es sf with
    | error e2 => simp only [h1] at h; exact absurd h (by simp)
    | ok r1 =>
      obtain ⟨st₁, rts⟩ := r1
      simp only [h1] at h
      simp only [Except.ok.injEq, Prod.mk.injEq] at h
      obtain ⟨rfl, rfl⟩ := h
      have ha := ih.typesList st es sf st₁ rts hst hflat.1 h1
      exact ⟨ha.1, by simpa [optionNF] using ha.2, fun _ => rfl⟩
  case unionS ms =>
    have ha := ih.inlineU st _ sf st' rt hst hflat h
    exact ⟨ha.1, ha.2, fun hfu => by simp at hfu⟩
  case objectS props si ni targs =>
    cases hpl : props.length == 0 with
    | false =>
      simp only [hpl] at h
      cases si <;> cases ni <;>
        (try simp only [] at h) <;>
        exact ⟨(ih.objAlias st _ sf st' rt hst hflat h).1,
          (ih.objAlias st _ sf st' rt hst hflat h).2.1,
          fun _ => (ih.objAlias st _ sf st' rt hst hflat h).2.2⟩
    | true =>
      cases si with
      | some v =>
        simp only [hpl] at h
        (try simp only [] at h)
        have hflat' := hflat
        simp only [flatTy, flatShape, flatOptTy, Bool.and_eq_true] at hflat'
        obtain ⟨⟨⟨⟨hp, hsi⟩, hni⟩, hta⟩, hargs2⟩ := hflat'
        cases h1 : resolveType C fuel st v sf with
        | error e2 => simp only [h1] at h; exact absurd h (by simp)
        | ok r1 =>
          obtain ⟨st₁, vt⟩ := r1
          simp only [h1] at h
          simp only [Except.ok.injEq, Prod.mk.injEq] at h
          obtain ⟨rfl, rfl⟩ := h
          have ha := ih.type_ st v sf st₁ vt hst hsi h1
          exact ⟨ha.1, by simp [optionNF, ha.2.1], fun _ => rfl⟩
      | none =>
        simp only [hpl] at h
        (try simp only [] at h)
        cases ni with
        | some w =>
          (try simp only [] at h)
          have hflat' := hflat
          simp only [flatTy, flatShape, flatOptTy, Bool.and_eq_true] at hflat'
          obtain ⟨⟨⟨⟨hp, hsi⟩, hni⟩, hta⟩, hargs2⟩ := hflat'
          cases h1 : resolveType C fuel st w sf with
          | error e2 => simp only [h1] at h; exact absurd h (by simp)
          | ok r1 =>
            obtain ⟨st₁, vt⟩ := r1
            simp only [h1] at h
            simp only [Except.ok.injEq, Prod.mk.injEq] at h
            obtain ⟨rfl, rfl⟩ := h
            have ha := ih.type_ st w sf st₁ vt hst hni h1
            exact ⟨ha.1, by simp [optionNF, ha.2.1], fun _ => rfl⟩
        | none =>
          (try simp only [] at h)
          exact ⟨(ih.objAlias st _ sf st' rt hst hflat h).1,
            (ih.objAlias st _ sf st' rt hst hflat h).2.1,
            fun _ => (ih.objAlias st _ sf st' rt hst hflat h).2.2⟩
  all_goals first
    | (simp only [Except.ok.injEq, Prod.mk.injEq] at h
       obtain ⟨rfl, rfl⟩ := h
       exact ⟨hst, rfl, fun _ => rfl⟩)
    | (exact ⟨(ih.objAlias st _ sf st' rt hst hflat h).1,
        (ih.objAlias st _ sf st' rt hst hflat h).2.1,
        fun _ => (ih.objAlias st _ sf st' rt hst hflat h).2.2⟩)

end Ts2Rs
namespace Ts2Rs

/-- Step case for the head of `resolveType`. -/
theorem nf_step_type (C : Ctx) (fuel : Nat) (ih : NF C fuel) :
    ∀ st t sf st' rt, stOk st = true → flatTy t = true →
      resolveType C (fuel + 1) st t sf = .ok (st', rt) →
      stOk st' = true ∧ optionNF rt = true ∧
        (t.isUnion = false → rt.isOption = false) := by
  intro st t sf st' rt hst hflat h
  unfold resolveType at h
  (try simp only [] at h)
  split at h
  · obtain ⟨he, rfl⟩ := nf_handleValueFallback _ _ _ _ _ _ _ h
    rw [he]
    exact ⟨hst, rfl, fun _ => rfl⟩
  · cases hal : t.aliasSym with
    | none =>
      simp only [hal] at h
      exact ih.afterAlias st t sf st' rt hst hflat h
    | some a =>
      simp only [hal] at h
      split at h
      · exact ih.afterAlias st t sf st' rt hst hflat h
      · split at h
        · obtain ⟨he, rfl⟩ := nf_handleValueFallback _ _ _ _ _ _ _ h
          rw [he]
          exact ⟨hst, rfl, fun _ => rfl⟩
        · cases hd : a.declPath with
          | some pth =>
            simp only [hd] at h
            cases h1 : resolveTypeByName C fuel st a.name pth with
            | error e => simp only [h1] at h; exact absurd h (by simp)
            | ok r1 =>
              obtain ⟨st₁, u⟩ := r1
              cases u
              simp only [h1] at h
              have hst1 := ih.byName st a.name pth st₁ hst h1
              split at h
              · simp only [Except.ok.injEq, Prod.mk.injEq] at h
                obtain ⟨rfl, rfl⟩ := h
                exact ⟨hst1, rfl, fun _ => rfl⟩
              · exact ih.afterAlias st₁ t sf st' rt hst1 hflat h
          | none =>
            simp only [hd] at h
            exact ih.afterAlias st t sf st' rt hst hflat h

/-- The induction step: each statement at `fuel + 1` follows from the
bundle at `fuel`. -/
theorem nf_step (C : Ctx) (hP : flatProg C.P = true) (fuel : Nat) (ih : NF C fuel) :
    NF C (fuel + 1) where
  byName := nf_step_byName C hP fuel ih
  iface := nf_step_iface C fuel ih
  extLoop := nf_step_extLoop C fuel ih
  extract := nf_step_extract C fuel ih
  propsLoop := nf_step_propsLoop C fuel ih
  prop := nf_step_prop C fuel ih
  aliasT := nf_step_aliasT C fuel ih
  aliasProps := nf_step_aliasProps C fuel ih
  aliasUnion := nf_step_aliasUnion C fuel ih
  withNode := nf_step_withNode C fuel ih
  fromNode := nf_step_fromNode C fuel ih
  nodeRef := nf_step_nodeRef C fuel ih
  imported := nf_step_imported C fuel ih
  type_ := nf_step_type C fuel ih
  afterAlias := nf_step_afterAlias C fuel ih
  typesList := nf_step_typesList C fuel ih
  objAlias := nf_step_objAlias C fuel ih
  symbol := nf_step_symbol C fuel ih
  symbolTail := nf_step_symbolTail C fuel ih
  anon := nf_step_anon C fuel ih
  objFields := nf_step_objFields C fuel ih
  inlineU := nf_step_inlineU C fuel ih
  inlineRest := nf_step_inlineRest C fuel ih
  discU := nf_step_discU C fuel ih
  discVars := nf_step_discVars C fuel ih
  discFields := nf_step_discFields C fuel ih
  unionT := nf_step_unionT C fuel ih
  unionVars := nf_step_unionVars C fuel ih

/-- The full bundle holds for every fuel, for every flat program. -/
theorem nf_all (C : Ctx) (hP : flatProg C.P = true) : ∀ fuel, NF C fuel := by
  intro fuel
  induction fuel with
  | zero => exact nf_zero C
  | succ f ihf => exact nf_step C hP f ihf

end Ts2Rs
namespace Ts2Rs

/-- The explicit-roots loop preserves the collected-map invariant. -/
theorem nf_resolveRoots (C : Ctx) (hP : flatProg C.P = true) (fuel : Nat) :
    ∀ ns st st', stOk st = true → resolveRoots C fuel ns st = .ok st' →
      stOk st' = true := by
  intro ns
  induction ns with
  | nil =>
    intro st st' hst h
    simp only [resolveRoots, Except.ok.injEq] at h
    subst h
    exact hst
  | cons n rest ih =>
    intro st st' hst h
    simp only [resolveRoots] at h
    cases h1 : resolveTypeByName C fuel st n C.opts.entryFile with
    | error e => simp only [h1] at h; exact absurd h (by simp)
    | ok r1 =>
      obtain ⟨st₁, u⟩ := r1
      cases u
      simp only [h1] at h
      exact ih st₁ st' ((nf_all C hP fuel).byName st n C.opts.entryFile st₁ hst h1) h

/-- The exported-declarations loop preserves the collected-map invariant. -/
theorem nf_resolveExported (C : Ctx) (hP : flatProg C.P = true) (fuel : Nat) :
    ∀ ds st st', stOk st = true → resolveExportedLoop C fuel ds st = .ok st' →
      stOk st' = true := by
  intro ds
  induction ds with
  | nil =>
    intro st st' hst h
    simp only [resolveExportedLoop, Except.ok.injEq] at h
    subst h
    exact hst
  | cons d rest ih =>
    intro st st' hst h
    simp only [resolveExportedLoop] at h
    cases h1 : resolveTypeByName C fuel st d.name C.opts.entryFile with
    | error e => simp only [h1] at h; exact absurd h (by simp)
    | ok r1 =>
      obtain ⟨st₁, u⟩ := r1
      cases u
      simp only [h1] at h
      exact ih st₁ st' ((nf_all C hP fuel).byName st d.name C.opts.entryFile st₁ hst h1) h

/-- Projecting the collected map to its values preserves the all-normal-form
statement. -/
theorem all_map_snd (m : List (String × CollectedType)) :
    m.all (fun q => optionNF q.2.type_) = true →
    ((m.map fun x => x.2).all fun ct => optionNF ct.type_) = true := by
  induction m with
  | nil => intro h2; rfl
  | cons q qs ihq =>
    intro hm
    simp only [List.all_cons, Bool.and_eq_true] at hm
    simp only [List.map, List.all_cons, Bool.and_eq_true]
    exact ⟨hm.1, ihq hm.2⟩

/-- A successful full run of `resolve()` ends with every collected type in
option normal form. -/
theorem nf_resolveRun (C : Ctx) (hP : flatProg C.P = true) (fuel : Nat)
    (st : St) (types : List CollectedType)
    (h : resolveRun C fuel = .ok (st, types)) :
    stOk st = true ∧ (types.all fun ct => optionNF ct.type_) = true := by
  unfold resolveRun at h
  (try simp only [] at h)
  cases htn : C.opts.typeNames with
  | none =>
    simp only [htn] at h
    cases hr : resolveExportedLoop C fuel
        (C.P.filter fun d => d.path == C.opts.entryFile && d.exported) St.empty with
    | error e => simp only [hr] at h; exact absurd h (by simp)
    | ok st0 =>
      simp only [hr] at h
      simp only [Except.ok.injEq, Prod.mk.injEq] at h
      obtain ⟨rfl, rfl⟩ := h
      have hst := nf_resolveExported C hP fuel _ St.empty st0 (by rfl) hr
      exact ⟨hst, all_map_snd _ hst⟩
  | some l =>
    cases l with
    | nil =>
      simp only [htn] at h
      cases hr : resolveExportedLoop C fuel
          (C.P.filter fun d => d.path == C.opts.entryFile && d.exported) St.empty with
      | error e => simp only [hr] at h; exact absurd h (by simp)
      | ok st0 =>
        simp only [hr] at h
        simp only [Except.ok.injEq, Prod.mk.injEq] at h
        obtain ⟨rfl, rfl⟩ := h
        have hst := nf_resolveExported C hP fuel _ St.empty st0 (by rfl) hr
        exact ⟨hst, all_map_snd _ hst⟩
    | cons n ns =>
      simp only [htn] at h
      cases hr : resolveRoots C fuel (n :: ns) St.empty with
      | error e => simp only [hr] at h; exact absurd h (by simp)
      | ok st0 =>
        simp only [hr] at h
        simp only [Except.ok.injEq, Prod.mk.injEq] at h
        obtain ⟨rfl, rfl⟩ := h
        have hst := nf_resolveRoots C hP fuel (n :: ns) St.empty st0 (by rfl) hr
        exact ⟨hst, all_map_snd _ hst⟩

end Ts2Rs
namespace Ts2Rs

/-- **C3.** Option normal form.  First conjunct: for a flat program (the
checker hands the resolver flattened unions) and a state whose collected
types are all in option normal form, every successful `resolveType`
returns a result in option normal form — no `option` node directly contains
another `option` — and keeps every collected type in normal form.  Second
conjunct: when a property's type resolves to `option(X)` already,
`resolveProperty` leaves the type unchanged (no second wrap), whether or
not the property is optional.  Third conjunct: a successful full
`resolve()` run over a flat program ends with every collected type in
option normal form. -/
theorem option_normal_form :
    (∀ (C : Ctx) (fuel : Nat) (st : St) (t : Ty) (sf : String)
        (st' : St) (rt : ResolvedType),
      flatProg C.P = true → stOk st = true → flatTy t = true →
      resolveType C fuel st t sf = .ok (st', rt) →
      optionNF rt = true ∧ stOk st' = true) ∧
    (∀ (C : Ctx) (fuel : Nat) (st st₁ : St) (p : PropSig) (sf : String)
        (X : ResolvedType),
      resolveType C fuel st p.ty sf = .ok (st₁, .option X) →
      resolveProperty C (fuel + 1) st p sf =
        .ok (st₁, .mk p.name (.option X) p.hasQuestionToken)) ∧
    (∀ (C : Ctx) (fuel : Nat) (st : St) (types : List CollectedType),
      flatProg C.P = true →
      resolveRun C fuel = .ok (st, types) →
      (types.all fun ct => optionNF ct.type_) = true) := by
  refine ⟨?_, ?_, ?_⟩
  · intro C fuel st t sf st' rt hP hst hflat h
    have ha := (nf_all C hP fuel).type_ st t sf st' rt hst hflat h
    exact ⟨ha.2.1, ha.1⟩
  · intro C fuel st st₁ p sf X h
    unfold resolveProperty
    rw [h]
    simp [ResolvedType.isOption]
  · intro C fuel st types hP h
    exact (nf_resolveRun C hP fuel st types h).2

/-- Witness for C3 at concrete inputs: `string` resolves in normal form over
the empty program; the inline union `string | null` resolves to
`option(string)` and the (optional-free) property keeps it unchanged; the
run of `type T6 = { kind: 0; a: number } | { kind: 1; b: number }` collects
only normal-form types. -/
theorem option_normal_form_witness :
    (flatProg ctxC7.P = true ∧ stOk St.empty = true ∧ flatTy strTy = true ∧
      resolveType ctxC7 2 St.empty strTy entryPath =
        .ok (St.empty, .primitive .string) ∧
      optionNF (.primitive .string) = true ∧ stOk St.empty = true) ∧
    (resolveType ctxC7 10 St.empty
        (PropSig.ty (prp "x" (.mk (.unionS [nullTy, strTy]) none none "string | null" [])))
        entryPath = .ok (St.empty, .option (.primitive .string)) ∧
      resolveProperty ctxC7 11 St.empty
        (prp "x" (.mk (.unionS [nullTy, strTy]) none none "string | null" []))
        entryPath = .ok (St.empty, .mk "x" (.option (.primitive .string)) false)) ∧
    (flatProg ctxC6.P = true ∧
      resolveRun ctxC6 20 =
        .ok ({ collectedTypes :=
                 [("T6", ⟨"T6", .union "T6" [v60, v61] (some "kind"), entryPath⟩)] },
             [⟨"T6", .union "T6" [v60, v61] (some "kind"), entryPath⟩]) ∧
      ([(⟨"T6", .union "T6" [v60, v61] (some "kind"), entryPath⟩ : CollectedType)].all
        fun ct => optionNF ct.type_) = true) := by
  refine ⟨⟨by rfl, by rfl, by rfl, by rfl, ?_, ?_⟩, ⟨by rfl, ?_⟩, ⟨by rfl, by rfl, ?_⟩⟩
  · exact (option_normal_form.1 ctxC7 2 St.empty strTy entryPath St.empty
      (.primitive .string) (by rfl) (by rfl) (by rfl) (by rfl)).1
  · exact (option_normal_form.1 ctxC7 2 St.empty strTy entryPath St.empty
      (.primitive .string) (by rfl) (by rfl) (by rfl) (by rfl)).2
  · exact option_normal_form.2.1 ctxC7 10 St.empty St.empty
      (prp "x" (.mk (.unionS [nullTy, strTy]) none none "string | null" []))
      entryPath (.primitive .string) (by rfl)
  · exact option_normal_form.2.2 ctxC6 20
      { collectedTypes :=
          [("T6", ⟨"T6", .union "T6" [v60, v61] (some "kind"), entryPath⟩)] }
      [⟨"T6", .union "T6" [v60, v61] (some "kind"), entryPath⟩]
      (by rfl) (by rfl)

end Ts2Rs
